import Mathlib

/-!
# godb: lexer, parser and in-memory backend

A shallow embedding of `internal/lexer.go`, `internal/parser.go`,
`internal/memory.go`, `cmd/ast.go` and `cmd/backend.go`, followed by theorems
about them.

Conventions of the embedding.

* A Go `string` / `[]byte` is a list of bytes, each byte a natural number
  (`GoString`).  Unsigned machine integers (`uint` cursors, lines, columns)
  are naturals: no source handled here is long enough to wrap a 64-bit
  counter.
* A Go run-time panic (index out of range, nil dereference, explicit
  `panic(err)`) is the value `Fault.panic`.  Loops whose termination is not
  structural carry a fuel argument; running out of fuel is `Fault.fuel`.
* Loops of the form `for ; cur.pointer < len(source); cur.pointer++` that read
  `source[cur.pointer]` are written as recursions over the remaining bytes
  `source[cur.pointer:]`, with the cursor threaded along.
* `fmt.Println` / `fmt.Printf` diagnostics have no effect on results and are
  left out, except that the index expressions evaluated for them are kept
  (`helpMessage`).
-/

namespace Godb

/-! ## Strings and faults -/

/-- A Go string: a sequence of bytes. -/
abbrev GoString := List Nat

/-- Bytes of an ASCII literal (code point = byte for ASCII). -/
def str (s : String) : GoString := s.data.map Char.toNat

/-- Abnormal ends of a computation: a Go panic, or the fuel of the model ran out. -/
inductive Fault where
  | panic
  | fuel
  deriving DecidableEq, Repr

/-! ## cmd/backend.go -/

/-- `ColumnType`: `TextType = 0`, `IntType = 1`. -/
inductive ColumnType where
  | TextType
  | IntType
  deriving DecidableEq, Repr

/-- The closed set of backend errors. -/
inductive BackendError where
  | ErrTableDoesNotExist
  | ErrColumnDoesNotExist
  | ErrInvalidSelectItem
  | ErrInvalidDatatype
  | ErrMissingValues
  deriving DecidableEq, Repr

/-- The exact spelling of each backend error (`errors.New(...)`). -/
def BackendError.message : BackendError → String
  | .ErrTableDoesNotExist => "table does not exist"
  | .ErrColumnDoesNotExist => "column does not exist"
  | .ErrInvalidSelectItem => "select item is not valid"
  | .ErrInvalidDatatype => "invalid datatype"
  | .ErrMissingValues => "missing values"

/-! ## internal/lexer.go: data -/

structure location where
  line : Nat
  column : Nat
  deriving DecidableEq, Repr

inductive tokenKind where
  | KEYWORD
  | SYMBOL
  | IDENTIFIER
  | STRING
  | NUMERIC
  deriving DecidableEq, Repr

structure token where
  value : GoString
  kind : tokenKind
  loc : location
  deriving DecidableEq, Repr

structure cursor where
  pointer : Nat
  loc : location
  deriving DecidableEq, Repr

/-- `func (t *token) equals(other *token) bool`. -/
def token.equals (t other : token) : Bool :=
  decide (t.value = other.value) && decide (t.kind = other.kind)

/-! ## cmd/ast.go -/

/-- `type expressionKind uint`; the only declared constant is `literalKind = 0`. -/
abbrev expressionKind := Nat

def literalKind : expressionKind := 0

structure expression where
  literal : token
  kind : expressionKind
  deriving DecidableEq, Repr

structure SelectStatement where
  item : List expression
  «from» : token
  deriving DecidableEq, Repr

/-- `values *[]*expression`: `none` is the nil pointer. -/
structure InsertStatement where
  table : token
  values : Option (List expression)
  deriving DecidableEq, Repr

structure columnDefinition where
  name : token
  datatype : token
  deriving DecidableEq, Repr

/-- `cols *[]*columnDefinition`: `none` is the nil pointer. -/
structure CreateStatement where
  name : token
  cols : Option (List columnDefinition)
  deriving DecidableEq, Repr

inductive StatementKind where
  | SelectStmtKind
  | CreateStmtKind
  | InsertStmtKind
  deriving DecidableEq, Repr

/-- The `Statement` union: three nullable pointers and a discriminant. -/
structure Statement where
  SelectStatement : Option SelectStatement
  CreateStatement : Option CreateStatement
  InsertStatement : Option InsertStatement
  Kind : StatementKind
  deriving DecidableEq, Repr

structure Ast where
  Statements : List Statement
  deriving DecidableEq, Repr

/-! ## internal/memory.go -/

/-- `type MemoryCell []byte`. -/
abbrev MemoryCell := List Nat

/-- `binary.BigEndian.Uint64` of eight bytes. -/
def beUint64 (bs : List Nat) : Nat :=
  bs.foldl (fun acc b => acc * 256 + b) 0

/-- Reinterpretation of a 64-bit pattern as `int64` (two's complement). -/
def toInt64 (u : Nat) : Int :=
  if u < 2 ^ 63 then (u : Int) else (u : Int) - 2 ^ 64

/-- `func (mc MemoryCell) AsInt() int64`: `binary.Read` of an `int64` takes the
first eight bytes of the buffer and fails (here: panics) when there are fewer. -/
def MemoryCell.AsInt (mc : MemoryCell) : Except Fault Int :=
  if mc.length < 8 then .error .panic
  else .ok (toInt64 (beUint64 (mc.take 8)))

/-- `func (mc MemoryCell) AsText() string`. -/
def MemoryCell.AsText (mc : MemoryCell) : GoString := mc

structure table where
  columns : List GoString
  columnTypes : List ColumnType
  rows : List (List MemoryCell)
  deriving DecidableEq, Repr

/-- `tables map[string]*table`: a finite map, as a lookup function. -/
structure MemoryBackend where
  tables : GoString → Option table

def NewMemoryBackend : MemoryBackend := ⟨fun _ => none⟩

/-- `mb.tables[name] = &t`. -/
def MemoryBackend.set (mb : MemoryBackend) (name : GoString) (t : table) : MemoryBackend :=
  ⟨fun k => if k = name then some t else mb.tables k⟩

/-- The column loop of `CreateTable`: returns the table as it stands when the
loop ends, and the error if the loop ended in `return ErrInvalidDatatype`.
The column name is appended before the datatype is examined. -/
def createColumns : List columnDefinition → table → table × Option BackendError
  | [], t => (t, none)
  | col :: rest, t =>
    let t1 := { t with columns := t.columns ++ [col.name.value] }
    if col.datatype.value = str "int" then
      createColumns rest { t1 with columnTypes := t1.columnTypes ++ [ColumnType.IntType] }
    else if col.datatype.value = str "text" then
      createColumns rest { t1 with columnTypes := t1.columnTypes ++ [ColumnType.TextType] }
    else (t1, some BackendError.ErrInvalidDatatype)

/-- `func (mb *MemoryBackend) CreateTable(crt *CreateStatement) error`.
The table is registered before its columns are filled in; since the map holds
a pointer, the registered table is the one reached when the function returns. -/
def MemoryBackend.CreateTable (mb : MemoryBackend) (crt : CreateStatement) :
    MemoryBackend × Option BackendError :=
  let t : table := ⟨[], [], []⟩
  match crt.cols with
  | none => (mb.set crt.name.value t, none)
  | some cols =>
    let r := createColumns cols t
    (mb.set crt.name.value r.1, r.2)

/-- Value of a string of decimal digits, most significant first. -/
def digitsValue (ds : GoString) : Nat :=
  ds.foldl (fun acc d => acc * 10 + (d - 48)) 0

def isDigitByte (c : Nat) : Bool := decide (48 ≤ c) && decide (c ≤ 57)

/-- `strconv.Atoi` of the Go standard library on a 64-bit platform: an optional
sign followed by one or more decimal digits, the result within `int64`;
anything else is an error (`none`). -/
def Atoi (s : GoString) : Option Int :=
  let neg := decide (s.head? = some 45)
  let body := if s.head? = some 45 ∨ s.head? = some 43 then s.tail else s
  if body = [] then none
  else if !body.all isDigitByte then none
  else
    let n := digitsValue body
    if neg then (if n ≤ 2 ^ 63 then some (-(n : Int)) else none)
    else (if n < 2 ^ 63 then some (n : Int) else none)

/-- `binary.Write(buf, binary.BigEndian, int64(i))`: the eight bytes of the
two's-complement pattern, most significant first. -/
def putInt64 (i : Int) : List Nat :=
  let u := (i % 2 ^ 64).toNat
  [u / 2 ^ 56 % 256, u / 2 ^ 48 % 256, u / 2 ^ 40 % 256, u / 2 ^ 32 % 256,
   u / 2 ^ 24 % 256, u / 2 ^ 16 % 256, u / 2 ^ 8 % 256, u % 256]

/-- `func (mb *MemoryBackend) tokenToCell(t *token) MemoryCell`. -/
def tokenToCell (t : token) : Except Fault MemoryCell :=
  if t.kind = tokenKind.NUMERIC then
    match Atoi t.value with
    | none => .error .panic
    | some i => .ok (putInt64 i)
  else if t.kind = tokenKind.STRING then .ok t.value
  else .ok []

/-- The value loop of `Insert`. -/
def insertRow : List expression → List MemoryCell → Except Fault (List MemoryCell)
  | [], row => .ok row
  | value :: rest, row =>
    if value.kind ≠ literalKind then insertRow rest row
    else
      match tokenToCell value.literal with
      | .error f => .error f
      | .ok cell => insertRow rest (row ++ [cell])

/-- `func (mb *MemoryBackend) Insert(inst *InsertStatement) error`. -/
def MemoryBackend.Insert (mb : MemoryBackend) (inst : InsertStatement) :
    Except Fault (MemoryBackend × Option BackendError) :=
  match mb.tables inst.table.value with
  | none => .ok (mb, some .ErrTableDoesNotExist)
  | some table =>
    match inst.values with
    | none => .ok (mb, none)
    | some values =>
      if values.length ≠ table.columns.length then .ok (mb, some .ErrMissingValues)
      else
        match insertRow values [] with
        | .error f => .error f
        | .ok row =>
          .ok (mb.set inst.table.value { table with rows := table.rows ++ [row] }, none)

/-- One column of a result header. -/
structure ResultColumn where
  type : ColumnType
  Name : GoString
  deriving DecidableEq, Repr

structure Results where
  Columns : List ResultColumn
  Row : List (List MemoryCell)
  deriving DecidableEq, Repr

/-- The innermost loop of `Select`: index of the first column equal to `name`. -/
def findColumn : List GoString → GoString → Nat → Option Nat
  | [], _, _ => none
  | tableCol :: rest, name, i =>
    if tableCol = name then some i else findColumn rest name (i + 1)

/-- The item loop of `Select` for one row.  The outer `Except` is a panic
(`table.columnTypes[i]` or `row[i]` out of range), the inner one a returned
error. -/
def selectItems (t : table) (row : List MemoryCell) (isFirstRow : Bool) :
    List expression → List ResultColumn → List MemoryCell →
    Except Fault (Except BackendError (List ResultColumn × List MemoryCell))
  | [], columns, result => .ok (.ok (columns, result))
  | exp :: rest, columns, result =>
    if exp.kind ≠ literalKind then selectItems t row isFirstRow rest columns result
    else
      let lit := exp.literal
      if lit.kind = tokenKind.IDENTIFIER then
        match findColumn t.columns lit.value 0 with
        | none => .ok (.error .ErrColumnDoesNotExist)
        | some i =>
          let header : Except Fault (List ResultColumn) :=
            if isFirstRow then
              match t.columnTypes[i]? with
              | none => .error .panic
              | some ty => .ok (columns ++ [⟨ty, lit.value⟩])
            else .ok columns
          match header with
          | .error f => .error f
          | .ok columns1 =>
            match row[i]? with
            | none => .error .panic
            | some cell => selectItems t row isFirstRow rest columns1 (result ++ [cell])
      else .ok (.error .ErrColumnDoesNotExist)

/-- The row loop of `Select`; `i` is the index of the row at the head. -/
def selectRows (t : table) (items : List expression) :
    List (List MemoryCell) → Nat → List ResultColumn → List (List MemoryCell) →
    Except Fault (Except BackendError Results)
  | [], _, columns, results => .ok (.ok ⟨columns, results⟩)
  | row :: rest, i, columns, results =>
    match selectItems t row (decide (i = 0)) items columns [] with
    | .error f => .error f
    | .ok (.error e) => .ok (.error e)
    | .ok (.ok (columns1, result)) =>
      selectRows t items rest (i + 1) columns1 (results ++ [result])

/-- `func (mb *MemoryBackend) Select(slct *SelectStatement) (*Results, error)`. -/
def MemoryBackend.Select (mb : MemoryBackend) (slct : SelectStatement) :
    Except Fault (Except BackendError Results) :=
  match mb.tables slct.from.value with
  | none => .ok (.error .ErrTableDoesNotExist)
  | some table => selectRows table slct.item table.rows 0 [] []

/-! ## internal/lexer.go: functions -/

/-- The keyword constants, in the order of the slice built in `lexKeyword`. -/
def keywords : List GoString :=
  [str "select", str "insert", str "values", str "table", str "create", str "where",
   str "from", str "into", str "int", str "text", str "as"]

/-- The symbol constants, in the order of the slice built in `lexSymbol`. -/
def symbols : List GoString :=
  [str ",", str "(", str ")", str ";", str "*"]

/-- Result of a sub-lexer: `(*token, cursor, bool)`. -/
structure LexOut where
  tok : Option token
  cur : cursor
  ok : Bool
  deriving DecidableEq, Repr

/-- ASCII lower-casing of one byte. -/
def lowerByte (c : Nat) : Nat := if 65 ≤ c ∧ c ≤ 90 then c + 32 else c

/-- `strings.ToLower` on a string of ASCII bytes. -/
def toLowerASCII (s : GoString) : GoString := s.map lowerByte

/-- `strings.ToLower(string(b))` for a byte `b`: the conversion of an integer to
a string gives the UTF-8 encoding of the code point `b`, so a byte of 128 or
more becomes two bytes (after Unicode lower-casing within Latin-1). -/
def lowerRune (b : Nat) : GoString :=
  if b < 128 then [lowerByte b]
  else
    let r := if 192 ≤ b ∧ b ≤ 222 ∧ b ≠ 215 then b + 32 else b
    [192 + r / 64, 128 + r % 64]

/-- The `match:` loop of `longestMatch` over the options, for the accumulated
`value` and `n = cur.pointer - ic.pointer`; `i` is the index of the option at
the head.  `none` is the panic of the slice expression `option[:n]` when
`n > len(option)`. -/
def matchOptions (value : GoString) (n : Nat) :
    List GoString → Nat → List Nat → GoString → Option (List Nat × GoString)
  | [], _, skiplist, «match» => some (skiplist, «match»)
  | option :: rest, i, skiplist, «match» =>
    if i ∈ skiplist then matchOptions value n rest (i + 1) skiplist «match»
    else if option = value then
      matchOptions value n rest (i + 1) (skiplist ++ [i])
        (if option.length > «match».length then option else «match»)
    else if option.length < n then none
    else
      let sharesPrefix := decide (value = option.take n)
      let tooLong := decide (value.length > option.length)
      if tooLong || !sharesPrefix then
        matchOptions value n rest (i + 1) (skiplist ++ [i]) «match»
      else matchOptions value n rest (i + 1) skiplist «match»

/-- The outer loop of `longestMatch`, over the bytes `source[cur.pointer:]`. -/
def longestMatchLoop (options : List GoString) :
    GoString → Nat → GoString → List Nat → GoString → Option GoString
  | [], _, _, _, «match» => some «match»
  | c :: rest, n, value, skiplist, «match» =>
    let value1 := value ++ lowerRune c
    match matchOptions value1 (n + 1) options 0 skiplist «match» with
    | none => none
    | some (skiplist1, match1) =>
      if skiplist1.length = options.length then some match1
      else longestMatchLoop options rest (n + 1) value1 skiplist1 match1

/-- `func longestMatch(source string, ic cursor, options []string) string`;
`none` is a panic. -/
def longestMatch (source : GoString) (ic : cursor) (options : List GoString) :
    Option GoString :=
  longestMatchLoop options (source.drop ic.pointer) 0 [] [] []

/-- The loop of `lexCharacterDelimited`, over the bytes `source[cur.pointer:]`.
In the escape branch the delimiter is appended, the cursor moved on, and then,
there being no `continue`, the byte `c` (the delimiter again) is appended by the
common tail of the loop body. -/
def delimitedLoop (delimiter : Nat) (ic : cursor) :
    GoString → cursor → GoString → LexOut
  | [], _, _ => ⟨none, ic, false⟩
  | c :: rest, cur, value =>
    if c = delimiter then
      match rest with
      | [] =>
        ⟨some ⟨value, tokenKind.STRING, ic.loc⟩,
          ⟨cur.pointer + 1, ⟨cur.loc.line, cur.loc.column + 1⟩⟩, true⟩
      | next :: rest1 =>
        if next ≠ delimiter then
          ⟨some ⟨value, tokenKind.STRING, ic.loc⟩,
            ⟨cur.pointer + 1, ⟨cur.loc.line, cur.loc.column + 1⟩⟩, true⟩
        else
          delimitedLoop delimiter ic rest1
            ⟨cur.pointer + 1 + 1, ⟨cur.loc.line, cur.loc.column + 1 + 1⟩⟩
            ((value ++ [delimiter]) ++ [c])
    else
      delimitedLoop delimiter ic rest
        ⟨cur.pointer + 1, ⟨cur.loc.line, cur.loc.column + 1⟩⟩ (value ++ [c])

/-- `func lexCharacterDelimited(source string, ic cursor, delimiter byte)`;
`none` is the panic of `source[cur.pointer:]` when the pointer is beyond the
end. -/
def lexCharacterDelimited (source : GoString) (ic : cursor) (delimiter : Nat) :
    Option LexOut :=
  if source.length < ic.pointer then none
  else
    match source.drop ic.pointer with
    | [] => some ⟨none, ic, false⟩
    | c :: rest =>
      if c ≠ delimiter then some ⟨none, ic, false⟩
      else
        some (delimitedLoop delimiter ic rest
          ⟨ic.pointer + 1, ⟨ic.loc.line, ic.loc.column + 1⟩⟩ [])

/-- `func lexString(source string, ic cursor)`. -/
def lexString (source : GoString) (ic : cursor) : Option LexOut :=
  lexCharacterDelimited source ic 39

def isAlphabetByte (c : Nat) : Bool :=
  (decide (65 ≤ c) && decide (c ≤ 90)) || (decide (97 ≤ c) && decide (c ≤ 122))

/-- The loop of `lexIdentifier`, over the bytes `source[cur.pointer:]`. -/
def identifierLoop : GoString → cursor → GoString → cursor × GoString
  | [], cur, value => (cur, value)
  | c :: rest, cur, value =>
    if isAlphabetByte c || isDigitByte c || decide (c = 36) || decide (c = 95) then
      identifierLoop rest ⟨cur.pointer + 1, ⟨cur.loc.line, cur.loc.column + 1⟩⟩
        (value ++ [c])
    else (cur, value)

/-- `func lexIdentifier(source string, ic cursor)`.  A successful
double-quoted form is returned as `lexCharacterDelimited` built it. -/
def lexIdentifier (source : GoString) (ic : cursor) : Option LexOut :=
  match lexCharacterDelimited source ic 34 with
  | none => none
  | some r =>
    if r.ok then some r
    else
      match source.drop ic.pointer with
      | [] => none
      | c :: rest =>
        if !isAlphabetByte c then some ⟨none, ic, false⟩
        else
          let r1 := identifierLoop rest
            ⟨ic.pointer + 1, ⟨ic.loc.line, ic.loc.column + 1⟩⟩ [c]
          if r1.2.length = 0 then some ⟨none, ic, false⟩
          else some ⟨some ⟨toLowerASCII r1.2, tokenKind.IDENTIFIER, ic.loc⟩, r1.1, true⟩

/-- `func lexSymbol(source string, ic cursor)`. -/
def lexSymbol (source : GoString) (ic : cursor) : Option LexOut :=
  match source.drop ic.pointer with
  | [] => none
  | c :: _ =>
    if c = 10 then some ⟨none, ⟨ic.pointer + 1, ⟨ic.loc.line + 1, 0⟩⟩, true⟩
    else if c = 9 ∨ c = 32 then
      some ⟨none, ⟨ic.pointer + 1, ⟨ic.loc.line, ic.loc.column + 1⟩⟩, true⟩
    else
      match longestMatch source ic symbols with
      | none => none
      | some «match» =>
        if «match» = [] then some ⟨none, ic, false⟩
        else
          some ⟨some ⟨«match», tokenKind.SYMBOL, ic.loc⟩,
            ⟨ic.pointer + «match».length,
              ⟨ic.loc.line, ic.loc.column + «match».length⟩⟩, true⟩

/-- The loop of `lexNumeric`, over the bytes `source[cur.pointer:]`: `none` is
a `return nil, ic, false` from inside the loop, `some cur` the cursor with
which the loop is left.  The column is advanced before the byte is examined,
also for the byte at which the loop breaks. -/
def numericLoop (ic : cursor) : GoString → cursor → Bool → Bool → Option cursor
  | [], cur, _, _ => some cur
  | c :: rest, cur, decimalFound, exponentFound =>
    let isDigit := isDigitByte c
    let isDecimal := decide (c = 46)
    let isExponent := decide (c = 101) || decide (c = 69)
    if cur.pointer = ic.pointer then
      if !isDigit && !isDecimal then none
      else
        numericLoop ic rest ⟨cur.pointer + 1, ⟨cur.loc.line, cur.loc.column + 1⟩⟩
          isDecimal exponentFound
    else if isDecimal then
      if decimalFound then none
      else
        numericLoop ic rest ⟨cur.pointer + 1, ⟨cur.loc.line, cur.loc.column + 1⟩⟩
          true exponentFound
    else if isExponent then
      if exponentFound then none
      else
        match rest with
        | [] => none
        | cNext :: rest1 =>
          if cNext = 45 ∨ cNext = 43 then
            numericLoop ic rest1
              ⟨cur.pointer + 1 + 1, ⟨cur.loc.line, cur.loc.column + 1 + 1⟩⟩ true true
          else
            numericLoop ic (cNext :: rest1)
              ⟨cur.pointer + 1, ⟨cur.loc.line, cur.loc.column + 1⟩⟩ true true
    else if !isDigit then some ⟨cur.pointer, ⟨cur.loc.line, cur.loc.column + 1⟩⟩
    else
      numericLoop ic rest ⟨cur.pointer + 1, ⟨cur.loc.line, cur.loc.column + 1⟩⟩
        decimalFound exponentFound

/-- `func lexNumeric(source string, ic cursor)`. -/
def lexNumeric (source : GoString) (ic : cursor) : Option LexOut :=
  match numericLoop ic (source.drop ic.pointer) ic false false with
  | none => some ⟨none, ic, false⟩
  | some cur =>
    if cur.pointer = ic.pointer then some ⟨none, ic, false⟩
    else
      some ⟨some ⟨(source.drop ic.pointer).take (cur.pointer - ic.pointer),
          tokenKind.NUMERIC, ic.loc⟩, cur, true⟩

/-- `func lexKeyword(source string, ic cursor)`. -/
def lexKeyword (source : GoString) (ic : cursor) : Option LexOut :=
  match longestMatch source ic keywords with
  | none => none
  | some «match» =>
    if «match» = [] then some ⟨none, ic, false⟩
    else
      some ⟨some ⟨«match», tokenKind.KEYWORD, ic.loc⟩,
        ⟨ic.pointer + «match».length,
          ⟨ic.loc.line, ic.loc.column + «match».length⟩⟩, true⟩

/-- The error of `lex`: `unidentified token <hint>, at <line>:<column>`. -/
structure LexError where
  errorHint : GoString
  line : Nat
  column : Nat
  deriving DecidableEq, Repr

/-- The inner `for _, lexer := range lexers` of `lex`: the result of the first
sub-lexer that succeeds, `some none` when none does. -/
def tryLexers (source : GoString) (cur : cursor) :
    List (GoString → cursor → Option LexOut) → Option (Option LexOut)
  | [] => some none
  | lexer :: rest =>
    match lexer source cur with
    | none => none
    | some r => if r.ok then some (some r) else tryLexers source cur rest

/-- The `lex:` loop of `lex`. -/
def lexLoop (source : GoString) :
    Nat → cursor → List token → Except Fault (Except LexError (List token))
  | 0, cur, tokens =>
    if cur.pointer < source.length then .error .fuel else .ok (.ok tokens)
  | fuel + 1, cur, tokens =>
    if cur.pointer < source.length then
      match tryLexers source cur
          [lexKeyword, lexSymbol, lexString, lexNumeric, lexIdentifier] with
      | none => .error .panic
      | some (some r) =>
        lexLoop source fuel r.cur
          (match r.tok with
           | some t => tokens ++ [t]
           | none => tokens)
      | some none =>
        .ok (.error
          ⟨match tokens.getLast? with
            | some t => str "after " ++ t.value
            | none => [],
           cur.loc.line, cur.loc.column⟩)
    else .ok (.ok tokens)

/-- `func lex(source string) ([]*token, error)`.  Every successful step moves
the pointer forward, so `len(source)` steps of fuel are enough. -/
def lex (source : GoString) : Except Fault (Except LexError (List token)) :=
  lexLoop source source.length ⟨0, ⟨0, 0⟩⟩ []

/-! ## internal/parser.go -/

/-- `func tokenFromKeyword(k keyword) token`. -/
def tokenFromKeyword (k : GoString) : token := ⟨k, tokenKind.KEYWORD, ⟨0, 0⟩⟩

/-- `func tokenFromSymbol(s symbol) token`. -/
def tokenFromSymbol (s : GoString) : token := ⟨s, tokenKind.SYMBOL, ⟨0, 0⟩⟩

/-- `func helpMessage(tokens []*token, cursor uint, msg string)`: only the
index expression matters; `tokens[cursor-1]` with `cursor = 0` wraps around
and is out of range. -/
def helpMessage (tokens : List token) (cursor : Nat) : Except Fault Unit :=
  if cursor < tokens.length then .ok ()
  else if 1 ≤ cursor ∧ cursor - 1 < tokens.length then .ok ()
  else .error .panic

/-- `func expectToken(tokens []*token, cursor uint, t token) bool`. -/
def expectToken (tokens : List token) (cursor : Nat) (t : token) : Bool :=
  match tokens[cursor]? with
  | none => false
  | some current => t.equals current

/-- Result of a sub-parser, `(*T, uint, bool)`: every `return` of the parser is
either `(value, cursor, true)` or `(nil, cursor, false)`. -/
inductive PResult (α : Type) where
  | matched (value : α) (cursor : Nat)
  | notMatched (cursor : Nat)
  deriving DecidableEq, Repr

/-- `func parseToken(tokens []*token, initialCursor uint, kind tokenKind)`. -/
def parseToken (tokens : List token) (initialCursor : Nat) (kind : tokenKind) :
    PResult token :=
  match tokens[initialCursor]? with
  | none => .notMatched initialCursor
  | some current =>
    if current.kind = kind then .matched current (initialCursor + 1)
    else .notMatched initialCursor

/-- The loop over `kinds` in `parseExpression`. -/
def parseExpressionKinds (tokens : List token) (initialCursor : Nat) :
    List tokenKind → PResult expression
  | [] => .notMatched initialCursor
  | kind :: rest =>
    match parseToken tokens initialCursor kind with
    | .matched t newCursor => .matched ⟨t, literalKind⟩ newCursor
    | .notMatched _ => parseExpressionKinds tokens initialCursor rest

/-- `func parseExpression(tokens []*token, initialCursor uint, _ token)`. -/
def parseExpression (tokens : List token) (initialCursor : Nat) (_ : token) :
    PResult expression :=
  parseExpressionKinds tokens initialCursor
    [tokenKind.IDENTIFIER, tokenKind.NUMERIC, tokenKind.STRING]

/-- The `outer:` loop of `parseExpressions`. -/
def parseExpressionsLoop (tokens : List token) (initialCursor : Nat)
    (delimiters : List token) :
    Nat → Nat → List expression → Except Fault (PResult (List expression))
  | 0, _, _ => .error .fuel
  | fuel + 1, cursor, exps =>
    match tokens[cursor]? with
    | none => .ok (.notMatched initialCursor)
    | some current =>
      if delimiters.any (fun delimiter => delimiter.equals current) then
        .ok (.matched exps cursor)
      else if 0 < exps.length ∧ expectToken tokens cursor (tokenFromSymbol (str ",")) = false then
        match helpMessage tokens cursor with
        | .error f => .error f
        | .ok _ => .ok (.notMatched initialCursor)
      else
        let cursor1 := if 0 < exps.length then cursor + 1 else cursor
        match parseExpression tokens cursor1 (tokenFromSymbol (str ",")) with
        | .notMatched _ =>
          match helpMessage tokens cursor1 with
          | .error f => .error f
          | .ok _ => .ok (.notMatched initialCursor)
        | .matched exp newCursor =>
          parseExpressionsLoop tokens initialCursor delimiters fuel newCursor (exps ++ [exp])

/-- `func parseExpressions(tokens []*token, initialCursor uint, delimiters []token)`.
Each turn of the loop that does not return consumes a token, so
`len(tokens) + 1` turns of fuel are enough. -/
def parseExpressions (tokens : List token) (initialCursor : Nat) (delimiters : List token) :
    Except Fault (PResult (List expression)) :=
  parseExpressionsLoop tokens initialCursor delimiters (tokens.length + 1) initialCursor []

/-- The loop of `parseColumnDefinitions`. -/
def parseColumnDefinitionsLoop (tokens : List token) (initialCursor : Nat)
    (delimiter : token) :
    Nat → Nat → List columnDefinition → Except Fault (PResult (List columnDefinition))
  | 0, _, _ => .error .fuel
  | fuel + 1, cursor, cds =>
    match tokens[cursor]? with
    | none => .ok (.notMatched initialCursor)
    | some current =>
      if delimiter.equals current then .ok (.matched cds cursor)
      else if 0 < cds.length ∧ expectToken tokens cursor (tokenFromSymbol (str ",")) = false then
        match helpMessage tokens cursor with
        | .error f => .error f
        | .ok _ => .ok (.notMatched initialCursor)
      else
        let cursor1 := if 0 < cds.length then cursor + 1 else cursor
        match parseToken tokens cursor1 tokenKind.IDENTIFIER with
        | .notMatched _ =>
          match helpMessage tokens cursor1 with
          | .error f => .error f
          | .ok _ => .ok (.notMatched initialCursor)
        | .matched id cursor2 =>
          match parseToken tokens cursor2 tokenKind.KEYWORD with
          | .notMatched _ =>
            match helpMessage tokens cursor2 with
            | .error f => .error f
            | .ok _ => .ok (.notMatched initialCursor)
          | .matched ty cursor3 =>
            parseColumnDefinitionsLoop tokens initialCursor delimiter fuel cursor3
              (cds ++ [⟨id, ty⟩])

/-- `func parseColumnDefinitions(tokens []*token, initialCursor uint, delimiter token)`. -/
def parseColumnDefinitions (tokens : List token) (initialCursor : Nat) (delimiter : token) :
    Except Fault (PResult (List columnDefinition)) :=
  parseColumnDefinitionsLoop tokens initialCursor delimiter (tokens.length + 1) initialCursor []

/-- `func parseSelectStatement(tokens []*token, initialCursor uint, delimiter token)`.
Without a `from` clause the `from` field keeps the zero token. -/
def parseSelectStatement (tokens : List token) (initialCursor : Nat) (delimiter : token) :
    Except Fault (PResult SelectStatement) :=
  if !expectToken tokens initialCursor (tokenFromKeyword (str "select")) then
    .ok (.notMatched initialCursor)
  else
    match parseExpressions tokens (initialCursor + 1)
        [tokenFromKeyword (str "from"), delimiter] with
    | .error f => .error f
    | .ok (.notMatched _) => .ok (.notMatched initialCursor)
    | .ok (.matched exps cursor) =>
      if expectToken tokens cursor (tokenFromKeyword (str "from")) then
        match parseToken tokens (cursor + 1) tokenKind.IDENTIFIER with
        | .notMatched _ =>
          match helpMessage tokens (cursor + 1) with
          | .error f => .error f
          | .ok _ => .ok (.notMatched initialCursor)
        | .matched «from» newCursor => .ok (.matched ⟨exps, «from»⟩ newCursor)
      else .ok (.matched ⟨exps, ⟨[], tokenKind.KEYWORD, ⟨0, 0⟩⟩⟩ cursor)

/-- `func parseInsertStatement(tokens []*token, initialCursor uint, delimiter token)`. -/
def parseInsertStatement (tokens : List token) (initialCursor : Nat) (_ : token) :
    Except Fault (PResult InsertStatement) :=
  if !expectToken tokens initialCursor (tokenFromKeyword (str "insert")) then
    .ok (.notMatched initialCursor)
  else if !expectToken tokens (initialCursor + 1) (tokenFromKeyword (str "into")) then
    .ok (.notMatched initialCursor)
  else
    match parseToken tokens (initialCursor + 2) tokenKind.IDENTIFIER with
    | .notMatched _ =>
      match helpMessage tokens (initialCursor + 2) with
      | .error f => .error f
      | .ok _ => .ok (.notMatched initialCursor)
    | .matched table cursor =>
      if !expectToken tokens cursor (tokenFromKeyword (str "values")) then
        match helpMessage tokens cursor with
        | .error f => .error f
        | .ok _ => .ok (.notMatched initialCursor)
      else if !expectToken tokens (cursor + 1) (tokenFromSymbol (str "(")) then
        match helpMessage tokens (cursor + 1) with
        | .error f => .error f
        | .ok _ => .ok (.notMatched initialCursor)
      else
        match parseExpressions tokens (cursor + 2) [tokenFromSymbol (str ")")] with
        | .error f => .error f
        | .ok (.notMatched _) => .ok (.notMatched initialCursor)
        | .ok (.matched values cursor1) =>
          if !expectToken tokens cursor1 (tokenFromSymbol (str ")")) then
            match helpMessage tokens cursor1 with
            | .error f => .error f
            | .ok _ => .ok (.notMatched initialCursor)
          else .ok (.matched ⟨table, some values⟩ (cursor1 + 1))

/-- `func parseCreateTableStatement(tokens []*token, initialCursor uint, delimiter token)`. -/
def parseCreateTableStatement (tokens : List token) (initialCursor : Nat) (_ : token) :
    Except Fault (PResult CreateStatement) :=
  if !expectToken tokens initialCursor (tokenFromKeyword (str "create")) then
    .ok (.notMatched initialCursor)
  else if !expectToken tokens (initialCursor + 1) (tokenFromKeyword (str "table")) then
    .ok (.notMatched initialCursor)
  else
    match parseToken tokens (initialCursor + 2) tokenKind.IDENTIFIER with
    | .notMatched _ =>
      match helpMessage tokens (initialCursor + 2) with
      | .error f => .error f
      | .ok _ => .ok (.notMatched initialCursor)
    | .matched name cursor =>
      if !expectToken tokens cursor (tokenFromSymbol (str "(")) then
        match helpMessage tokens cursor with
        | .error f => .error f
        | .ok _ => .ok (.notMatched initialCursor)
      else
        match parseColumnDefinitions tokens (cursor + 1) (tokenFromSymbol (str ")")) with
        | .error f => .error f
        | .ok (.notMatched _) =>
          match helpMessage tokens (cursor + 1) with
          | .error f => .error f
          | .ok _ => .ok (.notMatched initialCursor)
        | .ok (.matched cols cursor1) =>
          if !expectToken tokens cursor1 (tokenFromSymbol (str ")")) then
            match helpMessage tokens cursor1 with
            | .error f => .error f
            | .ok _ => .ok (.notMatched initialCursor)
          else .ok (.matched ⟨name, some cols⟩ (cursor1 + 1))

/-- `func parseStatement(tokens []*token, initialCursor uint, delimiter token)`.
The sub-parsers are called with the `;` symbol, whatever `delimiter` is. -/
def parseStatement (tokens : List token) (initialCursor : Nat) (_ : token) :
    Except Fault (PResult Statement) :=
  match parseSelectStatement tokens initialCursor (tokenFromSymbol (str ";")) with
  | .error f => .error f
  | .ok (.matched slct newCursor) =>
    .ok (.matched ⟨some slct, none, none, StatementKind.SelectStmtKind⟩ newCursor)
  | .ok (.notMatched _) =>
    match parseInsertStatement tokens initialCursor (tokenFromSymbol (str ";")) with
    | .error f => .error f
    | .ok (.matched inst newCursor) =>
      .ok (.matched ⟨none, none, some inst, StatementKind.InsertStmtKind⟩ newCursor)
    | .ok (.notMatched _) =>
      match parseCreateTableStatement tokens initialCursor (tokenFromSymbol (str ";")) with
      | .error f => .error f
      | .ok (.matched crt newCursor) =>
        .ok (.matched ⟨none, some crt, none, StatementKind.CreateStmtKind⟩ newCursor)
      | .ok (.notMatched _) => .ok (.notMatched initialCursor)

/-- The errors of `parse`. -/
inductive ParseError where
  | lexError (e : LexError)
  | expectedStatement
  | missingSemicolon
  deriving DecidableEq, Repr

/-- The loop `for expectToken(tokens, cursor, ;) { cursor++ ... }` of `parse`,
over the tokens `tokens[cursor:]`. -/
def skipSemicolons : List token → Nat → Bool → Nat × Bool
  | [], cursor, atLeastOneSemicolon => (cursor, atLeastOneSemicolon)
  | current :: rest, cursor, atLeastOneSemicolon =>
    if (tokenFromSymbol (str ";")).equals current then skipSemicolons rest (cursor + 1) true
    else (cursor, atLeastOneSemicolon)

/-- The statement loop of `parse`. -/
def parseLoop (tokens : List token) :
    Nat → Nat → List Statement → Except Fault (Except ParseError Ast)
  | 0, cursor, stmts =>
    if cursor < tokens.length then .error .fuel else .ok (.ok ⟨stmts⟩)
  | fuel + 1, cursor, stmts =>
    if cursor < tokens.length then
      match parseStatement tokens cursor (tokenFromSymbol (str ";")) with
      | .error f => .error f
      | .ok (.notMatched _) =>
        match helpMessage tokens cursor with
        | .error f => .error f
        | .ok _ => .ok (.error .expectedStatement)
      | .ok (.matched stmt newCursor) =>
        let r := skipSemicolons (tokens.drop newCursor) newCursor false
        if !r.2 then
          match helpMessage tokens r.1 with
          | .error f => .error f
          | .ok _ => .ok (.error .missingSemicolon)
        else parseLoop tokens fuel r.1 (stmts ++ [stmt])
    else .ok (.ok ⟨stmts⟩)

/-- `func parse(source string) (*Ast, error)`. -/
def parse (source : GoString) : Except Fault (Except ParseError Ast) :=
  match lex source with
  | .error f => .error f
  | .ok (.error e) => .ok (.error (.lexError e))
  | .ok (.ok tokens) => parseLoop tokens tokens.length 0 []

/-! ## Running statements against a backend

The dispatch of `internal/repl.go` on `stmt.Kind`, with the difference that a
returned backend error is recorded and the run goes on (the REPL panics on
it).  A nil statement pointer is a nil dereference in the backend method. -/

/-- What one backend call returned. -/
inductive CallResult where
  | created (err : Option BackendError)
  | inserted (err : Option BackendError)
  | selected (res : Except BackendError Results)

/-- One backend call for one statement. -/
def execStatement (mb : MemoryBackend) (stmt : Statement) :
    Except Fault (MemoryBackend × CallResult) :=
  match stmt.Kind with
  | .CreateStmtKind =>
    match stmt.CreateStatement with
    | none => .error .panic
    | some crt => .ok ((mb.CreateTable crt).1, .created (mb.CreateTable crt).2)
  | .InsertStmtKind =>
    match stmt.InsertStatement with
    | none => .error .panic
    | some inst =>
      match mb.Insert inst with
      | .error f => .error f
      | .ok r => .ok (r.1, .inserted r.2)
  | .SelectStmtKind =>
    match stmt.SelectStatement with
    | none => .error .panic
    | some slct =>
      match mb.Select slct with
      | .error f => .error f
      | .ok r => .ok (mb, .selected r)

/-- The statements in order; the run stops at the first panic. -/
def execAll : List Statement → MemoryBackend → List CallResult →
    Except Fault (MemoryBackend × List CallResult)
  | [], mb, results => .ok (mb, results)
  | stmt :: rest, mb, results =>
    match execStatement mb stmt with
    | .error f => .error f
    | .ok r => execAll rest r.1 (results ++ [r.2])

/-- Parse a source and run its statements on a fresh backend: `none` when the
source does not parse. -/
def runSource (source : GoString) : Option (Except Fault (MemoryBackend × List CallResult)) :=
  match parse source with
  | .ok (.ok ast) => some (execAll ast.Statements NewMemoryBackend [])
  | _ => none

deriving instance DecidableEq for Except
deriving instance DecidableEq for CallResult

/-- The results of the backend calls made for a source, without the final
catalog. -/
def runResults (source : GoString) : Option (Except Fault (List CallResult)) :=
  (runSource source).map (fun r => r.map Prod.snd)

/-- The column type the switch of `CreateTable` assigns to a datatype word. -/
def datatypeOf (v : GoString) : Option ColumnType :=
  if v = str "int" then some .IntType else if v = str "text" then some .TextType else none

/-- Index of the first column of `t` whose name is the value of the item `it`
(the number of columns when there is none). -/
def selectedIndex (t : table) (it : expression) : Nat :=
  t.columns.findIdx (fun c => decide (c = it.literal.value))

/-- Header entry for an identifier item that names a column. -/
def selectedHeader (t : table) (it : expression) : ResultColumn :=
  ⟨(t.columnTypes[selectedIndex t it]?).getD ColumnType.TextType, it.literal.value⟩

/-- Cell of `row` for an identifier item that names a column. -/
def selectedCell (t : table) (row : List MemoryCell) (it : expression) : MemoryCell :=
  (row[selectedIndex t it]?).getD []


/-! ## Concrete data used in examples -/

/-- A token with an ASCII value, at the origin. -/
def tok (v : String) (k : tokenKind) : token := ⟨str v, k, ⟨0, 0⟩⟩

/-- An identifier item, as `parseExpression` builds it. -/
def ident (v : String) : expression := ⟨tok v tokenKind.IDENTIFIER, literalKind⟩

/-- The backend reached by parsing a source and running its statements on a
fresh backend (the fresh backend itself if the source does not parse or a call
panics). -/
def stateAfter (source : GoString) : MemoryBackend :=
  match runSource source with
  | some (.ok r) => r.1
  | _ => NewMemoryBackend

/-- A catalog whose table `t` has one column, one column type, and one row
that has no cell. -/
def shortRowBackend : MemoryBackend :=
  NewMemoryBackend.set (str "t") ⟨[str "a"], [ColumnType.IntType], [[]]⟩


/-- Backend states reached from `mb` by calls that do not re-create the table
`name`: any `Insert` (whatever it returns) and any `CreateTable` under another
name.  `Select` does not change the backend. -/
inductive Reach (name : GoString) (mb : MemoryBackend) : MemoryBackend → Prop where
  | refl : Reach name mb mb
  | insert {mb1 mb2 : MemoryBackend} (inst : InsertStatement) (e : Option BackendError) :
      Reach name mb mb1 → mb1.Insert inst = .ok (mb2, e) → Reach name mb mb2
  | create {mb1 : MemoryBackend} (crt : CreateStatement) :
      Reach name mb mb1 → crt.name.value ≠ name → Reach name mb (mb1.CreateTable crt).1

/-- An insert value fits a column definition: a literal that is a numeric token
of decimal digits denoting at most `2^63 - 1` for an `int` column, a string
token for a `text` column. -/
def valueFits (c : columnDefinition) (v : expression) : Prop :=
  v.kind = literalKind ∧
  ((c.datatype.value = str "int" ∧ v.literal.kind = tokenKind.NUMERIC ∧ v.literal.value ≠ [] ∧
      (∀ d ∈ v.literal.value, 48 ≤ d ∧ d ≤ 57) ∧ digitsValue v.literal.value ≤ 2 ^ 63 - 1) ∨
   (c.datatype.value = str "text" ∧ v.literal.kind = tokenKind.STRING))

/-- A select item names a column definition: an identifier literal whose value
is the column's name. -/
def itemNames (c : columnDefinition) (it : expression) : Prop :=
  it.kind = literalKind ∧ it.literal.kind = tokenKind.IDENTIFIER ∧
  it.literal.value = c.name.value

/-- A cell decodes, by the column's type, to the value inserted for it. -/
def cellDecodes (cv : columnDefinition × expression) (cell : MemoryCell) : Prop :=
  (cv.1.datatype.value = str "int" →
    MemoryCell.AsInt cell = .ok (digitsValue cv.2.literal.value : Int)) ∧
  (cv.1.datatype.value = str "text" → MemoryCell.AsText cell = cv.2.literal.value)

/-- The statement of `CREATE TABLE users (id int, name text);`. -/
def usersCreate : CreateStatement :=
  ⟨tok "users" tokenKind.IDENTIFIER,
   some [⟨tok "id" tokenKind.IDENTIFIER, tok "int" tokenKind.KEYWORD⟩,
         ⟨tok "name" tokenKind.IDENTIFIER, tok "text" tokenKind.KEYWORD⟩]⟩

/-- The values of `INSERT INTO users VALUES (1, 'alice');`. -/
def usersValues : List expression :=
  [⟨tok "1" tokenKind.NUMERIC, literalKind⟩, ⟨tok "alice" tokenKind.STRING, literalKind⟩]


deriving instance DecidableEq for PResult

/-- The tokens of `insert into t values (1 2`: an insert statement that breaks
off inside its value list. -/
def brokenInsert : List token :=
  [tok "insert" tokenKind.KEYWORD, tok "into" tokenKind.KEYWORD, tok "t" tokenKind.IDENTIFIER,
   tok "values" tokenKind.KEYWORD, tok "(" tokenKind.SYMBOL, tok "1" tokenKind.NUMERIC,
   tok "2" tokenKind.NUMERIC]


/-- A statement as the parser builds it: the pointer named by `Kind` is set,
and every value of an insert statement is of literal kind. -/
def StatementWF (stmt : Statement) : Prop :=
  match stmt.Kind with
  | .SelectStmtKind => stmt.SelectStatement ≠ none
  | .CreateStmtKind => stmt.CreateStatement ≠ none
  | .InsertStmtKind =>
    ∃ inst, stmt.InsertStatement = some inst ∧
      ∀ values, inst.values = some values → ∀ v ∈ values, v.kind = literalKind

/-- Every table has as many column types as column names, and every row has
that many cells. -/
def CatalogInv (mb : MemoryBackend) : Prop :=
  ∀ name tbl, mb.tables name = some tbl →
    tbl.columnTypes.length = tbl.columns.length ∧
    ∀ row ∈ tbl.rows, row.length = tbl.columns.length

/-- A string of decimal digits denoting an integer of at most `2^63 - 1`. -/
def decimalInt64 (v : GoString) : Prop :=
  v ≠ [] ∧ (∀ d ∈ v, 48 ≤ d ∧ d ≤ 57) ∧ digitsValue v ≤ 2 ^ 63 - 1

/-- The numeric literals among the values of an insert statement are decimal
integers within `int64`, and the type word of every column definition of a
create statement is `int` or `text`. -/
def StatementSafe (stmt : Statement) : Prop :=
  (∀ inst ∈ stmt.InsertStatement, ∀ values ∈ inst.values, ∀ v ∈ values,
    v.literal.kind = tokenKind.NUMERIC → decimalInt64 v.literal.value) ∧
  (∀ crt ∈ stmt.CreateStatement, ∀ c ∈ crt.cols.getD [],
    c.datatype.value = str "int" ∨ c.datatype.value = str "text")

instance (v : GoString) : Decidable (decimalInt64 v) := by
  unfold decimalInt64; infer_instance

instance (stmt : Statement) : Decidable (StatementSafe stmt) := by
  unfold StatementSafe; infer_instance

/-- The statements `parse` returns for a source (none if it does not parse). -/
def astOf (source : GoString) : Ast :=
  match parse source with
  | .ok (.ok ast) => ast
  | _ => ⟨[]⟩


/-- A byte that may follow the first byte of an unquoted identifier: an ASCII
letter, a digit, `$` or `_`. -/
def isIdentifierByte (c : Nat) : Bool :=
  isAlphabetByte c || isDigitByte c || decide (c = 36) || decide (c = 95)

/-- A word made of an ASCII letter followed by letters, digits, `$` or `_`. -/
def isIdentifierWord : GoString → Bool
  | [] => false
  | c :: rest => isAlphabetByte c && rest.all isIdentifierByte


/-- Line of the byte at `offset`: the number of newline bytes before it. -/
def lineAt (source : GoString) (offset : Nat) : Nat :=
  (source.take offset).count 10

/-- Column of the byte at `offset`: the number of bytes between the last
newline before it (or the start of the source) and that byte. -/
def columnAt (source : GoString) (offset : Nat) : Nat :=
  ((source.take offset).reverse.takeWhile (fun b => decide (b ≠ 10))).length


/-- The tokens `lex` returns for a source (none if it does not lex). -/
def tokensOf (source : GoString) : List token :=
  match lex source with
  | .ok (.ok tokens) => tokens
  | _ => []


/-- Every sign byte (`+` or `-`) of `v` stands directly after an exponent
marker (`e` or `E`). -/
def signsAfterExponent (v : GoString) : Prop :=
  ∀ pre s post, v = pre ++ s :: post → (s = 43 ∨ s = 45) →
    ∃ pre1 m, pre = pre1 ++ [m] ∧ (m = 101 ∨ m = 69)

/-- The shape of a numeric literal: it begins with a digit or `.`, contains at
most one `.` and at most one exponent marker `e`/`E`, and a sign only directly
after the exponent marker. -/
def numericShape (v : GoString) : Prop :=
  (∃ c rest, v = c :: rest ∧ (isDigitByte c = true ∨ c = 46)) ∧
  v.count 46 ≤ 1 ∧
  v.count 101 + v.count 69 ≤ 1 ∧
  signsAfterExponent v


/-- A candidate of `longestMatch` as the lexers pass them: a non-empty string of
ASCII bytes none of which is an upper-case letter. -/
def lowercaseASCII (o : GoString) : Prop :=
  o ≠ [] ∧ ∀ b ∈ o, b < 128 ∧ ¬ (65 ≤ b ∧ b ≤ 90)

/-- The candidate `o` equals, compared case-insensitively, a prefix of the
remaining input `remaining`. -/
def prefixIgnoringCase (o remaining : GoString) : Prop :=
  ∃ p, p <+: remaining ∧ p.map lowerByte = o.map lowerByte


/-- The loop of `lexNumeric` with its index expressions written out: the read
`source[cur.pointer]` and the look-ahead `source[cur.pointer+1]` are
`.error .panic` when the index is out of range.  `.ok none` is a
`return nil, ic, false` from inside the loop, `.ok (some cur)` the cursor with
which the loop is left. -/
def numericLoopAt (source : GoString) (ic : cursor) :
    Nat → cursor → Bool → Bool → Except Fault (Option cursor)
  | 0, _, _, _ => .error .fuel
  | fuel + 1, cur, decimalFound, exponentFound =>
    if cur.pointer < source.length then
      match source[cur.pointer]? with
      | none => .error .panic
      | some c =>
        let isDigit := isDigitByte c
        let isDecimal := decide (c = 46)
        let isExponent := decide (c = 101) || decide (c = 69)
        if cur.pointer = ic.pointer then
          if !isDigit && !isDecimal then .ok none
          else
            numericLoopAt source ic fuel
              ⟨cur.pointer + 1, ⟨cur.loc.line, cur.loc.column + 1⟩⟩ isDecimal exponentFound
        else if isDecimal then
          if decimalFound then .ok none
          else
            numericLoopAt source ic fuel
              ⟨cur.pointer + 1, ⟨cur.loc.line, cur.loc.column + 1⟩⟩ true exponentFound
        else if isExponent then
          if exponentFound then .ok none
          else if cur.pointer = source.length - 1 then .ok none
          else
            match source[cur.pointer + 1]? with
            | none => .error .panic
            | some cNext =>
              if cNext = 45 ∨ cNext = 43 then
                numericLoopAt source ic fuel
                  ⟨cur.pointer + 1 + 1, ⟨cur.loc.line, cur.loc.column + 1 + 1⟩⟩ true true
              else
                numericLoopAt source ic fuel
                  ⟨cur.pointer + 1, ⟨cur.loc.line, cur.loc.column + 1⟩⟩ true true
        else if !isDigit then .ok (some ⟨cur.pointer, ⟨cur.loc.line, cur.loc.column + 1⟩⟩)
        else
          numericLoopAt source ic fuel
            ⟨cur.pointer + 1, ⟨cur.loc.line, cur.loc.column + 1⟩⟩ decimalFound exponentFound
    else .ok (some cur)


/-- A token that `parseExpression` accepts: an identifier, a number or a
string. -/
def isExpressionToken (t : token) : Bool :=
  decide (t.kind = tokenKind.IDENTIFIER) || decide (t.kind = tokenKind.NUMERIC) ||
    decide (t.kind = tokenKind.STRING)

/-- The tokens after the first expression of `select <expr_list>;`: any number
of `, <expr>` pairs and the closing `;`. -/
def expressionTail : List token → Bool
  | [s] => (tokenFromSymbol (str ";")).equals s
  | c :: e :: rest =>
    (tokenFromSymbol (str ",")).equals c && isExpressionToken e && expressionTail rest
  | _ => false

/-- The tokens of a source of the form `select <expr_list>;` with no `from`
clause: the keyword `select`, expressions separated by commas (possibly none
at all), and `;`. -/
def selectWithoutFrom : List token → Bool
  | [sel, s] =>
    (tokenFromKeyword (str "select")).equals sel && (tokenFromSymbol (str ";")).equals s
  | sel :: e :: rest =>
    (tokenFromKeyword (str "select")).equals sel && isExpressionToken e && expressionTail rest
  | _ => false

/-- The expressions among `tokens`, in order, as `parseExpression` builds
them. -/
def expressionsOf (tokens : List token) : List expression :=
  (tokens.filter isExpressionToken).map (fun t => ⟨t, literalKind⟩)

/-- The backend states reachable from a fresh backend by executing statements
produced by `parse`. -/
inductive ReachParsed : MemoryBackend → Prop where
  | fresh : ReachParsed NewMemoryBackend
  | step {mb mb1 : MemoryBackend} (source : GoString) (ast : Ast) (stmt : Statement)
      (res : CallResult) :
      ReachParsed mb → parse source = .ok (.ok ast) → stmt ∈ ast.Statements →
      execStatement mb stmt = .ok (mb1, res) → ReachParsed mb1

/-- The statement `parse` builds for `create table t (a int);`. -/
def tCreateStatement : Statement :=
  ⟨none,
   some ⟨⟨str "t", tokenKind.IDENTIFIER, ⟨0, 13⟩⟩,
     some [⟨⟨str "a", tokenKind.IDENTIFIER, ⟨0, 16⟩⟩, ⟨str "int", tokenKind.KEYWORD, ⟨0, 18⟩⟩⟩]⟩,
   none, StatementKind.CreateStmtKind⟩


/-- Every value of the insert statement has the literal expression kind. -/
def literalValues (inst : InsertStatement) : Prop :=
  ∀ values, inst.values = some values → ∀ v ∈ values, v.kind = literalKind

/-- The backend states reachable from a fresh backend by `CreateTable`,
`Insert` and `Select` calls on statements with non-nil column and value lists,
whatever the calls return; `allowed` restricts the insert statements.  The
second index records, per table name, whether the latest `CreateTable` for
that name returned `invalid datatype`. -/
inductive ReachCalls (allowed : InsertStatement → Prop) :
    MemoryBackend → (GoString → Bool) → Prop where
  | fresh : ReachCalls allowed NewMemoryBackend (fun _ => false)
  | create {mb : MemoryBackend} {failed : GoString → Bool} (crt : CreateStatement)
      (cols : List columnDefinition) :
      ReachCalls allowed mb failed → crt.cols = some cols →
      ReachCalls allowed (mb.CreateTable crt).1
        (fun k => if k = crt.name.value then
            decide ((mb.CreateTable crt).2 = some BackendError.ErrInvalidDatatype)
          else failed k)
  | insert {mb mb1 : MemoryBackend} {failed : GoString → Bool} (inst : InsertStatement)
      (values : List expression) (e : Option BackendError) :
      ReachCalls allowed mb failed → inst.values = some values → allowed inst →
      mb.Insert inst = .ok (mb1, e) → ReachCalls allowed mb1 failed
  | select {mb : MemoryBackend} {failed : GoString → Bool} (slct : SelectStatement)
      (r : Except BackendError Results) :
      ReachCalls allowed mb failed → mb.Select slct = .ok r → ReachCalls allowed mb failed

/-- The statement of `create table t (a int)`. -/
def tIntCreate : CreateStatement :=
  ⟨tok "t" tokenKind.IDENTIFIER,
   some [⟨tok "a" tokenKind.IDENTIFIER, tok "int" tokenKind.KEYWORD⟩]⟩

/-- The statement of `create table u (b from)`, whose column type is no
datatype. -/
def uFromCreate : CreateStatement :=
  ⟨tok "u" tokenKind.IDENTIFIER,
   some [⟨tok "b" tokenKind.IDENTIFIER, tok "from" tokenKind.KEYWORD⟩]⟩

/-- The statement of `insert into t values (7)`. -/
def tInsertSeven : InsertStatement :=
  ⟨tok "t" tokenKind.IDENTIFIER, some [⟨tok "7" tokenKind.NUMERIC, literalKind⟩]⟩

/-- An insert statement for `t` whose one value does not have the literal
expression kind (`expressionKind` is a `uint`, `literalKind` its value 0). -/
def tInsertNonLiteral : InsertStatement :=
  ⟨tok "t" tokenKind.IDENTIFIER, some [⟨tok "7" tokenKind.NUMERIC, 1⟩]⟩

/-- The catalog after `create table t (a int)` and `insert into t values (7)`. -/
def tOneRow : MemoryBackend :=
  (NewMemoryBackend.CreateTable tIntCreate).1.set (str "t")
    ⟨[str "a"], [ColumnType.IntType], [[[0, 0, 0, 0, 0, 0, 0, 7]]]⟩

/-- The catalog after `create table t (a int)` and the insert of one value that
is not of the literal kind: the row of `t` has no cell. -/
def tShortRow : MemoryBackend :=
  (NewMemoryBackend.CreateTable tIntCreate).1.set (str "t")
    ⟨[str "a"], [ColumnType.IntType], [[]]⟩


/-- The catalog after `CREATE TABLE users (id int, name text);` and
`INSERT INTO users VALUES (1, 'alice');`. -/
def usersOneRow : MemoryBackend :=
  (NewMemoryBackend.CreateTable usersCreate).1.set (str "users")
    ⟨[str "id", str "name"], [ColumnType.IntType, ColumnType.TextType],
      [[[0, 0, 0, 0, 0, 0, 0, 1], str "alice"]]⟩

/-- The values of `INSERT INTO users VALUES (2, 'bob');`. -/
def usersValuesBob : List expression :=
  [⟨tok "2" tokenKind.NUMERIC, literalKind⟩, ⟨tok "bob" tokenKind.STRING, literalKind⟩]

/-- The catalog `tShortRow` after `insert into t values (7)`: the table `t` has
the row without cells and the row of the cell 7. -/
def tShortRowSeven : MemoryBackend :=
  tShortRow.set (str "t")
    ⟨[str "a"], [ColumnType.IntType], [[], [[0, 0, 0, 0, 0, 0, 0, 7]]]⟩

/-! ## Theorems -/

/-- C9 (evaluation at the failing input): the source `'it''s'` lexes to one
string token whose value keeps both quotes of the doubled delimiter, `it''s`,
instead of the collapsed `it's`. -/
theorem lex_doubled_quote_kept :
    lex (str "'it''s'") = .ok (.ok [⟨str "it''s", tokenKind.STRING, ⟨0, 0⟩⟩]) ∧
    str "it''s" ≠ str "it's" := by
  decide!

/-! ### Cell encoding -/

theorem Atoi_of_digits (s : GoString) (hne : s ≠ [])
    (hd : ∀ c ∈ s, 48 ≤ c ∧ c ≤ 57) (hr : digitsValue s < 2 ^ 63) :
    Atoi s = some (digitsValue s : Int) := by
  obtain ⟨c, rest, rfl⟩ := List.exists_cons_of_ne_nil hne
  have hc := hd c (List.mem_cons_self _ _)
  have h45 : c ≠ 45 := by omega
  have h43 : c ≠ 43 := by omega
  have hall : (c :: rest).all isDigitByte = true := by
    rw [List.all_eq_true]
    intro x hx
    have := hd x hx
    simp [isDigitByte, this.1, this.2]
  have hr1 : digitsValue (c :: rest) < 9223372036854775808 := by
    have : (2 : Nat) ^ 63 = 9223372036854775808 := by norm_num
    omega
  unfold Atoi
  simp only [List.head?_cons, Option.some.injEq, h45, h43, or_self, if_false, decide_False,
    hall, Bool.not_true, Bool.false_eq_true, reduceCtorEq]
  simp [hr1]

theorem putInt64_of_nat (n : Nat) (h : n < 2 ^ 63) :
    putInt64 (n : Int) =
      [n / 2 ^ 56 % 256, n / 2 ^ 48 % 256, n / 2 ^ 40 % 256, n / 2 ^ 32 % 256,
       n / 2 ^ 24 % 256, n / 2 ^ 16 % 256, n / 2 ^ 8 % 256, n % 256] := by
  have h1 : ((n : Int) % 2 ^ 64).toNat = n := by
    have : (n : Int) % 2 ^ 64 = (n : Int) := by
      apply Int.emod_eq_of_lt (by omega)
      have : (2 : Int) ^ 64 = 18446744073709551616 := by norm_num
      rw [this]
      have : (2:Nat) ^ 63 = 9223372036854775808 := by norm_num
      omega
    rw [this]; simp
  unfold putInt64
  simp only [h1]

/-- The cell written for a natural below `2 ^ 63`: eight bytes, each below 256,
whose big-endian value is the number, and which `AsInt` reads back. -/
theorem putInt64_spec (n : Nat) (h : n < 2 ^ 63) :
    (putInt64 (n : Int)).length = 8 ∧ (∀ b ∈ putInt64 (n : Int), b < 256) ∧
    Nat.ofDigits 256 (putInt64 (n : Int)).reverse = n ∧
    MemoryCell.AsInt (putInt64 (n : Int)) = .ok (n : Int) := by
  have h63 : (2 : Nat) ^ 63 = 9223372036854775808 := by norm_num
  rw [putInt64_of_nat n h]
  refine ⟨rfl, ?_, ?_, ?_⟩
  · intro b hb
    simp only [List.mem_cons, List.mem_singleton, List.not_mem_nil, or_false] at hb
    rcases hb with hb | hb | hb | hb | hb | hb | hb | hb <;> subst hb <;> omega
  · simp only [List.reverse_cons, List.reverse_nil, List.nil_append, List.cons_append,
      List.singleton_append, Nat.ofDigits_cons, Nat.ofDigits_nil]
    norm_num
    omega
  · unfold MemoryCell.AsInt
    simp only [List.length_cons, List.length_nil]
    norm_num
    have hv : beUint64 [n / 2 ^ 56 % 256, n / 2 ^ 48 % 256, n / 2 ^ 40 % 256, n / 2 ^ 32 % 256,
       n / 2 ^ 24 % 256, n / 2 ^ 16 % 256, n / 2 ^ 8 % 256, n % 256] = n := by
      simp only [beUint64, List.foldl_cons, List.foldl_nil]
      norm_num
      omega
    norm_num at hv
    rw [hv]
    unfold toInt64
    rw [if_pos (by omega)]

/-! ### CreateTable -/

theorem createColumns_error_iff (cols : List columnDefinition) (t : table) :
    (createColumns cols t).2 = some .ErrInvalidDatatype ↔
      ∃ col ∈ cols, col.datatype.value ≠ str "int" ∧ col.datatype.value ≠ str "text" := by
  induction cols generalizing t with
  | nil => simp [createColumns]
  | cons col rest ih =>
    unfold createColumns
    by_cases h1 : col.datatype.value = str "int"
    · simp only [if_pos h1, ih]
      constructor
      · rintro ⟨c, hc, hn⟩; exact ⟨c, List.mem_cons_of_mem _ hc, hn⟩
      · rintro ⟨c, hc, hn⟩
        rcases List.mem_cons.1 hc with rfl | hc
        · exact absurd h1 hn.1
        · exact ⟨c, hc, hn⟩
    · by_cases h2 : col.datatype.value = str "text"
      · simp only [if_neg h1, if_pos h2, ih]
        constructor
        · rintro ⟨c, hc, hn⟩; exact ⟨c, List.mem_cons_of_mem _ hc, hn⟩
        · rintro ⟨c, hc, hn⟩
          rcases List.mem_cons.1 hc with rfl | hc
          · exact absurd h2 hn.2
          · exact ⟨c, hc, hn⟩
      · simp only [if_neg h1, if_neg h2, true_iff]
        exact ⟨col, List.mem_cons_self _ _, h1, h2⟩

theorem createColumns_none_or_error (cols : List columnDefinition) (t : table) :
    (createColumns cols t).2 = none ∨ (createColumns cols t).2 = some .ErrInvalidDatatype := by
  induction cols generalizing t with
  | nil => simp [createColumns]
  | cons col rest ih =>
    unfold createColumns
    by_cases h1 : col.datatype.value = str "int"
    · simp only [if_pos h1]; exact ih _
    · by_cases h2 : col.datatype.value = str "text"
      · simp only [if_neg h1, if_pos h2]; exact ih _
      · simp [if_neg h1, if_neg h2]

theorem createColumns_ok (cols : List columnDefinition) (t : table)
    (h : (createColumns cols t).2 = none) :
    (createColumns cols t).1 =
      ⟨t.columns ++ cols.map (fun c => c.name.value),
       t.columnTypes ++ cols.map
         (fun c => if c.datatype.value = str "int" then ColumnType.IntType else ColumnType.TextType),
       t.rows⟩ := by
  induction cols generalizing t with
  | nil => simp [createColumns]
  | cons col rest ih =>
    unfold createColumns at h ⊢
    by_cases h1 : col.datatype.value = str "int"
    · simp only [if_pos h1] at h ⊢
      rw [ih _ h]; simp [if_pos h1]
    · by_cases h2 : col.datatype.value = str "text"
      · simp only [if_neg h1, if_pos h2] at h ⊢
        rw [ih _ h]; simp [if_neg h1]
      · simp [if_neg h1, if_neg h2] at h

/-- Rows are untouched and names run at most one ahead of types in the column
loop, whatever its outcome. -/
theorem createColumns_shape (cols : List columnDefinition) (t : table) :
    (createColumns cols t).1.rows = t.rows ∧
    ((createColumns cols t).2 = none →
      (createColumns cols t).1.columnTypes.length + t.columns.length =
        (createColumns cols t).1.columns.length + t.columnTypes.length) ∧
    ((createColumns cols t).2 ≠ none →
      (createColumns cols t).1.columnTypes.length + t.columns.length + 1 =
        (createColumns cols t).1.columns.length + t.columnTypes.length) := by
  induction cols generalizing t with
  | nil => simp [createColumns]; omega
  | cons col rest ih =>
    unfold createColumns
    by_cases h1 : col.datatype.value = str "int"
    · simp only [if_pos h1]
      have := ih { columns := t.columns ++ [col.name.value],
                   columnTypes := t.columnTypes ++ [ColumnType.IntType], rows := t.rows }
      simp only [List.length_append, List.length_singleton] at this
      refine ⟨this.1, fun h => ?_, fun h => ?_⟩
      · have := this.2.1 h; omega
      · have := this.2.2 h; omega
    · by_cases h2 : col.datatype.value = str "text"
      · simp only [if_neg h1, if_pos h2]
        have := ih { columns := t.columns ++ [col.name.value],
                     columnTypes := t.columnTypes ++ [ColumnType.TextType], rows := t.rows }
        simp only [List.length_append, List.length_singleton] at this
        refine ⟨this.1, fun h => ?_, fun h => ?_⟩
        · have := this.2.1 h; omega
        · have := this.2.2 h; omega
      · simp [if_neg h1, if_neg h2]; omega

/-- C3. `CreateTable` returns `invalid datatype` exactly when some column
definition has a datatype word other than `int` and `text`; when it returns no
error the catalog maps the statement's table name to a table with the names and
types of the column definitions, in order, and no rows (whatever was registered
there before), and leaves every other name as it was. -/
theorem CreateTable_result (mb : MemoryBackend) (crt : CreateStatement) :
    ((mb.CreateTable crt).2 = some .ErrInvalidDatatype ↔
      ∃ col ∈ crt.cols.getD [],
        col.datatype.value ≠ str "int" ∧ col.datatype.value ≠ str "text") ∧
    ((mb.CreateTable crt).2 = none →
      (mb.CreateTable crt).1.tables crt.name.value =
        some ⟨(crt.cols.getD []).map (fun c => c.name.value),
              (crt.cols.getD []).map
                (fun c => if c.datatype.value = str "int" then ColumnType.IntType
                          else ColumnType.TextType),
              []⟩ ∧
      (∀ c ∈ crt.cols.getD [], datatypeOf c.datatype.value ≠ none) ∧
      ∀ k, k ≠ crt.name.value → (mb.CreateTable crt).1.tables k = mb.tables k) := by
  cases hc : crt.cols with
  | none =>
    simp [MemoryBackend.CreateTable, hc, MemoryBackend.set]
    intro k hk; simp [hk]
  | some cols =>
    simp only [MemoryBackend.CreateTable, hc, Option.getD_some]
    refine ⟨createColumns_error_iff cols _, fun h => ⟨?_, ?_, ?_⟩⟩
    · simp [MemoryBackend.set, createColumns_ok cols _ h]
    · intro c hcm hd
      have hno : ¬ ∃ col ∈ cols, col.datatype.value ≠ str "int" ∧
          col.datatype.value ≠ str "text" := by
        rw [← createColumns_error_iff cols ⟨[], [], []⟩, h]; simp
      apply hno
      unfold datatypeOf at hd
      refine ⟨c, hcm, ?_, ?_⟩ <;> intro he
      · rw [if_pos he] at hd; exact absurd hd (by simp)
      · by_cases h1 : c.datatype.value = str "int"
        · rw [if_pos h1] at hd; exact absurd hd (by simp)
        · rw [if_neg h1, if_pos he] at hd; exact absurd hd (by simp)
    · intro k hk; simp [MemoryBackend.set, hk]

/-- C3, at a concrete statement: `create table t (a int, b text)` on a backend
that already holds a table `t` with a row. -/
theorem CreateTable_result_witness :
    let mb0 := NewMemoryBackend.set (str "t") ⟨[str "x"], [.IntType], [[[1]]]⟩
    let crt : CreateStatement :=
      ⟨⟨str "t", .IDENTIFIER, ⟨0, 0⟩⟩,
       some [⟨⟨str "a", .IDENTIFIER, ⟨0, 0⟩⟩, ⟨str "int", .KEYWORD, ⟨0, 0⟩⟩⟩,
             ⟨⟨str "b", .IDENTIFIER, ⟨0, 0⟩⟩, ⟨str "text", .KEYWORD, ⟨0, 0⟩⟩⟩]⟩
    (mb0.CreateTable crt).2 = none ∧
    (mb0.CreateTable crt).1.tables (str "t") =
      some ⟨[str "a", str "b"], [.IntType, .TextType], []⟩ := by
  intro mb0 crt
  have h : (mb0.CreateTable crt).2 = none := by decide!
  exact ⟨h, ((CreateTable_result mb0 crt).2 h).1⟩

/-- C5. For a numeric token whose value is a non-empty string of decimal digits
denoting `n ≤ 2^63 - 1`, `tokenToCell` returns a cell of exactly eight bytes,
the big-endian representation of `n` (most significant byte first), and `AsInt`
of that cell returns `n`; for a string token, `AsText` of the cell is the
token's value. -/
theorem tokenToCell_roundtrip (t : token) :
    (t.kind = tokenKind.NUMERIC → t.value ≠ [] → (∀ c ∈ t.value, 48 ≤ c ∧ c ≤ 57) →
      digitsValue t.value ≤ 2 ^ 63 - 1 →
      ∃ cell, tokenToCell t = .ok cell ∧ cell.length = 8 ∧ (∀ b ∈ cell, b < 256) ∧
        Nat.ofDigits 256 cell.reverse = digitsValue t.value ∧
        MemoryCell.AsInt cell = .ok (digitsValue t.value : Int)) ∧
    (t.kind = tokenKind.STRING →
      ∃ cell, tokenToCell t = .ok cell ∧ MemoryCell.AsText cell = t.value) := by
  constructor
  · intro hk hne hd hr
    have hr1 : digitsValue t.value < 2 ^ 63 := by
      have : (2 : Nat) ^ 63 = 9223372036854775808 := by norm_num
      omega
    refine ⟨putInt64 (digitsValue t.value : Int), ?_, putInt64_spec _ hr1⟩
    simp [tokenToCell, hk, Atoi_of_digits t.value hne hd hr1]
  · intro hk
    exact ⟨t.value, by simp [tokenToCell, hk], rfl⟩

/-- C5, at the tokens `258` (numeric) and `alice` (string). -/
theorem tokenToCell_roundtrip_witness :
    (∃ cell, tokenToCell ⟨str "258", .NUMERIC, ⟨0, 0⟩⟩ = .ok cell ∧ cell.length = 8 ∧
        (∀ b ∈ cell, b < 256) ∧
        Nat.ofDigits 256 cell.reverse = digitsValue (str "258") ∧
        MemoryCell.AsInt cell = .ok (digitsValue (str "258") : Int)) ∧
    tokenToCell ⟨str "258", .NUMERIC, ⟨0, 0⟩⟩ = .ok [0, 0, 0, 0, 0, 0, 1, 2] ∧
    digitsValue (str "258") = 258 ∧
    (∃ cell, tokenToCell ⟨str "alice", .STRING, ⟨0, 0⟩⟩ = .ok cell ∧
        MemoryCell.AsText cell = str "alice") :=
  ⟨(tokenToCell_roundtrip ⟨str "258", .NUMERIC, ⟨0, 0⟩⟩).1 rfl (by decide) (by decide)
      (by decide),
   by decide!, by decide,
   (tokenToCell_roundtrip ⟨str "alice", .STRING, ⟨0, 0⟩⟩).2 rfl⟩

/-! ### Insert -/

/-- C2. For an insert statement carrying a value list: `table does not exist`
is returned exactly when the catalog has no table under the statement's table
name; for an existing table `missing values` is returned exactly when the
number of values differs from the number of columns; and whenever an error is
returned the catalog is what it was before the call. -/
theorem Insert_errors (mb : MemoryBackend) (tableName : token) (values : List expression) :
    ((∃ mb1, mb.Insert ⟨tableName, some values⟩ = .ok (mb1, some .ErrTableDoesNotExist)) ↔
      mb.tables tableName.value = none) ∧
    (∀ tbl, mb.tables tableName.value = some tbl →
      ((∃ mb1, mb.Insert ⟨tableName, some values⟩ = .ok (mb1, some .ErrMissingValues)) ↔
        values.length ≠ tbl.columns.length)) ∧
    (∀ mb1 e, mb.Insert ⟨tableName, some values⟩ = .ok (mb1, some e) →
      (e = .ErrTableDoesNotExist ∨ e = .ErrMissingValues) ∧ mb1.tables = mb.tables) := by
  unfold MemoryBackend.Insert
  cases ht : mb.tables tableName.value with
  | none => simp
  | some tbl =>
    simp only [reduceCtorEq, iff_false, not_exists, Option.some.injEq, forall_eq']
    by_cases hl : values.length = tbl.columns.length
    · simp only [hl, ne_eq, not_true_eq_false, if_false, iff_false, not_exists]
      cases hr : insertRow values [] with
      | error f => simp
      | ok row => simp
    · simp [hl]

/-- C2, at concrete calls: an insert into a missing table, and an insert of two
values into a one-column table. -/
theorem Insert_errors_witness :
    let mb := (NewMemoryBackend.CreateTable
      ⟨⟨str "t", .IDENTIFIER, ⟨0, 0⟩⟩,
       some [⟨⟨str "a", .IDENTIFIER, ⟨0, 0⟩⟩, ⟨str "int", .KEYWORD, ⟨0, 0⟩⟩⟩]⟩).1
    let one : expression := ⟨⟨str "1", .NUMERIC, ⟨0, 0⟩⟩, literalKind⟩
    let two : expression := ⟨⟨str "2", .NUMERIC, ⟨0, 0⟩⟩, literalKind⟩
    (∃ mb1, mb.Insert ⟨⟨str "missing", .IDENTIFIER, ⟨0, 0⟩⟩, some [one]⟩ =
      .ok (mb1, some .ErrTableDoesNotExist)) ∧
    (∃ mb1, mb.Insert ⟨⟨str "t", .IDENTIFIER, ⟨0, 0⟩⟩, some [one, two]⟩ =
      .ok (mb1, some .ErrMissingValues)) := by
  intro mb one two
  refine ⟨(Insert_errors mb ⟨str "missing", .IDENTIFIER, ⟨0, 0⟩⟩ [one]).1.2 (by decide!), ?_⟩
  exact ((Insert_errors mb ⟨str "t", .IDENTIFIER, ⟨0, 0⟩⟩ [one, two]).2.1
    ⟨[str "a"], [.IntType], []⟩ (by decide!)).2 (by decide)

/-! ### Select -/

theorem findColumn_eq (cols : List GoString) (name : GoString) (i : Nat) :
    findColumn cols name i =
      if name ∈ cols then some (i + cols.findIdx (fun c => decide (c = name))) else none := by
  induction cols generalizing i with
  | nil => simp [findColumn]
  | cons c rest ih =>
    unfold findColumn
    by_cases h : c = name
    · subst h; simp [List.findIdx_cons]
    · rw [if_neg h, ih (i + 1), List.findIdx_cons]
      have h1 : (name ∈ c :: rest) ↔ name ∈ rest := by
        simp only [List.mem_cons]
        constructor
        · rintro (h2 | h2)
          · exact absurd h2.symm h
          · exact h2
        · exact Or.inr
      have h3 : decide (c = name) = false := by simp [h]
      by_cases hm : name ∈ rest
      · rw [if_pos hm, if_pos (h1.2 hm), h3]; simp only [cond_false]; congr 1; omega
      · rw [if_neg hm, if_neg (fun h2 => hm (h1.1 h2))]

theorem findIdx_name_lt (cols : List GoString) (name : GoString) (h : name ∈ cols) :
    cols.findIdx (fun c => decide (c = name)) < cols.length :=
  List.findIdx_lt_length_of_exists ⟨name, h, by simp⟩

/-- The item loop on identifier items that all name columns, for a row and a
type list at least as long as the column list. -/
theorem selectItems_found (t : table) (row : List MemoryCell) (b : Bool)
    (items : List expression) (columns : List ResultColumn) (result : List MemoryCell)
    (hitems : ∀ it ∈ items, it.kind = literalKind ∧ it.literal.kind = tokenKind.IDENTIFIER ∧
      it.literal.value ∈ t.columns)
    (hrow : t.columns.length ≤ row.length)
    (htypes : b = true → t.columns.length ≤ t.columnTypes.length) :
    selectItems t row b items columns result =
      .ok (.ok (columns ++ (if b then items.map (selectedHeader t) else []),
                result ++ items.map (selectedCell t row))) := by
  induction items generalizing columns result with
  | nil => simp [selectItems]
  | cons it rest ih =>
    obtain ⟨hk, hid, hmem⟩ := hitems it (List.mem_cons_self _ _)
    have hrest := fun x hx => hitems x (List.mem_cons_of_mem _ hx)
    have hi := findIdx_name_lt t.columns it.literal.value hmem
    obtain ⟨cell, hcell⟩ : ∃ cell, row[t.columns.findIdx (fun c => decide (c = it.literal.value))]? = some cell :=
      ⟨_, List.getElem?_eq_getElem (by omega)⟩
    unfold selectItems
    simp only [hk, ne_eq, not_true_eq_false, if_false, hid, if_true, findColumn_eq, hmem,
      Nat.zero_add, hcell]
    cases b with
    | false =>
      simp only [Bool.false_eq_true, if_false]
      rw [ih _ _ hrest]
      simp [selectedCell, selectedIndex, hcell]
    | true =>
      obtain ⟨ty, hty⟩ : ∃ ty, t.columnTypes[t.columns.findIdx (fun c => decide (c = it.literal.value))]? = some ty :=
        ⟨_, List.getElem?_eq_getElem (by have := htypes rfl; omega)⟩
      simp only [if_true, hty]
      rw [ih _ _ hrest]
      simp [selectedCell, selectedHeader, selectedIndex, hcell, hty]

/-- The item loop on identifier items of which one names no column. -/
theorem selectItems_missing (t : table) (row : List MemoryCell) (b : Bool)
    (items : List expression) (columns : List ResultColumn) (result : List MemoryCell)
    (hitems : ∀ it ∈ items, it.kind = literalKind ∧ it.literal.kind = tokenKind.IDENTIFIER)
    (hbad : ∃ it ∈ items, it.literal.value ∉ t.columns)
    (hrow : t.columns.length ≤ row.length)
    (htypes : b = true → t.columns.length ≤ t.columnTypes.length) :
    selectItems t row b items columns result = .ok (.error .ErrColumnDoesNotExist) := by
  induction items generalizing columns result with
  | nil => obtain ⟨it, hit, _⟩ := hbad; cases hit
  | cons it rest ih =>
    obtain ⟨hk, hid⟩ := hitems it (List.mem_cons_self _ _)
    have hrest := fun x hx => hitems x (List.mem_cons_of_mem _ hx)
    unfold selectItems
    by_cases hmem : it.literal.value ∈ t.columns
    · have hi := findIdx_name_lt t.columns it.literal.value hmem
      obtain ⟨cell, hcell⟩ : ∃ cell, row[t.columns.findIdx (fun c => decide (c = it.literal.value))]? = some cell :=
        ⟨_, List.getElem?_eq_getElem (by omega)⟩
      have hbad1 : ∃ x ∈ rest, x.literal.value ∉ t.columns := by
        obtain ⟨x, hx, hxn⟩ := hbad
        rcases List.mem_cons.1 hx with rfl | hx
        · exact absurd hmem hxn
        · exact ⟨x, hx, hxn⟩
      simp only [hk, ne_eq, not_true_eq_false, if_false, hid, if_true, findColumn_eq, hmem,
        Nat.zero_add, hcell]
      cases b with
      | false =>
        simp only [Bool.false_eq_true, if_false]
        exact ih _ _ hrest hbad1
      | true =>
        obtain ⟨ty, hty⟩ : ∃ ty, t.columnTypes[t.columns.findIdx (fun c => decide (c = it.literal.value))]? = some ty :=
          ⟨_, List.getElem?_eq_getElem (by have := htypes rfl; omega)⟩
        simp only [if_true, hty]
        exact ih _ _ hrest hbad1
    · simp only [hk, ne_eq, not_true_eq_false, if_false, hid, if_true, findColumn_eq, hmem]

/-- The row loop on identifier items that all name columns. -/
theorem selectRows_found (t : table) (items : List expression)
    (rows : List (List MemoryCell)) (i : Nat)
    (columns : List ResultColumn) (results : List (List MemoryCell))
    (hitems : ∀ it ∈ items, it.kind = literalKind ∧ it.literal.kind = tokenKind.IDENTIFIER ∧
      it.literal.value ∈ t.columns)
    (hrows : ∀ row ∈ rows, t.columns.length ≤ row.length)
    (htypes : t.columns.length ≤ t.columnTypes.length) :
    selectRows t items rows i columns results =
      .ok (.ok ⟨columns ++ (if i = 0 ∧ rows ≠ [] then items.map (selectedHeader t) else []),
                results ++ rows.map (fun row => items.map (selectedCell t row))⟩) := by
  induction rows generalizing i columns results with
  | nil => simp [selectRows]
  | cons row rest ih =>
    unfold selectRows
    rw [selectItems_found t row _ items columns [] hitems
      (hrows row (List.mem_cons_self _ _)) (fun _ => htypes)]
    simp only
    rw [ih _ _ _ (fun r hr => hrows r (List.mem_cons_of_mem _ hr))]
    by_cases hi : i = 0 <;> simp [hi]

/-- C4 (amended). For a table with at least one row, as many column types as
column names, and rows that each have as many cells as there are column names,
and a select statement whose items are all identifier literals: (a) if every
item equals some column name, `Select` succeeds, its header lists, in item
order, the name of each item with the type at the index of the first column of
that name, and there is one output row per table row, in order, made of that
row's cells at those indices, in item order; (b) if some item equals no column
name, `Select` fails with `column does not exist`. -/
theorem Select_identifier_items (mb : MemoryBackend) (slct : SelectStatement) (tbl : table)
    (ht : mb.tables slct.from.value = some tbl)
    (hrows : tbl.rows ≠ [])
    (htypes : tbl.columnTypes.length = tbl.columns.length)
    (hwidth : ∀ row ∈ tbl.rows, row.length = tbl.columns.length)
    (hitems : ∀ it ∈ slct.item,
      it.kind = literalKind ∧ it.literal.kind = tokenKind.IDENTIFIER) :
    ((∀ it ∈ slct.item, it.literal.value ∈ tbl.columns) →
      ∃ res, mb.Select slct = .ok (.ok res) ∧
        List.Forall₂ (fun it col => col.Name = it.literal.value ∧
            tbl.columnTypes[tbl.columns.findIdx (fun c => decide (c = it.literal.value))]? =
              some col.type)
          slct.item res.Columns ∧
        List.Forall₂ (fun row out =>
            List.Forall₂ (fun it cell =>
                row[tbl.columns.findIdx (fun c => decide (c = it.literal.value))]? = some cell)
              slct.item out)
          tbl.rows res.Row) ∧
    ((∃ it ∈ slct.item, it.literal.value ∉ tbl.columns) →
      mb.Select slct = .ok (.error .ErrColumnDoesNotExist)) := by
  constructor
  · intro hall
    have hfound : ∀ it ∈ slct.item, it.kind = literalKind ∧
        it.literal.kind = tokenKind.IDENTIFIER ∧ it.literal.value ∈ tbl.columns :=
      fun it hit => ⟨(hitems it hit).1, (hitems it hit).2, hall it hit⟩
    have hsel : mb.Select slct = .ok (.ok
        ⟨slct.item.map (selectedHeader tbl),
         tbl.rows.map (fun row => slct.item.map (selectedCell tbl row))⟩) := by
      unfold MemoryBackend.Select
      rw [ht]
      have := selectRows_found tbl slct.item tbl.rows 0 [] [] hfound
        (fun row hr => by rw [hwidth row hr]) (by omega)
      simpa [hrows] using this
    refine ⟨_, hsel, ?_, ?_⟩
    · simp only
      rw [List.forall₂_map_right_iff, List.forall₂_same]
      intro it hit
      have hi := findIdx_name_lt tbl.columns it.literal.value (hall it hit)
      have hlt : tbl.columns.findIdx (fun c => decide (c = it.literal.value)) <
          tbl.columnTypes.length := by omega
      simp [selectedHeader, selectedIndex, List.getElem?_eq_getElem hlt]
    · simp only
      rw [List.forall₂_map_right_iff, List.forall₂_same]
      intro row hr
      rw [List.forall₂_map_right_iff, List.forall₂_same]
      intro it hit
      have hi := findIdx_name_lt tbl.columns it.literal.value (hall it hit)
      have hlt : tbl.columns.findIdx (fun c => decide (c = it.literal.value)) <
          row.length := by rw [hwidth row hr]; exact hi
      simp [selectedCell, selectedIndex, List.getElem?_eq_getElem hlt]
  · intro hbad
    obtain ⟨row, rest, hrr⟩ := List.exists_cons_of_ne_nil hrows
    unfold MemoryBackend.Select
    rw [ht]
    simp only [hrr]
    unfold selectRows
    rw [selectItems_missing tbl row _ slct.item [] [] hitems hbad
      (by rw [hwidth row (by rw [hrr]; exact List.mem_cons_self _ _)]) (fun _ => by omega)]

/-- C4, witness for (b) and (a): after `CREATE TABLE t (a int); INSERT INTO t
VALUES (7);` the statement `SELECT b FROM t;` fails with `column does not
exist`, and `SELECT a FROM t;` succeeds. -/
theorem Select_identifier_items_witness :
    runResults (str "CREATE TABLE t (a int); INSERT INTO t VALUES (7); SELECT b FROM t;") =
      some (.ok [.created none, .inserted none,
        .selected (.error .ErrColumnDoesNotExist)]) ∧
    (stateAfter (str "CREATE TABLE t (a int); INSERT INTO t VALUES (7);")).Select
      ⟨[ident "b"], tok "t" .IDENTIFIER⟩ = .ok (.error .ErrColumnDoesNotExist) ∧
    ∃ res, (stateAfter (str "CREATE TABLE t (a int); INSERT INTO t VALUES (7);")).Select
      ⟨[ident "a"], tok "t" .IDENTIFIER⟩ = .ok (.ok res) :=
  have h := fun (slct : SelectStatement) (hf : slct.from.value = str "t")
      (hi : ∀ it ∈ slct.item,
        it.kind = literalKind ∧ it.literal.kind = tokenKind.IDENTIFIER) =>
    Select_identifier_items
      (stateAfter (str "CREATE TABLE t (a int); INSERT INTO t VALUES (7);")) slct
      ⟨[str "a"], [.IntType], [[[0, 0, 0, 0, 0, 0, 0, 7]]]⟩
      (by rw [hf]; decide!) (by decide) (by decide) (by decide) hi
  ⟨by decide!,
   (h ⟨[ident "b"], tok "t" .IDENTIFIER⟩ rfl (by decide)).2 ⟨ident "b", by decide⟩,
   ((h ⟨[ident "a"], tok "t" .IDENTIFIER⟩ rfl (by decide)).1 (by decide)).imp
     (fun _ hres => hres.1)⟩

/-- C4 as stated fails: a table with one column, one column type and one row
that has no cell (the state `Insert` leaves when its only value is not of
literal kind) satisfies the stated hypotheses for `SELECT a FROM t`, and
`Select` panics on `row[0]`. -/
theorem Select_short_row_panics :
    (∃ tbl, shortRowBackend.tables (str "t") = some tbl ∧ tbl.rows ≠ [] ∧
      tbl.columnTypes.length = tbl.columns.length ∧
      ∀ it ∈ [ident "a"], it.kind = literalKind ∧
        it.literal.kind = tokenKind.IDENTIFIER ∧ it.literal.value ∈ tbl.columns) ∧
    shortRowBackend.Select ⟨[ident "a"], tok "t" .IDENTIFIER⟩ = .error .panic ∧
    ((stateAfter (str "CREATE TABLE t (a int);")).Insert
        ⟨tok "t" .IDENTIFIER, some [⟨tok "7" .NUMERIC, 1⟩]⟩).map
      (fun r => (r.1.tables (str "t"), r.2)) =
      .ok (shortRowBackend.tables (str "t"), none) := by
  refine ⟨⟨⟨[str "a"], [.IntType], [[]]⟩, by decide!, by decide, by decide, by decide⟩,
    by decide!, by decide!⟩

/-! ### Insert followed by Select -/

theorem Insert_keeps_columns (mb mb1 : MemoryBackend) (inst : InsertStatement)
    (e : Option BackendError) (h : mb.Insert inst = .ok (mb1, e))
    (name : GoString) (tbl : table) (ht : mb.tables name = some tbl) :
    ∃ tbl1, mb1.tables name = some tbl1 ∧ tbl1.columns = tbl.columns ∧
      tbl1.columnTypes = tbl.columnTypes := by
  unfold MemoryBackend.Insert at h
  cases hti : mb.tables inst.table.value with
  | none =>
    simp only [hti, Except.ok.injEq, Prod.mk.injEq] at h
    obtain ⟨rfl, _⟩ := h
    exact ⟨tbl, ht, rfl, rfl⟩
  | some t =>
    simp only [hti] at h
    cases hv : inst.values with
    | none =>
      simp only [hv, Except.ok.injEq, Prod.mk.injEq] at h
      obtain ⟨rfl, _⟩ := h
      exact ⟨tbl, ht, rfl, rfl⟩
    | some values =>
      simp only [hv] at h
      by_cases hl : values.length = t.columns.length
      · simp only [hl, ne_eq, not_true_eq_false, if_false] at h
        cases hr : insertRow values [] with
        | error f => simp [hr] at h
        | ok row =>
          simp only [hr, Except.ok.injEq, Prod.mk.injEq] at h
          obtain ⟨rfl, _⟩ := h
          by_cases hn : name = inst.table.value
          · subst hn
            rw [hti] at ht
            cases ht
            exact ⟨{ tbl with rows := tbl.rows ++ [row] }, by simp [MemoryBackend.set],
              rfl, rfl⟩
          · exact ⟨tbl, by simp [MemoryBackend.set, hn, ht], rfl, rfl⟩
      · simp only [hl, ne_eq, not_false_eq_true, if_true, Except.ok.injEq, Prod.mk.injEq] at h
        obtain ⟨rfl, _⟩ := h
        exact ⟨tbl, ht, rfl, rfl⟩

theorem Reach_keeps_columns (name : GoString) (mb mb1 : MemoryBackend)
    (h : Reach name mb mb1) (tbl : table) (ht : mb.tables name = some tbl) :
    ∃ tbl1, mb1.tables name = some tbl1 ∧ tbl1.columns = tbl.columns ∧
      tbl1.columnTypes = tbl.columnTypes := by
  induction h with
  | refl => exact ⟨tbl, ht, rfl, rfl⟩
  | insert inst e _ hins ih =>
    obtain ⟨t1, h1, hc, hty⟩ := ih
    obtain ⟨t2, h2, hc2, hty2⟩ := Insert_keeps_columns _ _ inst e hins name t1 h1
    exact ⟨t2, h2, hc2.trans hc, hty2.trans hty⟩
  | create crt _ hne ih =>
    obtain ⟨t1, h1, hc, hty⟩ := ih
    refine ⟨t1, ?_, hc, hty⟩
    cases hcols : crt.cols <;>
      simp [MemoryBackend.CreateTable, hcols, MemoryBackend.set, Ne.symm hne, h1]

theorem insertRow_fits (cols : List columnDefinition) (values : List expression)
    (h : List.Forall₂ valueFits cols values) (acc : List MemoryCell) :
    ∃ cells, insertRow values acc = .ok (acc ++ cells) ∧
      List.Forall₂ cellDecodes (cols.zip values) cells := by
  induction h generalizing acc with
  | nil => exact ⟨[], by simp [insertRow], List.Forall₂.nil⟩
  | @cons c v cols1 values1 hcv _ ih =>
    obtain ⟨hk, hlit⟩ := hcv
    have hti : str "text" ≠ str "int" := by decide
    rcases hlit with ⟨hint, hnum, hne, hd, hr⟩ | ⟨htext, hstr⟩
    · have hr1 : digitsValue v.literal.value < 2 ^ 63 := by
        have : (2 : Nat) ^ 63 = 9223372036854775808 := by norm_num
        omega
      obtain ⟨cells, hcells, hdec⟩ := ih (acc ++ [putInt64 (digitsValue v.literal.value : Int)])
      refine ⟨putInt64 (digitsValue v.literal.value : Int) :: cells, ?_, ?_⟩
      · unfold insertRow
        simp only [hk, ne_eq, not_true_eq_false, if_false, tokenToCell, hnum, if_true,
          Atoi_of_digits _ hne hd hr1, hcells]
        simp
      · refine List.Forall₂.cons ⟨fun _ => (putInt64_spec _ hr1).2.2.2, fun ht => ?_⟩ hdec
        exact absurd (hint.symm.trans ht) (Ne.symm hti)
    · obtain ⟨cells, hcells, hdec⟩ := ih (acc ++ [v.literal.value])
      refine ⟨v.literal.value :: cells, ?_, ?_⟩
      · unfold insertRow
        simp only [hk, ne_eq, not_true_eq_false, if_false, tokenToCell, hstr, reduceCtorEq,
          if_true, hcells]
        simp
      · refine List.Forall₂.cons ⟨fun hi => ?_, fun _ => rfl⟩ hdec
        exact absurd (htext.symm.trans hi) hti

theorem selectItems_congr (t t1 : table) (hc : t1.columns = t.columns)
    (hty : t1.columnTypes = t.columnTypes) (row : List MemoryCell) (b : Bool)
    (items : List expression) (columns : List ResultColumn) (result : List MemoryCell) :
    selectItems t1 row b items columns result = selectItems t row b items columns result := by
  induction items generalizing columns result with
  | nil => simp [selectItems]
  | cons it rest ih =>
    unfold selectItems
    simp only [hc, hty, ih]

theorem selectRows_congr (t t1 : table) (hc : t1.columns = t.columns)
    (hty : t1.columnTypes = t.columnTypes) (items : List expression)
    (rows : List (List MemoryCell)) (i : Nat)
    (columns : List ResultColumn) (results : List (List MemoryCell)) :
    selectRows t1 items rows i columns results = selectRows t items rows i columns results := by
  induction rows generalizing i columns results with
  | nil => simp [selectRows]
  | cons row rest ih =>
    unfold selectRows
    simp only [selectItems_congr t t1 hc hty, ih]

theorem selectRows_append (t : table) (items : List expression)
    (rows1 rows2 : List (List MemoryCell)) (i : Nat)
    (columns : List ResultColumn) (results : List (List MemoryCell)) (res : Results)
    (h : selectRows t items rows1 i columns results = .ok (.ok res)) :
    selectRows t items (rows1 ++ rows2) i columns results =
      selectRows t items rows2 (i + rows1.length) res.Columns res.Row := by
  induction rows1 generalizing i columns results with
  | nil =>
    simp only [selectRows, Except.ok.injEq] at h
    subst h
    simp
  | cons row rest ih =>
    rw [List.cons_append]
    unfold selectRows at h
    conv_lhs => unfold selectRows
    cases hs : selectItems t row (decide (i = 0)) items columns [] with
    | error f => simp [hs] at h
    | ok r =>
      cases r with
      | error e => simp [hs] at h
      | ok p =>
        obtain ⟨columns1, result⟩ := p
        simp only [hs] at h ⊢
        rw [ih _ _ _ h]
        have hlen : i + 1 + rest.length = i + (row :: rest).length := by
          simp only [List.length_cons]; omega
        rw [hlen]

theorem map_findIdx_nodup (names : List GoString) (hn : names.Nodup)
    (row : List MemoryCell) (hl : row.length = names.length) :
    names.map (fun name => (row[names.findIdx (fun c => decide (c = name))]?).getD []) =
      row := by
  induction names generalizing row with
  | nil =>
    cases row with
    | nil => rfl
    | cons r rest => simp at hl
  | cons a rest ih =>
    cases row with
    | nil => simp at hl
    | cons r row1 =>
      have hna : a ∉ rest := (List.nodup_cons.1 hn).1
      simp only [List.map_cons, List.findIdx_cons, decide_True, cond_true,
        List.getElem?_cons_zero, Option.getD_some, List.cons.injEq, true_and]
      refine Eq.trans (List.map_congr_left ?_) (ih (List.nodup_cons.1 hn).2 row1 (by simpa using hl))
      intro name hname
      have hne : a ≠ name := fun h => hna (h ▸ hname)
      simp [hne]

theorem CreateTable_ok_table (mb : MemoryBackend) (crt : CreateStatement)
    (h : (mb.CreateTable crt).2 = none) :
    (mb.CreateTable crt).1.tables crt.name.value =
      some ⟨(crt.cols.getD []).map (fun c => c.name.value),
            (crt.cols.getD []).map
              (fun c => if c.datatype.value = str "int" then ColumnType.IntType
                        else ColumnType.TextType),
            []⟩ := by
  cases hc : crt.cols with
  | none => simp [MemoryBackend.CreateTable, hc, MemoryBackend.set]
  | some cols =>
    simp only [MemoryBackend.CreateTable, hc] at h
    simp [MemoryBackend.CreateTable, hc, MemoryBackend.set, createColumns_ok cols _ h]

theorem itemNames_values (cols : List columnDefinition) (items : List expression)
    (h : List.Forall₂ itemNames cols items) :
    items.map (fun it => it.literal.value) = cols.map (fun c => c.name.value) ∧
    ∀ it ∈ items, it.kind = literalKind ∧ it.literal.kind = tokenKind.IDENTIFIER := by
  induction h with
  | nil => simp
  | @cons c it cols1 items1 hci _ ih =>
    obtain ⟨hk, hid, hv⟩ := hci
    refine ⟨by simp [hv, ih.1], ?_⟩
    intro x hx
    rcases List.mem_cons.1 hx with rfl | hx
    · exact ⟨hk, hid⟩
    · exact ih.2 x hx

/-- Selecting every column, in declaration order and under distinct names, from
a row that has one cell per column gives the row back. -/
theorem selectedCells_all (t : table) (items : List expression) (row : List MemoryCell)
    (hv : items.map (fun it => it.literal.value) = t.columns) (hn : t.columns.Nodup)
    (hl : row.length = t.columns.length) :
    items.map (selectedCell t row) = row := by
  have h1 : items.map (selectedCell t row) =
      (items.map (fun it => it.literal.value)).map
        (fun name => (row[t.columns.findIdx (fun c => decide (c = name))]?).getD []) := by
    rw [List.map_map]; rfl
  rw [h1, hv]
  exact map_findIdx_nodup t.columns hn row hl

/-- In every backend state in which table `t` was created by a successful
`CreateTable` with distinct column names (and not re-created since), an insert
that supplies one fitting literal per column succeeds, appending to the table
a new row with one cell per column whose cells decode, by the column type, to
the inserted values; a select listing all columns of `t` in declaration order
that returned before the insert returns afterwards the same rows followed by
that row; and such a select returns the rows of `t` whenever every row has one
cell per column. -/
theorem insert_select_core (mb0 mb : MemoryBackend) (crt : CreateStatement)
    (values items : List expression) (tableTok fromTok : token)
    (hcreate : (mb0.CreateTable crt).2 = none)
    (hreach : Reach crt.name.value (mb0.CreateTable crt).1 mb)
    (hdistinct : ((crt.cols.getD []).map (fun c => c.name.value)).Nodup)
    (htable : tableTok.value = crt.name.value) (hfrom : fromTok.value = crt.name.value)
    (hvalues : List.Forall₂ valueFits (crt.cols.getD []) values)
    (hitems : List.Forall₂ itemNames (crt.cols.getD []) items) :
    ∃ tbl row, mb.tables crt.name.value = some tbl ∧
      mb.Insert ⟨tableTok, some values⟩ =
        .ok (mb.set crt.name.value { tbl with rows := tbl.rows ++ [row] }, none) ∧
      row.length = tbl.columns.length ∧
      List.Forall₂ cellDecodes ((crt.cols.getD []).zip values) row ∧
      (∀ res, mb.Select ⟨items, fromTok⟩ = .ok (.ok res) →
        ∃ hdr, (mb.set crt.name.value { tbl with rows := tbl.rows ++ [row] }).Select
          ⟨items, fromTok⟩ = .ok (.ok ⟨hdr, res.Row ++ [row]⟩)) ∧
      ((∀ r ∈ tbl.rows, r.length = tbl.columns.length) →
        mb.Select ⟨items, fromTok⟩ =
          .ok (.ok ⟨if tbl.rows = [] then [] else items.map (selectedHeader tbl), tbl.rows⟩)) := by
  obtain ⟨tbl, ht, hc, hty⟩ := Reach_keeps_columns _ _ _ hreach _
    (CreateTable_ok_table mb0 crt hcreate)
  simp only at hc hty
  obtain ⟨row, hrow, hdec⟩ := insertRow_fits _ _ hvalues []
  rw [List.nil_append] at hrow
  have hlenv : values.length = tbl.columns.length := by
    rw [hc, List.length_map, hvalues.length_eq]
  have hlenr : row.length = tbl.columns.length := by
    rw [← hdec.length_eq, List.length_zip, hc, List.length_map, hvalues.length_eq]
    simp
  have hlent : tbl.columns.length ≤ tbl.columnTypes.length := by
    rw [hc, hty, List.length_map, List.length_map]
  obtain ⟨hv, hki⟩ := itemNames_values _ _ hitems
  rw [← hc] at hv hdistinct
  have hfound : ∀ it ∈ items, it.kind = literalKind ∧
      it.literal.kind = tokenKind.IDENTIFIER ∧ it.literal.value ∈ tbl.columns := by
    intro it hit
    refine ⟨(hki it hit).1, (hki it hit).2, ?_⟩
    rw [← hv]
    exact List.mem_map.2 ⟨it, hit, rfl⟩
  refine ⟨tbl, row, ht, ?_, hlenr, hdec, ?_, ?_⟩
  · unfold MemoryBackend.Insert
    simp only [htable, ht, hlenv, ne_eq, not_true_eq_false, if_false, hrow]
  · intro res hres
    unfold MemoryBackend.Select at hres ⊢
    simp only [hfrom, ht] at hres
    simp only [hfrom, MemoryBackend.set, if_true]
    rw [selectRows_congr tbl { tbl with rows := tbl.rows ++ [row] } rfl rfl,
      selectRows_append _ _ _ _ _ _ _ _ hres]
    unfold selectRows
    rw [selectItems_found tbl row _ items _ _ hfound (by omega) (fun _ => hlent)]
    simp only [selectRows, List.nil_append, selectedCells_all tbl items row hv hdistinct hlenr]
    exact ⟨_, rfl⟩
  · intro hw
    unfold MemoryBackend.Select
    simp only [hfrom, ht]
    rw [selectRows_found tbl items tbl.rows 0 [] [] hfound (fun r hr => by rw [hw r hr]) hlent]
    have hrows : tbl.rows.map (fun r => items.map (selectedCell tbl r)) = tbl.rows := by
      conv_rhs => rw [← List.map_id tbl.rows]
      apply List.map_congr_left
      intro r hr
      exact selectedCells_all tbl items r hv hdistinct (hw r hr)
    by_cases hr : tbl.rows = [] <;> simp [hr, hrows]


/-! ### The parser gives back the cursor on failure -/

theorem parseToken_notMatched (tokens : List token) (c : Nat) (kind : tokenKind) (c1 : Nat)
    (h : parseToken tokens c kind = .notMatched c1) : c1 = c := by
  unfold parseToken at h
  repeat' split at h
  all_goals simp at h <;> omega

theorem parseExpressionKinds_notMatched (tokens : List token) (c : Nat)
    (kinds : List tokenKind) (c1 : Nat)
    (h : parseExpressionKinds tokens c kinds = .notMatched c1) : c1 = c := by
  induction kinds with
  | nil => simp [parseExpressionKinds] at h; omega
  | cons k rest ih =>
    unfold parseExpressionKinds at h
    split at h
    · simp at h
    · exact ih h

theorem parseExpressionsLoop_notMatched (tokens : List token) (ic : Nat)
    (delimiters : List token) (fuel cursor : Nat) (exps : List expression) (c1 : Nat)
    (h : parseExpressionsLoop tokens ic delimiters fuel cursor exps = .ok (.notMatched c1)) :
    c1 = ic := by
  induction fuel generalizing cursor exps with
  | zero => simp [parseExpressionsLoop] at h
  | succ n ih =>
    unfold parseExpressionsLoop at h
    dsimp only at h
    repeat' split at h
    all_goals first
      | exact ih _ _ h
      | (simp at h <;> omega)

theorem parseColumnDefinitionsLoop_notMatched (tokens : List token) (ic : Nat)
    (delimiter : token) (fuel cursor : Nat) (cds : List columnDefinition) (c1 : Nat)
    (h : parseColumnDefinitionsLoop tokens ic delimiter fuel cursor cds =
      .ok (.notMatched c1)) :
    c1 = ic := by
  induction fuel generalizing cursor cds with
  | zero => simp [parseColumnDefinitionsLoop] at h
  | succ n ih =>
    unfold parseColumnDefinitionsLoop at h
    dsimp only at h
    repeat' split at h
    all_goals first
      | exact ih _ _ h
      | (simp at h <;> omega)

theorem parseSelectStatement_notMatched (tokens : List token) (c : Nat) (d : token) (c1 : Nat)
    (h : parseSelectStatement tokens c d = .ok (.notMatched c1)) : c1 = c := by
  unfold parseSelectStatement at h
  repeat' split at h
  all_goals simp at h <;> omega

theorem parseInsertStatement_notMatched (tokens : List token) (c : Nat) (d : token) (c1 : Nat)
    (h : parseInsertStatement tokens c d = .ok (.notMatched c1)) : c1 = c := by
  unfold parseInsertStatement at h
  repeat' split at h
  all_goals simp at h <;> omega

theorem parseCreateTableStatement_notMatched (tokens : List token) (c : Nat) (d : token)
    (c1 : Nat) (h : parseCreateTableStatement tokens c d = .ok (.notMatched c1)) : c1 = c := by
  unfold parseCreateTableStatement at h
  repeat' split at h
  all_goals simp at h <;> omega

theorem parseStatement_notMatched (tokens : List token) (c : Nat) (d : token) (c1 : Nat)
    (h : parseStatement tokens c d = .ok (.notMatched c1)) : c1 = c := by
  unfold parseStatement at h
  repeat' split at h
  all_goals simp at h <;> omega

/-- C7. Each of `parseToken`, `parseExpression`, `parseExpressions`,
`parseColumnDefinitions`, `parseSelectStatement`, `parseInsertStatement`,
`parseCreateTableStatement` and `parseStatement`, on every token sequence and
every initial cursor, returns the cursor it was passed whenever it reports
"not matched". -/
theorem parser_failure_keeps_cursor (tokens : List token) (c c1 : Nat) :
    (∀ kind, parseToken tokens c kind = .notMatched c1 → c1 = c) ∧
    (∀ d, parseExpression tokens c d = .notMatched c1 → c1 = c) ∧
    (∀ ds, parseExpressions tokens c ds = .ok (.notMatched c1) → c1 = c) ∧
    (∀ d, parseColumnDefinitions tokens c d = .ok (.notMatched c1) → c1 = c) ∧
    (∀ d, parseSelectStatement tokens c d = .ok (.notMatched c1) → c1 = c) ∧
    (∀ d, parseInsertStatement tokens c d = .ok (.notMatched c1) → c1 = c) ∧
    (∀ d, parseCreateTableStatement tokens c d = .ok (.notMatched c1) → c1 = c) ∧
    (∀ d, parseStatement tokens c d = .ok (.notMatched c1) → c1 = c) :=
  ⟨fun kind => parseToken_notMatched tokens c kind c1,
   fun _ => parseExpressionKinds_notMatched tokens c _ c1,
   fun ds => parseExpressionsLoop_notMatched tokens c ds _ c [] c1,
   fun d => parseColumnDefinitionsLoop_notMatched tokens c d _ c [] c1,
   fun d => parseSelectStatement_notMatched tokens c d c1,
   fun d => parseInsertStatement_notMatched tokens c d c1,
   fun d => parseCreateTableStatement_notMatched tokens c d c1,
   fun d => parseStatement_notMatched tokens c d c1⟩

/-- C7, at the tokens of `insert into t values (1 2` with the cursor at 0 and
at 5: each of the eight parsers reports "not matched" there. -/
theorem parser_failure_keeps_cursor_witness :
    parseToken brokenInsert 5 .IDENTIFIER = .notMatched 5 ∧
    parseExpression brokenInsert 4 (tok "," .SYMBOL) = .notMatched 4 ∧
    parseExpressions brokenInsert 5 [tok ")" .SYMBOL] = .ok (.notMatched 5) ∧
    parseColumnDefinitions brokenInsert 5 (tok ")" .SYMBOL) = .ok (.notMatched 5) ∧
    parseSelectStatement brokenInsert 0 (tok ";" .SYMBOL) = .ok (.notMatched 0) ∧
    parseInsertStatement brokenInsert 0 (tok ";" .SYMBOL) = .ok (.notMatched 0) ∧
    parseCreateTableStatement brokenInsert 0 (tok ";" .SYMBOL) = .ok (.notMatched 0) ∧
    parseStatement brokenInsert 0 (tok ";" .SYMBOL) = .ok (.notMatched 0) ∧
    (∀ c1, parseStatement brokenInsert 0 (tok ";" .SYMBOL) = .ok (.notMatched c1) → c1 = 0) :=
  ⟨by decide!, by decide!, by decide!, by decide!, by decide!, by decide!, by decide!,
   by decide!,
   fun c1 => (parser_failure_keeps_cursor brokenInsert 0 c1).2.2.2.2.2.2.2 (tok ";" .SYMBOL)⟩

/-! ### Statements built by the parser -/

theorem parseExpressionKinds_literal (tokens : List token) (c : Nat)
    (kinds : List tokenKind) (e : expression) (c1 : Nat)
    (h : parseExpressionKinds tokens c kinds = .matched e c1) : e.kind = literalKind := by
  induction kinds with
  | nil => simp [parseExpressionKinds] at h
  | cons k rest ih =>
    unfold parseExpressionKinds at h
    split at h
    · simp only [PResult.matched.injEq] at h
      rw [← h.1]
    · exact ih h

theorem parseExpressionsLoop_literal (tokens : List token) (ic : Nat)
    (delimiters : List token) (fuel cursor : Nat) (exps exps1 : List expression) (c1 : Nat)
    (hexps : ∀ e ∈ exps, e.kind = literalKind)
    (h : parseExpressionsLoop tokens ic delimiters fuel cursor exps = .ok (.matched exps1 c1)) :
    ∀ e ∈ exps1, e.kind = literalKind := by
  induction fuel generalizing cursor exps with
  | zero => simp [parseExpressionsLoop] at h
  | succ n ih =>
    unfold parseExpressionsLoop at h
    dsimp only at h
    repeat' split at h
    all_goals first
      | (simp at h; done)
      | (simp only [Except.ok.injEq, PResult.matched.injEq] at h
         obtain ⟨rfl, _⟩ := h
         exact hexps)
      | (refine ih _ _ ?_ h
         intro e he
         rcases List.mem_append.1 he with he | he
         · exact hexps e he
         · rw [List.mem_singleton] at he
           subst he
           exact parseExpressionKinds_literal _ _ _ _ _ (by assumption))

theorem parseInsertStatement_literal (tokens : List token) (c : Nat) (d : token)
    (inst : InsertStatement) (c1 : Nat)
    (h : parseInsertStatement tokens c d = .ok (.matched inst c1)) :
    ∀ values, inst.values = some values → ∀ v ∈ values, v.kind = literalKind := by
  unfold parseInsertStatement at h
  repeat' split at h
  all_goals first
    | (simp at h; done)
    | (simp only [Except.ok.injEq, PResult.matched.injEq] at h
       obtain ⟨rfl, _⟩ := h
       intro values hv
       simp only [Option.some.injEq] at hv
       subst hv
       exact parseExpressionsLoop_literal _ _ _ _ _ [] _ _ (by simp) (by assumption))

theorem parseStatement_wf (tokens : List token) (c : Nat) (d : token)
    (stmt : Statement) (c1 : Nat)
    (h : parseStatement tokens c d = .ok (.matched stmt c1)) : StatementWF stmt := by
  unfold parseStatement at h
  repeat' split at h
  all_goals first
    | (simp at h; done)
    | (simp only [Except.ok.injEq, PResult.matched.injEq] at h
       obtain ⟨rfl, _⟩ := h
       simp [StatementWF]; done)
    | (simp only [Except.ok.injEq, PResult.matched.injEq] at h
       obtain ⟨rfl, _⟩ := h
       exact ⟨_, rfl, parseInsertStatement_literal _ _ _ _ _ (by assumption)⟩)

theorem parseLoop_wf (tokens : List token) (fuel cursor : Nat) (stmts : List Statement)
    (ast : Ast) (hs : ∀ s ∈ stmts, StatementWF s)
    (h : parseLoop tokens fuel cursor stmts = .ok (.ok ast)) :
    ∀ s ∈ ast.Statements, StatementWF s := by
  induction fuel generalizing cursor stmts with
  | zero =>
    unfold parseLoop at h
    split at h
    · simp at h
    · simp only [Except.ok.injEq] at h
      subst h
      exact hs
  | succ n ih =>
    unfold parseLoop at h
    dsimp only at h
    repeat' split at h
    all_goals first
      | (simp at h; done)
      | (simp only [Except.ok.injEq] at h
         subst h
         exact hs)
      | (refine ih _ _ ?_ h
         intro s hsm
         rcases List.mem_append.1 hsm with hsm | hsm
         · exact hs s hsm
         · rw [List.mem_singleton] at hsm
           subst hsm
           exact parseStatement_wf _ _ _ _ _ (by assumption))

theorem parse_wf (source : GoString) (ast : Ast) (h : parse source = .ok (.ok ast)) :
    ∀ s ∈ ast.Statements, StatementWF s := by
  unfold parse at h
  split at h
  · simp at h
  · simp at h
  · exact parseLoop_wf _ _ _ [] ast (by simp) h

/-! ### Backend calls that return normally -/

theorem tokenToCell_ok (t : token)
    (h : t.kind = tokenKind.NUMERIC → decimalInt64 t.value) :
    ∃ cell, tokenToCell t = .ok cell := by
  unfold tokenToCell
  by_cases hk : t.kind = tokenKind.NUMERIC
  · obtain ⟨hne, hd, hr⟩ := h hk
    have hr1 : digitsValue t.value < 2 ^ 63 := by
      have : (2 : Nat) ^ 63 = 9223372036854775808 := by norm_num
      omega
    simp [hk, Atoi_of_digits t.value hne hd hr1]
  · by_cases hs : t.kind = tokenKind.STRING <;> simp [hk, hs]

theorem insertRow_ok (values : List expression) (acc : List MemoryCell)
    (hlit : ∀ v ∈ values, v.kind = literalKind)
    (hnum : ∀ v ∈ values, v.literal.kind = tokenKind.NUMERIC → decimalInt64 v.literal.value) :
    ∃ row, insertRow values acc = .ok row ∧ row.length = acc.length + values.length := by
  induction values generalizing acc with
  | nil => exact ⟨acc, by simp [insertRow], by simp⟩
  | cons v rest ih =>
    obtain ⟨cell, hcell⟩ := tokenToCell_ok v.literal (hnum v (List.mem_cons_self _ _))
    obtain ⟨row, hrow, hlen⟩ := ih (acc ++ [cell])
      (fun x hx => hlit x (List.mem_cons_of_mem _ hx))
      (fun x hx => hnum x (List.mem_cons_of_mem _ hx))
    refine ⟨row, ?_, ?_⟩
    · unfold insertRow
      simp only [hlit v (List.mem_cons_self _ _), ne_eq, not_true_eq_false, if_false, hcell,
        hrow]
    · simp only [List.length_append, List.length_singleton, List.length_cons, List.length_nil] at hlen ⊢
      omega

theorem selectItems_returns (t : table) (row : List MemoryCell) (b : Bool)
    (items : List expression) (columns : List ResultColumn) (result : List MemoryCell)
    (hrow : t.columns.length ≤ row.length)
    (htypes : t.columns.length ≤ t.columnTypes.length) :
    ∃ r, selectItems t row b items columns result = .ok r := by
  induction items generalizing columns result with
  | nil => unfold selectItems; exact ⟨_, rfl⟩
  | cons it rest ih =>
    unfold selectItems
    by_cases hk : it.kind = literalKind
    · by_cases hid : it.literal.kind = tokenKind.IDENTIFIER
      · by_cases hmem : it.literal.value ∈ t.columns
        · have hi := findIdx_name_lt t.columns it.literal.value hmem
          obtain ⟨cell, hcell⟩ :
              ∃ cell, row[t.columns.findIdx (fun c => decide (c = it.literal.value))]? =
                some cell := ⟨_, List.getElem?_eq_getElem (by omega)⟩
          obtain ⟨ty, hty⟩ :
              ∃ ty, t.columnTypes[t.columns.findIdx
                (fun c => decide (c = it.literal.value))]? = some ty :=
            ⟨_, List.getElem?_eq_getElem (by omega)⟩
          simp only [hk, ne_eq, not_true_eq_false, if_false, hid, if_true, findColumn_eq, hmem,
            Nat.zero_add, hcell, hty]
          cases b with
          | false => simp only [Bool.false_eq_true, if_false]; exact ih _ _
          | true => simp only [if_true]; exact ih _ _
        · simp only [hk, ne_eq, not_true_eq_false, if_false, hid, if_true,
            findColumn_eq, hmem]
          exact ⟨_, rfl⟩
      · simp only [hk, ne_eq, not_true_eq_false, if_false, hid]
        exact ⟨_, rfl⟩
    · simp only [ne_eq, hk, not_false_eq_true, if_true]
      exact ih _ _

theorem selectRows_returns (t : table) (items : List expression)
    (rows : List (List MemoryCell)) (i : Nat)
    (columns : List ResultColumn) (results : List (List MemoryCell))
    (hrows : ∀ row ∈ rows, t.columns.length ≤ row.length)
    (htypes : t.columns.length ≤ t.columnTypes.length) :
    ∃ r, selectRows t items rows i columns results = .ok r := by
  induction rows generalizing i columns results with
  | nil => unfold selectRows; exact ⟨_, rfl⟩
  | cons row rest ih =>
    unfold selectRows
    obtain ⟨r, hr⟩ := selectItems_returns t row (decide (i = 0)) items columns []
      (hrows row (List.mem_cons_self _ _)) htypes
    rw [hr]
    cases r with
    | error e => exact ⟨_, rfl⟩
    | ok p =>
      obtain ⟨columns1, result⟩ := p
      exact ih _ _ _ (fun x hx => hrows x (List.mem_cons_of_mem _ hx))

theorem CreateTable_inv (mb : MemoryBackend) (crt : CreateStatement)
    (hinv : CatalogInv mb)
    (hty : ∀ c ∈ crt.cols.getD [], c.datatype.value = str "int" ∨ c.datatype.value = str "text") :
    CatalogInv (mb.CreateTable crt).1 := by
  have hok : (mb.CreateTable crt).2 = none := by
    cases hc : crt.cols with
    | none => simp [MemoryBackend.CreateTable, hc]
    | some cols =>
      simp only [MemoryBackend.CreateTable, hc]
      rcases createColumns_none_or_error cols ⟨[], [], []⟩ with h | h
      · exact h
      · obtain ⟨c, hcm, h1, h2⟩ := (createColumns_error_iff cols _).1 h
        rcases hty c (by simp [hc, hcm]) with h3 | h3
        · exact absurd h3 h1
        · exact absurd h3 h2
  have htab := CreateTable_ok_table mb crt hok
  intro name tbl ht
  by_cases hn : name = crt.name.value
  · subst hn
    rw [htab] at ht
    cases ht
    simp
  · have hsame : (mb.CreateTable crt).1.tables name = mb.tables name := by
      cases hc : crt.cols <;> simp [MemoryBackend.CreateTable, hc, MemoryBackend.set, hn]
    rw [hsame] at ht
    exact hinv name tbl ht

theorem Insert_inv (mb : MemoryBackend) (inst : InsertStatement) (hinv : CatalogInv mb)
    (hlit : ∀ values, inst.values = some values → ∀ v ∈ values, v.kind = literalKind)
    (hnum : ∀ values, inst.values = some values → ∀ v ∈ values,
      v.literal.kind = tokenKind.NUMERIC → decimalInt64 v.literal.value) :
    ∃ mb1 e, mb.Insert inst = .ok (mb1, e) ∧ CatalogInv mb1 := by
  unfold MemoryBackend.Insert
  cases ht : mb.tables inst.table.value with
  | none => exact ⟨mb, _, rfl, hinv⟩
  | some tbl =>
    cases hv : inst.values with
    | none => exact ⟨mb, _, rfl, hinv⟩
    | some values =>
      by_cases hl : values.length = tbl.columns.length
      · obtain ⟨row, hrow, hlen⟩ := insertRow_ok values [] (hlit values hv) (hnum values hv)
        simp only [hl, ne_eq, not_true_eq_false, if_false, hrow]
        refine ⟨_, _, rfl, ?_⟩
        intro name t1 ht1
        by_cases hn : name = inst.table.value
        · subst hn
          simp only [MemoryBackend.set, if_true, Option.some.injEq] at ht1
          subst ht1
          refine ⟨(hinv _ tbl ht).1, ?_⟩
          intro r hr
          rcases List.mem_append.1 hr with hr | hr
          · exact (hinv _ tbl ht).2 r hr
          · rw [List.mem_singleton] at hr
            subst hr
            simp only [List.length_nil, Nat.zero_add] at hlen
            show r.length = tbl.columns.length
            omega
        · simp only [MemoryBackend.set, hn, if_false] at ht1
          exact hinv name t1 ht1
      · simp only [ne_eq, hl, not_false_eq_true, if_true]
        exact ⟨mb, _, rfl, hinv⟩

theorem Select_returns (mb : MemoryBackend) (slct : SelectStatement) (hinv : CatalogInv mb) :
    ∃ r, mb.Select slct = .ok r := by
  unfold MemoryBackend.Select
  cases ht : mb.tables slct.from.value with
  | none => exact ⟨_, rfl⟩
  | some tbl =>
    obtain ⟨h1, h2⟩ := hinv _ tbl ht
    exact selectRows_returns tbl slct.item tbl.rows 0 [] []
      (fun row hr => by rw [h2 row hr]) (by omega)

theorem execStatement_returns (mb : MemoryBackend) (stmt : Statement) (hinv : CatalogInv mb)
    (hwf : StatementWF stmt) (hsafe : StatementSafe stmt) :
    ∃ r, execStatement mb stmt = .ok r ∧ CatalogInv r.1 := by
  unfold execStatement
  unfold StatementWF at hwf
  cases hk : stmt.Kind with
  | SelectStmtKind =>
    simp only [hk] at hwf
    obtain ⟨slct, hs⟩ := Option.ne_none_iff_exists'.1 hwf
    obtain ⟨r, hr⟩ := Select_returns mb slct hinv
    simp only [hs, hr]
    exact ⟨_, rfl, hinv⟩
  | CreateStmtKind =>
    simp only [hk] at hwf
    obtain ⟨crt, hs⟩ := Option.ne_none_iff_exists'.1 hwf
    simp only [hs]
    exact ⟨_, rfl, CreateTable_inv mb crt hinv (hsafe.2 crt hs)⟩
  | InsertStmtKind =>
    simp only [hk] at hwf
    obtain ⟨inst, hs, hlit⟩ := hwf
    obtain ⟨mb1, e, hins, hinv1⟩ := Insert_inv mb inst hinv hlit (hsafe.1 inst hs)
    simp only [hs, hins]
    exact ⟨_, rfl, hinv1⟩

theorem execAll_returns (stmts : List Statement) (mb : MemoryBackend)
    (results : List CallResult) (hinv : CatalogInv mb)
    (hwf : ∀ s ∈ stmts, StatementWF s) (hsafe : ∀ s ∈ stmts, StatementSafe s) :
    ∃ r, execAll stmts mb results = .ok r ∧ CatalogInv r.1 ∧
      r.2.length = results.length + stmts.length := by
  induction stmts generalizing mb results with
  | nil => exact ⟨_, rfl, hinv, by simp⟩
  | cons s rest ih =>
    obtain ⟨r, hr, hinv1⟩ := execStatement_returns mb s hinv
      (hwf s (List.mem_cons_self _ _)) (hsafe s (List.mem_cons_self _ _))
    obtain ⟨r2, hr2, hinv2, hlen⟩ := ih r.1 (results ++ [r.2]) hinv1
      (fun x hx => hwf x (List.mem_cons_of_mem _ hx))
      (fun x hx => hsafe x (List.mem_cons_of_mem _ hx))
    refine ⟨r2, ?_, hinv2, ?_⟩
    · unfold execAll
      simp only [hr, hr2]
    · simp only [List.length_append, List.length_singleton, List.length_cons, List.length_nil] at hlen ⊢
      omega

/-- C8 (amended). For every source that `parse` accepts in which every numeric
literal among the values of an insert statement is a string of decimal digits
denoting at most `2^63 - 1` and every column type word of a create statement
is `int` or `text`, running the parsed statements in order on a fresh backend
makes every backend call return, with a result or a backend error: the run
ends normally with one recorded result per statement. -/
theorem core_returns_normally (source : GoString) (ast : Ast)
    (hparse : parse source = .ok (.ok ast))
    (hsafe : ∀ s ∈ ast.Statements, StatementSafe s) :
    ∃ r, execAll ast.Statements NewMemoryBackend [] = .ok r ∧
      r.2.length = ast.Statements.length := by
  obtain ⟨r, hr, _, hlen⟩ := execAll_returns ast.Statements NewMemoryBackend []
    (fun name tbl h => by simp [NewMemoryBackend] at h) (parse_wf source ast hparse) hsafe
  exact ⟨r, hr, by simpa using hlen⟩

/-- C8 (amended), at `create table t (a int); insert into t values (7, 8);
select b from t;`: the three calls return (two of them with an error). -/
theorem core_returns_normally_witness :
    (∃ r, execAll
        (astOf (str "create table t (a int); insert into t values (7, 8); select b from t;")).Statements
        NewMemoryBackend [] = .ok r ∧
      r.2.length =
        (astOf (str "create table t (a int); insert into t values (7, 8); select b from t;")).Statements.length) ∧
    runResults (str "create table t (a int); insert into t values (7, 8); select b from t;") =
      some (.ok [.created none, .inserted (some .ErrMissingValues),
        .selected (.ok ⟨[], []⟩)]) :=
  ⟨core_returns_normally
      (str "create table t (a int); insert into t values (7, 8); select b from t;")
      (astOf (str "create table t (a int); insert into t values (7, 8); select b from t;"))
      (by decide!) (by decide!),
   by decide!⟩

/-- C8 as stated fails: each of these sources is accepted by `parse`, and
running it ends in a panic.  `insert into t values (1.5)` and an insert of a
number beyond `int64` panic in `tokenToCell` (`strconv.Atoi` returns an error);
a select on a table left behind by a failed `create table` panics on
`table.columnTypes[0]`. -/
theorem core_call_panics :
    runResults (str "create table t (a int); insert into t values (1.5);") =
      some (.error .panic) ∧
    Atoi (str "1.5") = none ∧
    runResults (str "create table u (b int); insert into u values (9223372036854775808);") =
      some (.error .panic) ∧
    runResults (str "create table v (c into); insert into v values (1); select c from v;") =
      some (.error .panic) := by
  decide!

/-- C6 (evaluation at the failing input): `create table t (a from);` is
accepted by `parse`; `CreateTable` returns `invalid datatype` and leaves table
`t` registered with one column name and no column type; a later insert and
select on it end in the panic of `table.columnTypes[0]`. -/
theorem create_invalid_datatype_leaves_partial_table :
    runResults (str "create table t (a from);") =
      some (.ok [.created (some .ErrInvalidDatatype)]) ∧
    (stateAfter (str "create table t (a from);")).tables (str "t") =
      some ⟨[str "a"], [], []⟩ ∧
    runResults (str "create table t (a from); insert into t values (1); select a from t;") =
      some (.error .panic) := by
  decide!

/-! ### Lexing an identifier -/

/-- One pass of `longestMatch` over the options when none of them equals the
accumulated value: no panic, the match is unchanged, the skip list only grows,
and every option still alive is longer than the value. -/
theorem matchOptions_no_match (value1 : GoString) (n : Nat)
    (rest : List GoString) (i : Nat) (sk : List Nat) (m : GoString)
    (hpre : ∀ k o, rest[k]? = some o → i + k ∉ sk → n < o.length)
    (hne : ∀ o ∈ rest, o ≠ value1) :
    ∃ sk1, matchOptions value1 (n + 1) rest i sk m = some (sk1, m) ∧
      (∀ j, j ∈ sk → j ∈ sk1) ∧
      (∀ k o, rest[k]? = some o → i + k ∉ sk1 → n + 1 < o.length) := by
  induction rest generalizing i sk with
  | nil => exact ⟨sk, by simp [matchOptions], fun _ h => h, by simp⟩
  | cons o rest1 ih =>
    have hne1 : ∀ o1 ∈ rest1, o1 ≠ value1 := fun o1 h => hne o1 (List.mem_cons_of_mem _ h)
    have hov : o ≠ value1 := hne o (List.mem_cons_self _ _)
    have hidx : ∀ k, i + 1 + k = i + (k + 1) := fun k => by omega
    unfold matchOptions
    by_cases hi : i ∈ sk
    · rw [if_pos hi]
      obtain ⟨sk1, h1, h2, h3⟩ := ih (i + 1) sk
        (fun k o1 hk hnot => hpre (k + 1) o1 (by simpa using hk) (by rw [← hidx]; exact hnot))
        hne1
      refine ⟨sk1, h1, h2, ?_⟩
      intro k o1 hk hnot
      cases k with
      | zero => exact absurd (h2 i hi) (by simpa using hnot)
      | succ k => exact h3 k o1 (by simpa using hk) (by rw [hidx]; exact hnot)
    · rw [if_neg hi, if_neg hov]
      have hlo : n < o.length := hpre 0 o (by simp) (by simpa using hi)
      rw [if_neg (by omega)]
      by_cases hskip :
          (decide (value1.length > o.length) || !decide (value1 = o.take (n + 1))) = true
      · simp only [hskip, if_true]
        obtain ⟨sk1, h1, h2, h3⟩ := ih (i + 1) (sk ++ [i])
          (fun k o1 hk hnot => hpre (k + 1) o1 (by simpa using hk)
            (by
              rw [← hidx]
              intro hmem
              exact hnot (List.mem_append_left _ hmem)))
          hne1
        refine ⟨sk1, h1, fun j hj => h2 j (List.mem_append_left _ hj), ?_⟩
        intro k o1 hk hnot
        cases k with
        | zero => exact absurd (h2 i (by simp)) (by simpa using hnot)
        | succ k => exact h3 k o1 (by simpa using hk) (by rw [hidx]; exact hnot)
      · simp only [hskip, Bool.false_eq_true, if_false]
        obtain ⟨sk1, h1, h2, h3⟩ := ih (i + 1) sk
          (fun k o1 hk hnot => hpre (k + 1) o1 (by simpa using hk) (by rw [← hidx]; exact hnot))
          hne1
        refine ⟨sk1, h1, h2, ?_⟩
        intro k o1 hk hnot
        cases k with
        | zero =>
          simp only [List.getElem?_cons_zero, Option.some.injEq] at hk
          subst hk
          simp only [gt_iff_lt, Bool.or_eq_true, decide_eq_true_eq, Bool.not_eq_true',
            decide_eq_false_iff_not, not_or, not_lt, not_not] at hskip
          by_contra hcon
          apply hov
          rw [hskip.2, List.take_of_length_le (by omega)]
        | succ k => exact h3 k o1 (by simpa using hk) (by rw [hidx]; exact hnot)

/-- The outer loop of `longestMatch` on ASCII input of which no option is a
prefix (after lower-casing) returns the empty match, without panic. -/
theorem longestMatchLoop_unmatched (options : List GoString) (rest : GoString) (n : Nat)
    (value : GoString) (sk : List Nat)
    (hascii : ∀ c ∈ rest, c < 128)
    (hpre : ∀ j o, options[j]? = some o → j ∉ sk → n < o.length)
    (hnp : ∀ o ∈ options, ¬ o <+: value ++ rest.map lowerByte) :
    longestMatchLoop options rest n value sk [] = some [] := by
  induction rest generalizing n value sk with
  | nil => simp [longestMatchLoop]
  | cons c rest1 ih =>
    have hc : c < 128 := hascii c (List.mem_cons_self _ _)
    have hrune : lowerRune c = [lowerByte c] := by simp [lowerRune, hc]
    have happ : value ++ [lowerByte c] ++ rest1.map lowerByte =
        value ++ (c :: rest1).map lowerByte := by simp
    obtain ⟨sk1, h1, _, h3⟩ := matchOptions_no_match (value ++ [lowerByte c]) n
      options 0 sk []
      (fun k o hk hnot => hpre k o hk (by simpa using hnot))
      (fun o ho heq => hnp o ho (by
        rw [heq, ← happ]
        exact List.prefix_append _ _))
    unfold longestMatchLoop
    simp only [hrune, h1]
    by_cases hfull : sk1.length = options.length
    · rw [if_pos hfull]
    · rw [if_neg hfull]
      exact ih (n + 1) (value ++ [lowerByte c]) sk1
        (fun x hx => hascii x (List.mem_cons_of_mem _ hx))
        (fun j o hj hnot => h3 j o hj (by simpa using hnot))
        (fun o ho => by rw [happ]; exact hnp o ho)

theorem longestMatch_unmatched (options : List GoString) (w : GoString) (loc : location)
    (hascii : ∀ c ∈ w, c < 128) (hopt : ∀ o ∈ options, o ≠ [])
    (hnp : ∀ o ∈ options, ¬ o <+: toLowerASCII w) :
    longestMatch w ⟨0, loc⟩ options = some [] := by
  unfold longestMatch
  simp only [List.drop_zero]
  apply longestMatchLoop_unmatched options w 0 [] [] hascii
  · intro j o hj _
    exact List.length_pos.2 (hopt o (List.getElem?_mem hj))
  · intro o ho
    simpa [toLowerASCII] using hnp o ho

theorem isIdentifierByte_lt (c : Nat) (h : isIdentifierByte c = true) : c < 128 := by
  simp only [isIdentifierByte, isAlphabetByte, isDigitByte, Bool.or_eq_true, Bool.and_eq_true,
    decide_eq_true_eq] at h
  omega

theorem identifierLoop_all (rest : GoString) (cur : cursor) (value : GoString)
    (h : ∀ c ∈ rest, isIdentifierByte c = true) :
    identifierLoop rest cur value =
      (⟨cur.pointer + rest.length, ⟨cur.loc.line, cur.loc.column + rest.length⟩⟩,
        value ++ rest) := by
  induction rest generalizing cur value with
  | nil => simp [identifierLoop]
  | cons c rest1 ih =>
    have hc := h c (List.mem_cons_self _ _)
    unfold isIdentifierByte at hc
    unfold identifierLoop
    rw [if_pos hc, ih _ _ (fun x hx => h x (List.mem_cons_of_mem _ hx))]
    simp only [List.length_cons, List.append_assoc, List.singleton_append, Prod.mk.injEq,
      cursor.mk.injEq, location.mk.injEq, and_true, true_and]
    omega

theorem lexLoop_at_end (source : GoString) (fuel : Nat) (cur : cursor) (tokens : List token)
    (h : ¬ cur.pointer < source.length) :
    lexLoop source fuel cur tokens = .ok (.ok tokens) := by
  cases fuel <;> simp [lexLoop, h]

/-- A word made of an ASCII letter followed by letters, digits, `$` or `_`, of
which no keyword is (case-insensitively) a prefix, lexes to exactly one token,
of kind identifier, whose value is the word lowercased. -/
theorem lex_single_identifier (w : GoString) (hw : isIdentifierWord w = true)
    (hk : ∀ k ∈ keywords, ¬ k <+: toLowerASCII w) :
    lex w = .ok (.ok [⟨toLowerASCII w, tokenKind.IDENTIFIER, ⟨0, 0⟩⟩]) := by
  cases w with
  | nil => simp [isIdentifierWord] at hw
  | cons c rest =>
    simp only [isIdentifierWord, Bool.and_eq_true, List.all_eq_true] at hw
    obtain ⟨hc, hrest⟩ := hw
    have hcb : (65 ≤ c ∧ c ≤ 90) ∨ (97 ≤ c ∧ c ≤ 122) := by
      simpa [isAlphabetByte] using hc
    have hascii : ∀ x ∈ c :: rest, x < 128 := by
      intro x hx
      rcases List.mem_cons.1 hx with rfl | hx
      · omega
      · exact isIdentifierByte_lt x (hrest x hx)
    have hlow : 97 ≤ lowerByte c ∧ lowerByte c ≤ 122 := by
      unfold lowerByte
      split <;> omega
    have hkw : lexKeyword (c :: rest) ⟨0, ⟨0, 0⟩⟩ = some ⟨none, ⟨0, ⟨0, 0⟩⟩, false⟩ := by
      unfold lexKeyword
      rw [longestMatch_unmatched keywords (c :: rest) ⟨0, 0⟩ hascii (by decide) hk]
      rfl
    have hsym : lexSymbol (c :: rest) ⟨0, ⟨0, 0⟩⟩ = some ⟨none, ⟨0, ⟨0, 0⟩⟩, false⟩ := by
      unfold lexSymbol
      have hsp : ∀ o ∈ symbols, ¬ o <+: toLowerASCII (c :: rest) := by
        intro o ho hpre
        have h1 : o = [44] ∨ o = [40] ∨ o = [41] ∨ o = [59] ∨ o = [42] := by
          simpa [symbols, str] using ho
        simp only [toLowerASCII, List.map_cons] at hpre
        rcases h1 with rfl | rfl | rfl | rfl | rfl <;>
          · have := List.cons_prefix_cons.1 hpre
            omega
      rw [longestMatch_unmatched symbols (c :: rest) ⟨0, 0⟩ hascii (by decide) hsp]
      simp only [List.drop_zero]
      rw [if_neg (by omega), if_neg (by omega)]
      rfl
    have hstr : lexString (c :: rest) ⟨0, ⟨0, 0⟩⟩ = some ⟨none, ⟨0, ⟨0, 0⟩⟩, false⟩ := by
      unfold lexString lexCharacterDelimited
      simp only [List.drop_zero]
      rw [if_neg (by simp), if_pos (by omega)]
    have hnum : lexNumeric (c :: rest) ⟨0, ⟨0, 0⟩⟩ = some ⟨none, ⟨0, ⟨0, 0⟩⟩, false⟩ := by
      unfold lexNumeric
      simp only [List.drop_zero]
      unfold numericLoop
      have hnd : (!isDigitByte c && !decide (c = 46)) = true := by
        simp only [isDigitByte, Bool.and_eq_true, Bool.not_eq_true', decide_eq_false_iff_not,
          Bool.and_eq_false_iff, not_le]
        omega
      simp only [if_true, hnd]
    have hid : lexIdentifier (c :: rest) ⟨0, ⟨0, 0⟩⟩ =
        some ⟨some ⟨toLowerASCII (c :: rest), tokenKind.IDENTIFIER, ⟨0, 0⟩⟩,
          ⟨(c :: rest).length, ⟨0, (c :: rest).length⟩⟩, true⟩ := by
      unfold lexIdentifier lexCharacterDelimited
      simp only [List.drop_zero]
      rw [if_neg (by simp), if_pos (by omega)]
      simp only [Bool.false_eq_true, if_false, hc, Bool.not_true, identifierLoop_all rest _ _ hrest,
        List.singleton_append, List.length_cons]
      simp only [Nat.add_one_ne_zero, if_false, Option.some.injEq, LexOut.mk.injEq,
        cursor.mk.injEq, location.mk.injEq, and_true, true_and]
      omega
    unfold lex
    simp only [List.length_cons]
    unfold lexLoop
    simp only [Nat.zero_lt_succ, if_true, tryLexers, hkw, hsym, hstr, hnum, hid,
      Bool.false_eq_true, if_false, List.nil_append]
    rw [if_pos (by simp)]
    apply lexLoop_at_end
    simp


/-- C10 as stated fails: `selection` is a letter followed by letters and is
not a keyword, yet `lex` returns two tokens for it, the keyword `select` and
the identifier `ion`. -/
theorem lex_keyword_prefixed_word :
    isIdentifierWord (str "selection") = true ∧
    toLowerASCII (str "selection") ∉ keywords ∧
    lex (str "selection") =
      .ok (.ok [⟨str "select", tokenKind.KEYWORD, ⟨0, 0⟩⟩,
                ⟨str "ion", tokenKind.IDENTIFIER, ⟨0, 6⟩⟩]) := by
  decide!

/-! ### Select: empty tables and non-identifier items -/

/-- C19. For every select statement whose `from` names an existing table with
zero rows, whatever its items are, `Select` succeeds and returns an empty
header and no rows. -/
theorem Select_empty_table (mb : MemoryBackend) (slct : SelectStatement) (tbl : table)
    (ht : mb.tables slct.from.value = some tbl) (hrows : tbl.rows = []) :
    mb.Select slct = .ok (.ok ⟨[], []⟩) := by
  unfold MemoryBackend.Select
  rw [ht]
  simp only [hrows, selectRows]

/-- C19, at `SELECT 'hello' FROM t;`, `SELECT a FROM t;` and `SELECT b, 1 FROM t;`
on the empty table of `CREATE TABLE t (a int);`. -/
theorem Select_empty_table_witness :
    runResults (str "CREATE TABLE t (a int); SELECT 'hello' FROM t;") =
      some (.ok [.created none, .selected (.ok ⟨[], []⟩)]) ∧
    (stateAfter (str "CREATE TABLE t (a int);")).Select
      ⟨[⟨tok "hello" .STRING, literalKind⟩], tok "t" .IDENTIFIER⟩ = .ok (.ok ⟨[], []⟩) ∧
    (stateAfter (str "CREATE TABLE t (a int);")).Select
      ⟨[ident "a"], tok "t" .IDENTIFIER⟩ = .ok (.ok ⟨[], []⟩) ∧
    (stateAfter (str "CREATE TABLE t (a int);")).Select
      ⟨[ident "b", ⟨tok "1" .NUMERIC, literalKind⟩], tok "t" .IDENTIFIER⟩ =
        .ok (.ok ⟨[], []⟩) :=
  have ht : (stateAfter (str "CREATE TABLE t (a int);")).tables (str "t") =
      some ⟨[str "a"], [.IntType], []⟩ := by decide!
  have h := fun (items : List expression) =>
    Select_empty_table (stateAfter (str "CREATE TABLE t (a int);"))
      ⟨items, tok "t" .IDENTIFIER⟩ ⟨[str "a"], [.IntType], []⟩ ht rfl
  ⟨by decide!, h _, h _, h _⟩

/-- The item loop stops with `column does not exist` at the first literal item
that is not an identifier naming a column. -/
theorem selectItems_nonidentifier (t : table) (row : List MemoryCell) (b : Bool)
    (items : List expression) (columns : List ResultColumn) (result : List MemoryCell)
    (hlit : ∀ it ∈ items, it.kind = literalKind)
    (hbad : ∃ it ∈ items, it.literal.kind ≠ tokenKind.IDENTIFIER)
    (hrow : t.columns.length ≤ row.length)
    (htypes : t.columns.length ≤ t.columnTypes.length) :
    selectItems t row b items columns result = .ok (.error .ErrColumnDoesNotExist) := by
  induction items generalizing columns result with
  | nil => obtain ⟨it, hit, _⟩ := hbad; cases hit
  | cons it rest ih =>
    have hk := hlit it (List.mem_cons_self _ _)
    have hrest := fun x hx => hlit x (List.mem_cons_of_mem _ hx)
    unfold selectItems
    by_cases hid : it.literal.kind = tokenKind.IDENTIFIER
    · have hbad1 : ∃ x ∈ rest, x.literal.kind ≠ tokenKind.IDENTIFIER := by
        obtain ⟨x, hx, hxn⟩ := hbad
        rcases List.mem_cons.1 hx with rfl | hx
        · exact absurd hid hxn
        · exact ⟨x, hx, hxn⟩
      by_cases hmem : it.literal.value ∈ t.columns
      · have hi := findIdx_name_lt t.columns it.literal.value hmem
        obtain ⟨cell, hcell⟩ :
            ∃ cell, row[t.columns.findIdx (fun c => decide (c = it.literal.value))]? =
              some cell := ⟨_, List.getElem?_eq_getElem (by omega)⟩
        obtain ⟨ty, hty⟩ :
            ∃ ty, t.columnTypes[t.columns.findIdx
              (fun c => decide (c = it.literal.value))]? = some ty :=
          ⟨_, List.getElem?_eq_getElem (by omega)⟩
        simp only [hk, ne_eq, not_true_eq_false, if_false, hid, if_true, findColumn_eq, hmem,
          Nat.zero_add, hcell, hty]
        cases b with
        | false => simp only [Bool.false_eq_true, if_false]; exact ih _ _ hrest hbad1
        | true => simp only [if_true]; exact ih _ _ hrest hbad1
      · simp only [hk, ne_eq, not_true_eq_false, if_false, hid, if_true, findColumn_eq, hmem]
    · simp only [hk, ne_eq, not_true_eq_false, if_false, hid]

/-- Items whose expression kind is not literal leave no trace in the item loop. -/
theorem selectItems_skips_nonliteral (t : table) (row : List MemoryCell) (b : Bool)
    (items : List expression) (columns : List ResultColumn) (result : List MemoryCell) :
    selectItems t row b items columns result =
      selectItems t row b (items.filter (fun it => decide (it.kind = literalKind)))
        columns result := by
  induction items generalizing columns result with
  | nil => rfl
  | cons it rest ih =>
    by_cases hk : it.kind = literalKind
    · rw [List.filter_cons_of_pos (by simpa using hk)]
      unfold selectItems
      simp only [hk, ne_eq, not_true_eq_false, if_false]
      split
      · split
        · rfl
        · split
          · rfl
          · split
            · rfl
            · exact ih _ _
      · rfl
    · rw [List.filter_cons_of_neg (by simpa using hk)]
      conv_lhs => unfold selectItems
      simp only [ne_eq, hk, not_false_eq_true, if_true]
      exact ih _ _

theorem selectRows_skips_nonliteral (t : table) (items : List expression)
    (rows : List (List MemoryCell)) (i : Nat)
    (columns : List ResultColumn) (results : List (List MemoryCell)) :
    selectRows t items rows i columns results =
      selectRows t (items.filter (fun it => decide (it.kind = literalKind))) rows i
        columns results := by
  induction rows generalizing i columns results with
  | nil => simp [selectRows]
  | cons row rest ih =>
    unfold selectRows
    rw [selectItems_skips_nonliteral]
    simp only [ih]

/-- C16 (amended). What `Select` skips, producing no header column and no cell,
is an item whose expression kind is not literal.  An item that is a literal
but not an identifier (a string or numeric literal) is not skipped: on a table
with one or more rows, as many column types as column names and one cell per
column in every row, a select statement whose items are literals and include
such an item fails with `column does not exist`. -/
theorem Select_literal_item_rejected (mb : MemoryBackend) (slct : SelectStatement) :
    mb.Select slct =
      mb.Select ⟨slct.item.filter (fun it => decide (it.kind = literalKind)), slct.from⟩ ∧
    ∀ tbl, mb.tables slct.from.value = some tbl → tbl.rows ≠ [] →
      tbl.columnTypes.length = tbl.columns.length →
      (∀ row ∈ tbl.rows, row.length = tbl.columns.length) →
      (∀ it ∈ slct.item, it.kind = literalKind) →
      (∃ it ∈ slct.item, it.literal.kind ≠ tokenKind.IDENTIFIER) →
      mb.Select slct = .ok (.error .ErrColumnDoesNotExist) := by
  constructor
  · unfold MemoryBackend.Select
    cases mb.tables slct.from.value with
    | none => rfl
    | some tbl => exact selectRows_skips_nonliteral tbl slct.item tbl.rows 0 [] []
  · intro tbl ht hrows htypes hwidth hlit hbad
    obtain ⟨row, rest, hrr⟩ := List.exists_cons_of_ne_nil hrows
    unfold MemoryBackend.Select
    rw [ht]
    simp only [hrr]
    unfold selectRows
    rw [selectItems_nonidentifier tbl row _ slct.item [] [] hlit hbad
      (by rw [hwidth row (by rw [hrr]; exact List.mem_cons_self _ _)]) (by omega)]

/-- C16 (amended), after `CREATE TABLE t (a int); INSERT INTO t VALUES (7);`:
`SELECT 'hello', a FROM t` fails with `column does not exist`, and an item of a
non-literal kind is skipped. -/
theorem Select_literal_item_rejected_witness :
    (stateAfter (str "CREATE TABLE t (a int); INSERT INTO t VALUES (7);")).Select
      ⟨[⟨tok "hello" .STRING, literalKind⟩, ident "a"], tok "t" .IDENTIFIER⟩ =
        .ok (.error .ErrColumnDoesNotExist) ∧
    (stateAfter (str "CREATE TABLE t (a int); INSERT INTO t VALUES (7);")).Select
      ⟨[⟨tok "hello" .STRING, 1⟩, ident "a"], tok "t" .IDENTIFIER⟩ =
        .ok (.ok ⟨[⟨.IntType, str "a"⟩], [[[0, 0, 0, 0, 0, 0, 0, 7]]]⟩) :=
  ⟨(Select_literal_item_rejected
      (stateAfter (str "CREATE TABLE t (a int); INSERT INTO t VALUES (7);"))
      ⟨[⟨tok "hello" .STRING, literalKind⟩, ident "a"], tok "t" .IDENTIFIER⟩).2
      ⟨[str "a"], [.IntType], [[[0, 0, 0, 0, 0, 0, 0, 7]]]⟩
      (by decide!) (by decide) (by decide) (by decide) (by decide)
      ⟨⟨tok "hello" .STRING, literalKind⟩, by decide⟩,
   by decide!⟩

/-- C16 as stated fails at its own witness: after `CREATE TABLE t (a int);
INSERT INTO t VALUES (7);` the statement `SELECT 'hello', a FROM t;` does not
succeed with header `[(a,int)]` and row `[7]`; `Select` returns `column does
not exist`. -/
theorem Select_string_item_fails :
    runResults (str "CREATE TABLE t (a int); INSERT INTO t VALUES (7); SELECT 'hello', a FROM t;") =
      some (.ok [.created none, .inserted none,
        .selected (.error .ErrColumnDoesNotExist)]) := by
  decide!

/-! ### Evaluations of the lexer -/

/-- C17 (evaluation at the failing input): the source `"t"` (in double quotes)
lexes to one token whose value is `t` and whose kind is string, not
identifier; so `CREATE TABLE "t" (a int);` is not accepted by `parse`. -/
theorem lex_quoted_identifier_is_string :
    lex (34 :: str "t" ++ [34]) = .ok (.ok [⟨str "t", tokenKind.STRING, ⟨0, 0⟩⟩]) ∧
    parse (str "CREATE TABLE " ++ 34 :: str "t" ++ 34 :: str " (a int);") =
      .ok (.error .expectedStatement) := by
  decide!

/-- C12 (evaluation at the failing inputs): in `1;` the symbol `;` is the byte
at offset 1, on line 0 and in column 1, and its token carries column 2; in the
source `'a`, newline, `b' x` the identifier `x` is the byte at offset 6, on
line 1 and in column 3, and its token carries line 0 and column 6. -/
theorem lex_location_off :
    lex (str "1;") =
      .ok (.ok [⟨str "1", tokenKind.NUMERIC, ⟨0, 0⟩⟩, ⟨str ";", tokenKind.SYMBOL, ⟨0, 2⟩⟩]) ∧
    (str "1;")[1]? = some 59 ∧ lineAt (str "1;") 1 = 0 ∧ columnAt (str "1;") 1 = 1 ∧
    lex (str "'a" ++ 10 :: str "b' x") =
      .ok (.ok [⟨str "a" ++ 10 :: str "b", tokenKind.STRING, ⟨0, 0⟩⟩,
                ⟨str "x", tokenKind.IDENTIFIER, ⟨0, 6⟩⟩]) ∧
    (str "'a" ++ 10 :: str "b' x")[6]? = some 120 ∧
    lineAt (str "'a" ++ 10 :: str "b' x") 6 = 1 ∧
    columnAt (str "'a" ++ 10 :: str "b' x") 6 = 3 := by
  decide!

/-! ### Column types -/

theorem drop_eq_cons {α : Type} {l : List α} {c : Nat} {a : α} {rest : List α}
    (h : l.drop c = a :: rest) : l[c]? = some a ∧ l.drop (c + 1) = rest ∧ c < l.length := by
  have hc : c < l.length := by
    by_contra hn
    rw [List.drop_eq_nil_of_le (by omega)] at h
    cases h
  rw [List.drop_eq_getElem_cons hc] at h
  simp only [List.cons.injEq] at h
  exact ⟨by rw [List.getElem?_eq_getElem hc, h.1], h.2, hc⟩

/-- A token that `expectToken` takes for the symbol `;`. -/
theorem equals_semicolon (t : token) :
    (tokenFromSymbol (str ";")).equals t = true ↔
      t.kind = tokenKind.SYMBOL ∧ t.value = str ";" := by
  simp only [token.equals, tokenFromSymbol, Bool.and_eq_true, decide_eq_true_eq]
  constructor
  · rintro ⟨h1, h2⟩; exact ⟨h2.symm, h1.symm⟩
  · rintro ⟨h1, h2⟩; exact ⟨h2.symm, h1.symm⟩

theorem skipSemicolons_spec (tokens rest : List token) (c : Nat) (b : Bool)
    (h : tokens.drop c = rest) :
    c ≤ (skipSemicolons rest c b).1 ∧
    (c < (skipSemicolons rest c b).1 →
      (skipSemicolons rest c b).1 ≤ tokens.length ∧
      (∃ t, tokens[(skipSemicolons rest c b).1 - 1]? = some t ∧
        (tokenFromSymbol (str ";")).equals t = true) ∧
      (∃ t, tokens[c]? = some t ∧ (tokenFromSymbol (str ";")).equals t = true)) ∧
    ((skipSemicolons rest c b).2 = true → b = true ∨ c < (skipSemicolons rest c b).1) := by
  induction rest generalizing c b with
  | nil => simp [skipSemicolons]
  | cons current rest1 ih =>
    obtain ⟨hcur, hdrop, hlt⟩ := drop_eq_cons h
    unfold skipSemicolons
    by_cases heq : (tokenFromSymbol (str ";")).equals current = true
    · rw [if_pos heq]
      obtain ⟨h1, h2, _⟩ := ih (c + 1) true hdrop
      refine ⟨by omega, fun _ => ?_, fun _ => Or.inr (by omega)⟩
      by_cases hc1 : c + 1 < (skipSemicolons rest1 (c + 1) true).1
      · obtain ⟨h3, h4, _⟩ := h2 hc1
        exact ⟨h3, h4, current, hcur, heq⟩
      · have hc2 : (skipSemicolons rest1 (c + 1) true).1 = c + 1 := by omega
        rw [hc2]
        exact ⟨by omega, ⟨current, by simpa using hcur, heq⟩, current, hcur, heq⟩
    · rw [if_neg heq]
      simp

theorem parseLoop_exit (tokens : List token) (cursor : Nat) (stmts : List Statement)
    (hcur : (cursor = 0 ∧ stmts = []) ∨
      (1 ≤ cursor ∧ cursor ≤ tokens.length ∧
        ∃ t, tokens[cursor - 1]? = some t ∧ (tokenFromSymbol (str ";")).equals t = true))
    (hge : ¬ cursor < tokens.length) (hne : tokens ≠ []) :
    ∃ t, tokens.getLast? = some t ∧ (tokenFromSymbol (str ";")).equals t = true := by
  have hpos : 0 < tokens.length := List.length_pos.2 hne
  rcases hcur with ⟨h0, _⟩ | ⟨h1, h2, t, ht, hsemi⟩
  · omega
  · have hc : cursor = tokens.length := by omega
    rw [hc] at ht
    exact ⟨t, by rw [List.getLast?_eq_getElem?]; exact ht, hsemi⟩

theorem parseLoop_terminated (tokens : List token) (fuel cursor : Nat)
    (stmts : List Statement) (ast : Ast)
    (hcur : (cursor = 0 ∧ stmts = []) ∨
      (1 ≤ cursor ∧ cursor ≤ tokens.length ∧
        ∃ t, tokens[cursor - 1]? = some t ∧ (tokenFromSymbol (str ";")).equals t = true))
    (hst : ∀ s ∈ stmts, ∃ c c1,
      parseStatement tokens c (tokenFromSymbol (str ";")) = .ok (.matched s c1) ∧
      ∃ t, tokens[c1]? = some t ∧ (tokenFromSymbol (str ";")).equals t = true)
    (h : parseLoop tokens fuel cursor stmts = .ok (.ok ast)) :
    (tokens ≠ [] → ∃ t, tokens.getLast? = some t ∧
      (tokenFromSymbol (str ";")).equals t = true) ∧
    (∀ s ∈ ast.Statements, ∃ c c1,
      parseStatement tokens c (tokenFromSymbol (str ";")) = .ok (.matched s c1) ∧
      ∃ t, tokens[c1]? = some t ∧ (tokenFromSymbol (str ";")).equals t = true) := by
  induction fuel generalizing cursor stmts with
  | zero =>
    unfold parseLoop at h
    split at h
    · simp at h
    · rename_i hge
      simp only [Except.ok.injEq] at h
      subst h
      exact ⟨parseLoop_exit tokens cursor stmts hcur hge, hst⟩
  | succ n ih =>
    unfold parseLoop at h
    split at h
    · split at h
      · simp at h
      · split at h <;> simp at h
      · rename_i stmt newCursor hps
        dsimp only at h
        split at h
        · split at h <;> simp at h
        · rename_i hsk
          simp only [Bool.not_eq_true, Bool.not_eq_false] at hsk
          obtain ⟨h1, h2, h3⟩ := skipSemicolons_spec tokens _ newCursor false rfl
          have hlt : newCursor < (skipSemicolons (tokens.drop newCursor) newCursor false).1 := by
            rcases h3 (by simpa using hsk) with hf | hlt
            · cases hf
            · exact hlt
          obtain ⟨hle, hlast, hfirst⟩ := h2 hlt
          refine ih _ _ (Or.inr ⟨by omega, hle, hlast⟩) ?_ h
          intro s hs
          rcases List.mem_append.1 hs with hs | hs
          · exact hst s hs
          · rw [List.mem_singleton] at hs
            subst hs
            exact ⟨cursor, newCursor, hps, hfirst⟩
    · rename_i hge
      simp only [Except.ok.injEq] at h
      subst h
      exact ⟨parseLoop_exit tokens cursor stmts hcur hge, hst⟩

/-- C14. For a source whose token stream is non-empty, if `parse` succeeds the
last token of the stream is the symbol `;`, and every statement of the returned
AST is followed in the token stream by a `;` (the token at the cursor at which
the statement's parser stopped); for a source whose token stream is empty,
`parse` returns an AST with no statement and no error. -/
theorem parse_terminated (source : GoString) (tokens : List token)
    (hlex : lex source = .ok (.ok tokens)) :
    (∀ ast, parse source = .ok (.ok ast) →
      (tokens ≠ [] → ∃ t, tokens.getLast? = some t ∧
        t.kind = tokenKind.SYMBOL ∧ t.value = str ";") ∧
      (∀ s ∈ ast.Statements, ∃ c c1,
        parseStatement tokens c (tokenFromSymbol (str ";")) = .ok (.matched s c1) ∧
        ∃ t, tokens[c1]? = some t ∧ t.kind = tokenKind.SYMBOL ∧ t.value = str ";")) ∧
    (tokens = [] → parse source = .ok (.ok ⟨[]⟩)) := by
  constructor
  · intro ast hparse
    unfold parse at hparse
    rw [hlex] at hparse
    simp only at hparse
    have := parseLoop_terminated tokens tokens.length 0 [] ast (Or.inl ⟨rfl, rfl⟩)
      (by simp) hparse
    simpa only [equals_semicolon] using this
  · intro hnil
    unfold parse
    rw [hlex]
    subst hnil
    rfl

/-- C14, at `insert into t values (1);;` (accepted, ends in `;`), at the same
source without its semicolons (rejected: missing semicolon), and at a source of
blanks and a newline (no token, no statement, no error). -/
theorem parse_terminated_witness :
    (∀ ast, parse (str "insert into t values (1);;") = .ok (.ok ast) →
      (tokensOf (str "insert into t values (1);;") ≠ [] →
        ∃ t, (tokensOf (str "insert into t values (1);;")).getLast? = some t ∧
          t.kind = tokenKind.SYMBOL ∧ t.value = str ";") ∧
      (∀ s ∈ ast.Statements, ∃ c c1,
        parseStatement (tokensOf (str "insert into t values (1);;")) c
          (tokenFromSymbol (str ";")) = .ok (.matched s c1) ∧
        ∃ t, (tokensOf (str "insert into t values (1);;"))[c1]? = some t ∧
          t.kind = tokenKind.SYMBOL ∧ t.value = str ";")) ∧
    (∃ ast, parse (str "insert into t values (1);;") = .ok (.ok ast) ∧
      ast.Statements.length = 1) ∧
    parse (str "insert into t values (1)") = .ok (.error .missingSemicolon) ∧
    parse (str "   " ++ 10 :: str " ") = .ok (.ok ⟨[]⟩) ∧
    parse [] = .ok (.ok ⟨[]⟩) :=
  ⟨(parse_terminated (str "insert into t values (1);;")
      (tokensOf (str "insert into t values (1);;")) (by decide!)).1,
   ⟨astOf (str "insert into t values (1);;"), by decide!, by decide!⟩,
   by decide!,
   (parse_terminated (str "   " ++ 10 :: str " ") [] (by decide!)).2 rfl,
   (parse_terminated [] [] (by decide!)).2 rfl⟩

/-! ### Numeric literals -/

theorem signsAfterExponent_nil : signsAfterExponent [] := by
  intro pre s post h
  simp at h

theorem signsAfterExponent_cons (c : Nat) (w : GoString) (h43 : c ≠ 43) (h45 : c ≠ 45)
    (hw : signsAfterExponent w) : signsAfterExponent (c :: w) := by
  intro pre s post h hs
  cases pre with
  | nil =>
    simp only [List.nil_append, List.cons.injEq] at h
    omega
  | cons p pre1 =>
    simp only [List.cons_append, List.cons.injEq] at h
    obtain ⟨pre2, m, hp, hm⟩ := hw pre1 s post h.2 hs
    exact ⟨p :: pre2, m, by rw [hp]; rfl, hm⟩

theorem signsAfterExponent_exp_sign (c s : Nat) (w : GoString) (hc : c = 101 ∨ c = 69)
    (hw : signsAfterExponent w) : signsAfterExponent (c :: s :: w) := by
  intro pre s1 post h hs
  cases pre with
  | nil =>
    simp only [List.nil_append, List.cons.injEq] at h
    omega
  | cons p pre1 =>
    simp only [List.cons_append, List.cons.injEq] at h
    obtain ⟨rfl, h2⟩ := h
    cases pre1 with
    | nil => exact ⟨[], c, rfl, hc⟩
    | cons q pre2 =>
      simp only [List.cons_append, List.cons.injEq] at h2
      obtain ⟨pre3, m, hp, hm⟩ := hw pre2 s1 post h2.2 hs
      exact ⟨c :: q :: pre3, m, by rw [hp]; rfl, hm⟩

/-- What `numericLoop` consumes: `k` bytes of the remaining input, starting (in
the first turn) with a digit or `.`, with at most one `.` (none once a decimal
point or exponent was seen), at most one exponent marker (none once one was
seen), and signs only directly after the exponent marker. -/
theorem numericLoop_shape (ic : cursor) (rest : GoString) (cur : cursor) (d e : Bool)
    (cur1 : cursor) (hle : ic.pointer ≤ cur.pointer)
    (h : numericLoop ic rest cur d e = some cur1) :
    ∃ k, k ≤ rest.length ∧ cur1.pointer = cur.pointer + k ∧
      (cur.pointer = ic.pointer → k = 0 ∨
        ∃ c, rest.head? = some c ∧ (isDigitByte c = true ∨ c = 46)) ∧
      (rest.take k).count 46 ≤ 1 ∧
      (cur.pointer ≠ ic.pointer → d = true → (rest.take k).count 46 = 0) ∧
      (rest.take k).count 101 + (rest.take k).count 69 ≤ 1 ∧
      (e = true → (rest.take k).count 101 + (rest.take k).count 69 = 0) ∧
      signsAfterExponent (rest.take k) := by
  generalize hn : rest.length = n
  induction n using Nat.strong_induction_on generalizing rest cur d e with
  | _ n ih =>
    cases rest with
    | nil =>
      simp only [numericLoop, Option.some.injEq] at h
      subst h
      exact ⟨0, by simp, by simp, fun _ => Or.inl rfl, by simp, by simp, by simp, by simp,
        signsAfterExponent_nil⟩
    | cons c t =>
      simp only [List.length_cons] at hn
      subst hn
      unfold numericLoop at h
      dsimp only at h
      by_cases hfirst : cur.pointer = ic.pointer
      · rw [if_pos hfirst] at h
        by_cases hbad : (!isDigitByte c && !decide (c = 46)) = true
        · rw [if_pos hbad] at h; cases h
        · rw [if_neg hbad] at h
          have hc : isDigitByte c = true ∨ c = 46 := by
            simp only [Bool.and_eq_true, Bool.not_eq_true', decide_eq_false_iff_not, not_and,
              Bool.not_eq_false, not_not] at hbad
            by_cases hd : isDigitByte c = true
            · exact Or.inl hd
            · exact Or.inr (hbad (by simpa using hd))
          have hcne : c ≠ 43 ∧ c ≠ 45 ∧ c ≠ 101 ∧ c ≠ 69 := by
            rcases hc with hd | hd
            · simp only [isDigitByte, Bool.and_eq_true, decide_eq_true_eq] at hd; omega
            · omega
          obtain ⟨k, hk, hp, _, h46, h46d, hE, hEe, hs⟩ :=
            ih t.length (by omega) t ⟨cur.pointer + 1, ⟨cur.loc.line, cur.loc.column + 1⟩⟩
              (decide (c = 46)) e (by show ic.pointer ≤ cur.pointer + 1; omega) h rfl
          dsimp only at hp h46d
          refine ⟨k + 1, by omega, by omega,
            fun _ => Or.inr ⟨c, rfl, hc⟩, ?_, fun hne => absurd hfirst hne, ?_, ?_, ?_⟩
          · simp only [List.take_succ_cons, List.count_cons]
            by_cases h46c : c = 46
            · have := h46d (by omega) (by simpa using h46c)
              simp only [h46c, beq_self_eq_true, if_true]; omega
            · simp only [beq_iff_eq, h46c, if_false]; omega
          · simp only [List.take_succ_cons, List.count_cons, beq_iff_eq, hcne.2.2.1,
              hcne.2.2.2, if_false]
            omega
          · intro he
            have := hEe he
            simp only [List.take_succ_cons, List.count_cons, beq_iff_eq, hcne.2.2.1,
              hcne.2.2.2, if_false]
            omega
          · rw [List.take_succ_cons]
            exact signsAfterExponent_cons c _ hcne.1 hcne.2.1 hs
      · rw [if_neg hfirst] at h
        by_cases hdot : c = 46
        · simp only [hdot, decide_True, if_true] at h
          cases d with
          | true => simp at h
          | false =>
            simp only [Bool.false_eq_true, if_false] at h
            obtain ⟨k, hk, hp, _, h46, h46d, hE, hEe, hs⟩ :=
              ih t.length (by omega) t ⟨cur.pointer + 1, ⟨cur.loc.line, cur.loc.column + 1⟩⟩
                true e (by show ic.pointer ≤ cur.pointer + 1; omega) h rfl
            dsimp only at hp h46d
            have h0 := h46d (by omega) rfl
            refine ⟨k + 1, by omega, by omega,
              fun hf => absurd hf hfirst, ?_, fun _ hd => (by cases hd), ?_, ?_, ?_⟩
            · simp only [hdot, List.take_succ_cons, List.count_cons, beq_self_eq_true, if_true]
              omega
            · simp only [hdot, List.take_succ_cons, List.count_cons]
              simpa using hE
            · intro he
              have := hEe he
              simp only [hdot, List.take_succ_cons, List.count_cons]
              simpa using this
            · rw [List.take_succ_cons]
              exact signsAfterExponent_cons c _ (by omega) (by omega) hs
        · simp only [hdot, decide_False, Bool.false_eq_true, if_false] at h
          by_cases hexp : c = 101 ∨ c = 69
          · have hexpb : (decide (c = 101) || decide (c = 69)) = true := by simpa using hexp
            rw [if_pos hexpb] at h
            cases e with
            | true => simp at h
            | false =>
              simp only [Bool.false_eq_true, if_false] at h
              cases t with
              | nil => simp at h
              | cons cNext t1 =>
                simp only at h
                by_cases hsign : cNext = 45 ∨ cNext = 43
                · rw [if_pos hsign] at h
                  obtain ⟨k, hk, hp, _, h46, h46d, hE, hEe, hs⟩ :=
                    ih t1.length (by simp only [List.length_cons]; omega) t1
                      ⟨cur.pointer + 1 + 1, ⟨cur.loc.line, cur.loc.column + 1 + 1⟩⟩
                      true true (by show ic.pointer ≤ cur.pointer + 1 + 1; omega) h rfl
                  dsimp only at hp h46d
                  have h0 := h46d (by omega) rfl
                  have hE0 := hEe rfl
                  have hcE : (if c = 101 then 1 else 0) + (if c = 69 then 1 else 0) = 1 := by
                    rcases hexp with h1 | h1 <;> simp [h1]
                  refine ⟨k + 2, by simp only [List.length_cons]; omega, by omega,
                    fun hf => absurd hf hfirst, ?_, ?_, ?_, fun he => (by cases he), ?_⟩
                  · simp only [List.take_succ_cons, List.count_cons, beq_iff_eq]
                    rw [if_neg hdot, if_neg (by omega)]
                    omega
                  · intro _ _
                    simp only [List.take_succ_cons, List.count_cons, beq_iff_eq]
                    rw [if_neg hdot, if_neg (by omega)]
                    omega
                  · simp only [List.take_succ_cons, List.count_cons, beq_iff_eq]
                    rw [if_neg (show ¬ cNext = 101 by omega), if_neg (show ¬ cNext = 69 by omega)]
                    omega
                  · simp only [List.take_succ_cons]
                    exact signsAfterExponent_exp_sign c cNext _ hexp hs
                · rw [if_neg hsign] at h
                  obtain ⟨k, hk, hp, _, h46, h46d, hE, hEe, hs⟩ :=
                    ih (cNext :: t1).length (by simp only [List.length_cons]; omega)
                      (cNext :: t1)
                      ⟨cur.pointer + 1, ⟨cur.loc.line, cur.loc.column + 1⟩⟩
                      true true (by show ic.pointer ≤ cur.pointer + 1; omega) h rfl
                  dsimp only at hp h46d
                  have h0 := h46d (by omega) rfl
                  have hE0 := hEe rfl
                  have hcE : (if c = 101 then 1 else 0) + (if c = 69 then 1 else 0) = 1 := by
                    rcases hexp with h1 | h1 <;> simp [h1]
                  refine ⟨k + 1, by simp only [List.length_cons] at hk ⊢; omega, by omega,
                    fun hf => absurd hf hfirst, ?_, ?_, ?_, fun he => (by cases he), ?_⟩
                  · rw [List.take_succ_cons, List.count_cons]
                    simp only [beq_iff_eq]
                    rw [if_neg hdot]
                    omega
                  · intro _ _
                    rw [List.take_succ_cons, List.count_cons]
                    simp only [beq_iff_eq]
                    rw [if_neg hdot]
                    omega
                  · rw [List.take_succ_cons, List.count_cons, List.count_cons]
                    simp only [beq_iff_eq]
                    omega
                  · rw [List.take_succ_cons]
                    exact signsAfterExponent_cons c _ (by omega) (by omega) hs
          · have hexpb : ¬ (decide (c = 101) || decide (c = 69)) = true := by simpa using hexp
            rw [if_neg hexpb] at h
            by_cases hdig : isDigitByte c = true
            · simp only [hdig, Bool.not_true, Bool.false_eq_true, if_false] at h
              have hcne : c ≠ 43 ∧ c ≠ 45 := by
                simp only [isDigitByte, Bool.and_eq_true, decide_eq_true_eq] at hdig; omega
              obtain ⟨k, hk, hp, _, h46, h46d, hE, hEe, hs⟩ :=
                ih t.length (by omega) t ⟨cur.pointer + 1, ⟨cur.loc.line, cur.loc.column + 1⟩⟩
                  d e (by show ic.pointer ≤ cur.pointer + 1; omega) h rfl
              dsimp only at hp h46d
              have hnE : ¬ c = 101 ∧ ¬ c = 69 := by omega
              refine ⟨k + 1, by omega, by omega,
                fun hf => absurd hf hfirst, ?_, ?_, ?_, ?_, ?_⟩
              · rw [List.take_succ_cons, List.count_cons]
                simp only [beq_iff_eq]
                rw [if_neg hdot]
                omega
              · intro _ hd
                have := h46d (by omega) hd
                rw [List.take_succ_cons, List.count_cons]
                simp only [beq_iff_eq]
                rw [if_neg hdot]
                omega
              · rw [List.take_succ_cons, List.count_cons, List.count_cons]
                simp only [beq_iff_eq]
                rw [if_neg hnE.1, if_neg hnE.2]
                omega
              · intro he
                have := hEe he
                rw [List.take_succ_cons, List.count_cons, List.count_cons]
                simp only [beq_iff_eq]
                rw [if_neg hnE.1, if_neg hnE.2]
                omega
              · rw [List.take_succ_cons]
                exact signsAfterExponent_cons c _ hcne.1 hcne.2 hs
            · simp only [hdig, Bool.not_false, if_true, Option.some.injEq] at h
              subst h
              exact ⟨0, by simp, by simp, fun hf => absurd hf hfirst, by simp, by simp, by simp,
                by simp, signsAfterExponent_nil⟩

theorem lexNumeric_token (source : GoString) (ic : cursor) (r : LexOut) (t : token)
    (h : lexNumeric source ic = some r) (ht : r.tok = some t) :
    t.kind = tokenKind.NUMERIC ∧ numericShape t.value ∧
    t.value = (source.drop ic.pointer).take t.value.length ∧
    r.cur.pointer = ic.pointer + t.value.length := by
  unfold lexNumeric at h
  cases hloop : numericLoop ic (source.drop ic.pointer) ic false false with
  | none =>
    simp only [hloop, Option.some.injEq] at h
    subst h
    cases ht
  | some cur1 =>
    simp only [hloop] at h
    by_cases hp : cur1.pointer = ic.pointer
    · rw [if_pos hp] at h
      simp only [Option.some.injEq] at h
      subst h
      cases ht
    · rw [if_neg hp] at h
      simp only [Option.some.injEq] at h
      subst h
      simp only [Option.some.injEq] at ht
      subst ht
      obtain ⟨k, hk, hptr, hfirst, h46, _, hE, _, hs⟩ :=
        numericLoop_shape ic _ ic false false cur1 (Nat.le_refl _) hloop
      have hk0 : k ≠ 0 := by omega
      have hsub : cur1.pointer - ic.pointer = k := by omega
      have hlen : ((source.drop ic.pointer).take k).length = k := by
        rw [List.length_take]; omega
      simp only [hsub, hlen]
      refine ⟨trivial, ⟨?_, h46, hE, hs⟩, trivial, by omega⟩
      rcases hfirst rfl with h0 | ⟨c, hc, hcd⟩
      · exact absurd h0 hk0
      · cases hd : source.drop ic.pointer with
        | nil => rw [hd] at hc; cases hc
        | cons x rest =>
          rw [hd] at hc
          simp only [List.head?_cons, Option.some.injEq] at hc
          subst hc
          obtain ⟨k1, rfl⟩ : ∃ k1, k = k1 + 1 := ⟨k - 1, by omega⟩
          exact ⟨x, rest.take k1, by simp, hcd⟩

theorem lexKeyword_kind (source : GoString) (ic : cursor) (r : LexOut) (t : token)
    (h : lexKeyword source ic = some r) (ht : r.tok = some t) :
    t.kind = tokenKind.KEYWORD := by
  unfold lexKeyword at h
  repeat' split at h
  all_goals first
    | (simp at h; done)
    | (simp only [Option.some.injEq] at h
       subst h
       first
         | (cases ht; done)
         | (simp only [Option.some.injEq] at ht; subst ht; rfl))

theorem lexSymbol_kind (source : GoString) (ic : cursor) (r : LexOut) (t : token)
    (h : lexSymbol source ic = some r) (ht : r.tok = some t) :
    t.kind = tokenKind.SYMBOL := by
  unfold lexSymbol at h
  repeat' split at h
  all_goals first
    | (simp at h; done)
    | (simp only [Option.some.injEq] at h
       subst h
       first
         | (cases ht; done)
         | (simp only [Option.some.injEq] at ht; subst ht; rfl))

theorem delimitedLoop_kind (delimiter : Nat) (ic : cursor) (rest : GoString) (cur : cursor)
    (value : GoString) (t : token)
    (ht : (delimitedLoop delimiter ic rest cur value).tok = some t) :
    t.kind = tokenKind.STRING := by
  generalize hn : rest.length = n
  induction n using Nat.strong_induction_on generalizing rest cur value with
  | _ n ih =>
    cases rest with
    | nil => simp [delimitedLoop] at ht
    | cons c rest1 =>
      subst hn
      unfold delimitedLoop at ht
      split at ht
      · split at ht
        · simp only [Option.some.injEq] at ht; subst ht; rfl
        · split at ht
          · simp only [Option.some.injEq] at ht; subst ht; rfl
          · exact ih _ (by simp only [List.length_cons]; omega) _ _ _ ht rfl
      · exact ih _ (by simp only [List.length_cons]; omega) _ _ _ ht rfl

theorem lexCharacterDelimited_kind (source : GoString) (ic : cursor) (delimiter : Nat)
    (r : LexOut) (t : token)
    (h : lexCharacterDelimited source ic delimiter = some r) (ht : r.tok = some t) :
    t.kind = tokenKind.STRING := by
  unfold lexCharacterDelimited at h
  repeat' split at h
  all_goals first
    | (simp at h; done)
    | (simp only [Option.some.injEq] at h
       subst h
       first
         | cases ht
         | exact delimitedLoop_kind _ _ _ _ _ _ ht)

theorem lexIdentifier_kind (source : GoString) (ic : cursor) (r : LexOut) (t : token)
    (h : lexIdentifier source ic = some r) (ht : r.tok = some t) :
    t.kind = tokenKind.STRING ∨
      (t.kind = tokenKind.IDENTIFIER ∧ t.value ≠ []) := by
  unfold lexIdentifier at h
  split at h
  · simp at h
  · rename_i r0 hr0
    split at h
    · simp only [Option.some.injEq] at h
      subst h
      exact Or.inl (lexCharacterDelimited_kind _ _ _ _ _ hr0 ht)
    · split at h
      · simp at h
      · split at h
        · simp only [Option.some.injEq] at h
          subst h
          cases ht
        · dsimp only at h
          split at h
          · simp only [Option.some.injEq] at h
            subst h
            cases ht
          · rename_i hlen
            simp only [Option.some.injEq] at h
            subst h
            simp only [Option.some.injEq] at ht
            subst ht
            refine Or.inr ⟨rfl, ?_⟩
            intro hnil
            apply hlen
            simp only [toLowerASCII, List.map_eq_nil_iff] at hnil
            rw [hnil]
            rfl


/-- The five sub-lexers, in the order in which `lex` tries them. -/
theorem tryLexers_cases (source : GoString) (cur : cursor) (r : LexOut)
    (h : tryLexers source cur [lexKeyword, lexSymbol, lexString, lexNumeric, lexIdentifier] =
      some (some r)) :
    r.ok = true ∧
    (lexKeyword source cur = some r ∨ lexSymbol source cur = some r ∨
      lexString source cur = some r ∨ lexNumeric source cur = some r ∨
      lexIdentifier source cur = some r) := by
  simp only [tryLexers] at h
  repeat' split at h
  all_goals first
    | (simp at h; done)
    | (simp only [Option.some.injEq] at h
       subst h
       simp only [*, true_or, or_true, and_self])

/-- A property of every token a sub-lexer can emit holds for every token of
the result of `lex`. -/
theorem lexLoop_all (source : GoString) (Q : token → Prop)
    (hQ : ∀ cur r t,
      tryLexers source cur [lexKeyword, lexSymbol, lexString, lexNumeric, lexIdentifier] =
        some (some r) → r.tok = some t → Q t)
    (fuel : Nat) (cur : cursor) (tokens out : List token)
    (htok : ∀ t ∈ tokens, Q t)
    (h : lexLoop source fuel cur tokens = .ok (.ok out)) : ∀ t ∈ out, Q t := by
  induction fuel generalizing cur tokens with
  | zero =>
    unfold lexLoop at h
    split at h
    · simp at h
    · simp only [Except.ok.injEq] at h
      subst h
      exact htok
  | succ n ih =>
    unfold lexLoop at h
    split at h
    · split at h
      · simp at h
      · rename_i r hr
        refine ih _ _ ?_ h
        cases htk : r.tok with
        | none => simpa using htok
        | some t1 =>
          intro t ht
          simp only at ht
          rcases List.mem_append.1 ht with ht | ht
          · exact htok t ht
          · rw [List.mem_singleton] at ht
            subst ht
            exact hQ cur r t hr htk
      · simp at h
    · simp only [Except.ok.injEq] at h
      subst h
      exact htok

theorem emitted_numeric (source : GoString) (cur : cursor) (r : LexOut) (t : token)
    (h : tryLexers source cur [lexKeyword, lexSymbol, lexString, lexNumeric, lexIdentifier] =
      some (some r))
    (ht : r.tok = some t) (hk : t.kind = tokenKind.NUMERIC) :
    lexNumeric source cur = some r := by
  rcases (tryLexers_cases source cur r h).2 with h1 | h1 | h1 | h1 | h1
  · have := lexKeyword_kind _ _ _ _ h1 ht; rw [hk] at this; cases this
  · have := lexSymbol_kind _ _ _ _ h1 ht; rw [hk] at this; cases this
  · have := lexCharacterDelimited_kind _ _ _ _ _ h1 ht; rw [hk] at this; cases this
  · exact h1
  · rcases lexIdentifier_kind _ _ _ _ h1 ht with h2 | h2
    · rw [hk] at h2; cases h2
    · rw [hk] at h2; cases h2.1


/-! ### Longest match -/

/-- One pass of `longestMatch` over the options, in general: when every option
still alive is longer than `n`, the pass does not panic; the skip list grows by
indices of this pass only and stays free of repetitions; the match does not
shrink and changes only to an option equal to the accumulated value; and every
option alive before the pass either stays alive (it is longer than `n + 1` and
agrees with the value), or was matched, or disagrees with the value. -/
theorem matchOptions_step (value1 : GoString) (n : Nat)
    (rest : List GoString) (i : Nat) (sk : List Nat) (m : GoString)
    (hpre : ∀ k o, rest[k]? = some o → i + k ∉ sk → n < o.length) :
    ∃ sk1 m1, matchOptions value1 (n + 1) rest i sk m = some (sk1, m1) ∧
      (∀ j, j ∈ sk → j ∈ sk1) ∧
      (∀ j, j ∈ sk1 → j ∈ sk ∨ (i ≤ j ∧ j < i + rest.length)) ∧
      (sk.Nodup → sk1.Nodup) ∧
      m.length ≤ m1.length ∧
      (m1 = m ∨ (m1 ∈ rest ∧ m1 = value1)) ∧
      (∀ k o, rest[k]? = some o → i + k ∉ sk →
        (i + k ∉ sk1 ∧ n + 1 < o.length ∧ o.take (n + 1) = value1) ∨
        (i + k ∈ sk1 ∧ o = value1 ∧ o.length ≤ m1.length) ∨
        (i + k ∈ sk1 ∧ o.take (n + 1) ≠ value1)) := by
  induction rest generalizing i sk m with
  | nil =>
    exact ⟨sk, m, by simp [matchOptions], fun _ h => h, fun _ h => Or.inl h, fun h => h,
      Nat.le_refl _, Or.inl rfl, by simp⟩
  | cons o rest1 ih =>
    have hidx : ∀ k, i + 1 + k = i + (k + 1) := fun k => by omega
    unfold matchOptions
    by_cases hi : i ∈ sk
    · rw [if_pos hi]
      obtain ⟨sk1, m1, h1, h2, h3, h4, h5, h6, h7⟩ := ih (i + 1) sk m
        (fun k o1 hk hnot => hpre (k + 1) o1 (by simpa using hk) (by rw [← hidx]; exact hnot))
      refine ⟨sk1, m1, h1, h2, ?_, h4, h5, ?_, ?_⟩
      · intro j hj
        rcases h3 j hj with h | h
        · exact Or.inl h
        · exact Or.inr (by simp only [List.length_cons]; omega)
      · rcases h6 with h | h
        · exact Or.inl h
        · exact Or.inr ⟨List.mem_cons_of_mem _ h.1, h.2⟩
      · intro k o1 hk hnot
        cases k with
        | zero => exact absurd hi (by simpa using hnot)
        | succ k =>
          have := h7 k o1 (by simpa using hk) (by rw [hidx]; exact hnot)
          rw [hidx] at this
          exact this
    · rw [if_neg hi]
      have hlo : n < o.length := hpre 0 o (by simp) (by simpa using hi)
      by_cases hov : o = value1
      · rw [if_pos hov]
        obtain ⟨sk1, m1, h1, h2, h3, h4, h5, h6, h7⟩ := ih (i + 1) (sk ++ [i])
          (if o.length > m.length then o else m)
          (fun k o1 hk hnot => hpre (k + 1) o1 (by simpa using hk)
            (by
              rw [← hidx]
              intro hmem
              exact hnot (List.mem_append_left _ hmem)))
        have hmm : m.length ≤ (if o.length > m.length then o else m).length := by
          split <;> omega
        have hom : o.length ≤ (if o.length > m.length then o else m).length := by
          split <;> omega
        refine ⟨sk1, m1, h1, fun j hj => h2 j (List.mem_append_left _ hj), ?_, ?_,
          by omega, ?_, ?_⟩
        · intro j hj
          rcases h3 j hj with h | h
          · rcases List.mem_append.1 h with h | h
            · exact Or.inl h
            · rw [List.mem_singleton] at h
              exact Or.inr (by simp only [List.length_cons]; omega)
          · exact Or.inr (by simp only [List.length_cons]; omega)
        · intro hnd
          apply h4
          rw [List.nodup_append]
          exact ⟨hnd, List.nodup_singleton _, by
            intro a ha hb
            rw [List.mem_singleton] at hb
            exact hi (hb ▸ ha)⟩
        · rcases h6 with h | h
          · rw [h]
            split
            · exact Or.inr ⟨List.mem_cons_self _ _, hov⟩
            · exact Or.inl rfl
          · exact Or.inr ⟨List.mem_cons_of_mem _ h.1, h.2⟩
        · intro k o1 hk hnot
          cases k with
          | zero =>
            simp only [List.getElem?_cons_zero, Option.some.injEq] at hk
            subst hk
            exact Or.inr (Or.inl ⟨h2 _ (by simp), hov, by omega⟩)
          | succ k =>
            have := h7 k o1 (by simpa using hk) (by
              rw [hidx]
              intro hmem
              rcases List.mem_append.1 hmem with hmem | hmem
              · exact hnot hmem
              · rw [List.mem_singleton] at hmem; omega)
            rw [hidx] at this
            exact this
      · rw [if_neg hov, if_neg (by omega)]
        by_cases hskip :
            (decide (value1.length > o.length) || !decide (value1 = o.take (n + 1))) = true
        · simp only [hskip, if_true]
          obtain ⟨sk1, m1, h1, h2, h3, h4, h5, h6, h7⟩ := ih (i + 1) (sk ++ [i]) m
            (fun k o1 hk hnot => hpre (k + 1) o1 (by simpa using hk)
              (by
                rw [← hidx]
                intro hmem
                exact hnot (List.mem_append_left _ hmem)))
          refine ⟨sk1, m1, h1, fun j hj => h2 j (List.mem_append_left _ hj), ?_, ?_,
            h5, ?_, ?_⟩
          · intro j hj
            rcases h3 j hj with h | h
            · rcases List.mem_append.1 h with h | h
              · exact Or.inl h
              · rw [List.mem_singleton] at h
                exact Or.inr (by simp only [List.length_cons]; omega)
            · exact Or.inr (by simp only [List.length_cons]; omega)
          · intro hnd
            apply h4
            rw [List.nodup_append]
            exact ⟨hnd, List.nodup_singleton _, by
              intro a ha hb
              rw [List.mem_singleton] at hb
              exact hi (hb ▸ ha)⟩
          · rcases h6 with h | h
            · exact Or.inl h
            · exact Or.inr ⟨List.mem_cons_of_mem _ h.1, h.2⟩
          · intro k o1 hk hnot
            cases k with
            | zero =>
              simp only [List.getElem?_cons_zero, Option.some.injEq] at hk
              subst hk
              refine Or.inr (Or.inr ⟨h2 _ (by simp), ?_⟩)
              intro htake
              simp only [gt_iff_lt, Bool.or_eq_true, decide_eq_true_eq, Bool.not_eq_true',
                decide_eq_false_iff_not] at hskip
              rcases hskip with h | h
              · rw [← htake, List.length_take] at h
                omega
              · exact h htake.symm
            | succ k =>
              have := h7 k o1 (by simpa using hk) (by
                rw [hidx]
                intro hmem
                rcases List.mem_append.1 hmem with hmem | hmem
                · exact hnot hmem
                · rw [List.mem_singleton] at hmem; omega)
              rw [hidx] at this
              exact this
        · simp only [hskip, Bool.false_eq_true, if_false]
          obtain ⟨sk1, m1, h1, h2, h3, h4, h5, h6, h7⟩ := ih (i + 1) sk m
            (fun k o1 hk hnot => hpre (k + 1) o1 (by simpa using hk)
              (by rw [← hidx]; exact hnot))
          refine ⟨sk1, m1, h1, h2, ?_, h4, h5, ?_, ?_⟩
          · intro j hj
            rcases h3 j hj with h | h
            · exact Or.inl h
            · exact Or.inr (by simp only [List.length_cons]; omega)
          · rcases h6 with h | h
            · exact Or.inl h
            · exact Or.inr ⟨List.mem_cons_of_mem _ h.1, h.2⟩
          · intro k o1 hk hnot
            cases k with
            | zero =>
              simp only [List.getElem?_cons_zero, Option.some.injEq] at hk
              subst hk
              simp only [gt_iff_lt, Bool.or_eq_true, decide_eq_true_eq, Bool.not_eq_true',
                decide_eq_false_iff_not, not_or, not_lt, not_not] at hskip
              have hnot1 : i + 0 ∉ sk1 := by
                intro hmem
                rcases h3 _ hmem with h | h
                · exact hi (by simpa using h)
                · omega
              refine Or.inl ⟨hnot1, ?_, hskip.2.symm⟩
              by_contra hcon
              apply hov
              rw [hskip.2, List.take_of_length_le (by omega)]
            | succ k =>
              have := h7 k o1 (by simpa using hk) (by rw [hidx]; exact hnot)
              rw [hidx] at this
              exact this

theorem nodup_full (sk : List Nat) (N : Nat) (hnd : sk.Nodup)
    (hlt : ∀ j ∈ sk, j < N) (hlen : sk.length = N) (j : Nat) (hj : j < N) : j ∈ sk := by
  have hsub : sk.toFinset ⊆ Finset.range N := by
    intro x hx
    rw [List.mem_toFinset] at hx
    exact Finset.mem_range.2 (hlt x hx)
  have hcard : (Finset.range N).card ≤ sk.toFinset.card := by
    rw [List.toFinset_card_of_nodup hnd, Finset.card_range, hlen]
  have heq := Finset.eq_of_subset_of_card_le hsub hcard
  have : j ∈ sk.toFinset := by rw [heq]; exact Finset.mem_range.2 hj
  exact List.mem_toFinset.1 this

theorem isPrefix_take_succ (o value tail : GoString) (x n : Nat)
    (hlt : n < o.length) (htake : o.take n = value) (hp : o <+: value ++ x :: tail) :
    o.take (n + 1) = value ++ [x] := by
  have hvl : value.length = n := by
    rw [← htake, List.length_take]; omega
  obtain ⟨t, ht⟩ := hp
  have h1 : o.take (n + 1) = (o ++ t).take (n + 1) :=
    (List.take_append_of_le_length (by omega)).symm
  rw [h1, ht, List.take_append_eq_append_take, List.take_of_length_le (by omega), hvl]
  simp

theorem isPrefix_of_not_mem (o v t : GoString) (b : Nat)
    (hp : o <+: v ++ b :: t) (hb : b ∉ o) : o <+: v := by
  by_cases hl : o.length ≤ v.length
  · exact List.prefix_of_prefix_length_le hp (List.prefix_append _ _) hl
  · exfalso
    have hvb : v ++ [b] <+: v ++ b :: t := ⟨t, by simp⟩
    have : v ++ [b] <+: o :=
      List.prefix_of_prefix_length_le hvb hp (by
        simp only [List.length_append, List.length_singleton]
        omega)
    exact hb (this.subset (by simp))

theorem lowerByte_lt (c : Nat) (h : lowerByte c < 128) : c < 128 := by
  unfold lowerByte at h
  split at h <;> omega

/-- The outer loop of `longestMatch`, in general: while every option still alive
is longer than the number of bytes consumed and agrees with the accumulated
value, the loop does not panic; its result is the incoming match or an option
that is a prefix of the lower-cased input, and no alive option that is such a
prefix is longer than the result. -/
theorem longestMatchLoop_spec (options : List GoString)
    (hascii : ∀ o ∈ options, ∀ b ∈ o, b < 128) (rest : GoString) :
    ∀ (n : Nat) (value : GoString) (sk : List Nat) (m : GoString),
      (∀ j o, options[j]? = some o → j ∉ sk → n < o.length ∧ o.take n = value) →
      sk.Nodup → (∀ j ∈ sk, j < options.length) →
      ∃ m1, longestMatchLoop options rest n value sk m = some m1 ∧
        m.length ≤ m1.length ∧
        (m1 = m ∨ (m1 ∈ options ∧ m1 <+: value ++ rest.map lowerByte)) ∧
        (∀ j o, options[j]? = some o → j ∉ sk →
          o <+: value ++ rest.map lowerByte → o.length ≤ m1.length) := by
  induction rest with
  | nil =>
    intro n value sk m H1 _ _
    refine ⟨m, by simp [longestMatchLoop], Nat.le_refl _, Or.inl rfl, ?_⟩
    intro j o hj hnot hp
    obtain ⟨hlt, htake⟩ := H1 j o hj hnot
    have hle := hp.length_le
    have hvl : value.length = n := by rw [← htake, List.length_take]; omega
    simp only [List.map_nil, List.append_nil] at hle
    omega
  | cons c rest1 ih =>
    intro n value sk m H1 hnd hbound
    obtain ⟨sk1, m1, h1, h2, h3, h4, h5, h6, h7⟩ :=
      matchOptions_step (value ++ lowerRune c) n options 0 sk m
        (fun k o hk hnot => (H1 k o hk (by simpa using hnot)).1)
    have hmemOf : ∀ j o, options[j]? = some o → o ∈ options := fun j o hj =>
      (List.getElem?_eq_some.1 hj).2 ▸ List.getElem_mem _
    -- a prefix of the value after this byte is a prefix of the lower-cased input
    have hA : ∀ o ∈ options, o <+: (value ++ lowerRune c) ++ rest1.map lowerByte →
        o <+: value ++ (c :: rest1).map lowerByte := by
      intro o ho hp
      by_cases hc : c < 128
      · simpa [lowerRune, hc] using hp
      · have hp1 : o <+: value ++
            (192 + (if 192 ≤ c ∧ c ≤ 222 ∧ c ≠ 215 then c + 32 else c) / 64) ::
              ((128 + (if 192 ≤ c ∧ c ≤ 222 ∧ c ≠ 215 then c + 32 else c) % 64) ::
                rest1.map lowerByte) := by
          simpa [lowerRune, hc] using hp
        have hnm : (192 + (if 192 ≤ c ∧ c ≤ 222 ∧ c ≠ 215 then c + 32 else c) / 64) ∉ o := by
          intro hmem
          have := hascii o ho _ hmem
          omega
        exact (isPrefix_of_not_mem o value _ _ hp1 hnm).trans (List.prefix_append _ _)
    -- an alive option that is a prefix of the lower-cased input agrees with the value
    have hB : ∀ j o, options[j]? = some o → j ∉ sk →
        o <+: value ++ (c :: rest1).map lowerByte →
        o.take (n + 1) = value ++ lowerRune c ∧
          o <+: (value ++ lowerRune c) ++ rest1.map lowerByte := by
      intro j o hj hnot hp
      obtain ⟨hlt, htake⟩ := H1 j o hj hnot
      have ht1 := isPrefix_take_succ o value (rest1.map lowerByte) (lowerByte c) n hlt htake
        (by simpa using hp)
      have hmem : lowerByte c ∈ o :=
        List.mem_of_mem_take (l := o) (n := n + 1) (by rw [ht1]; simp)
      have hc : c < 128 := lowerByte_lt c (hascii o (hmemOf j o hj) _ hmem)
      refine ⟨by simpa [lowerRune, hc] using ht1, by simpa [lowerRune, hc] using hp⟩
    have hsk1 : ∀ j ∈ sk1, j < options.length := by
      intro j hj
      rcases h3 j hj with h | h
      · exact hbound j h
      · omega
    have hm1 : m1 = m ∨ (m1 ∈ options ∧ m1 <+: value ++ (c :: rest1).map lowerByte) := by
      rcases h6 with h | ⟨hmem, hv⟩
      · exact Or.inl h
      · exact Or.inr ⟨hmem, hA m1 hmem (by rw [hv]; exact List.prefix_append _ _)⟩
    simp only [longestMatchLoop, h1]
    by_cases hlen : sk1.length = options.length
    · rw [if_pos hlen]
      refine ⟨m1, rfl, h5, hm1, ?_⟩
      intro j o hj hnot hp
      obtain ⟨hb1, _⟩ := hB j o hj hnot hp
      have hjlt : j < options.length := by
        rcases Nat.lt_or_ge j options.length with h | h
        · exact h
        · rw [List.getElem?_eq_none h] at hj; cases hj
      have hin : j ∈ sk1 := nodup_full sk1 options.length (h4 hnd) hsk1 hlen j hjlt
      rcases h7 j o hj (by simpa using hnot) with h | h | h
      · exact absurd hin (by simpa using h.1)
      · exact h.2.2
      · exact absurd hb1 h.2
    · rw [if_neg hlen]
      obtain ⟨m2, g1, g2, g3, g4⟩ := ih (n + 1) (value ++ lowerRune c) sk1 m1
        (by
          intro j o hj hnot
          have hnot0 : j ∉ sk := fun h => hnot (h2 j h)
          rcases h7 j o hj (by simpa using hnot0) with h | h | h
          · exact ⟨h.2.1, h.2.2⟩
          · exact absurd (by simpa using h.1) hnot
          · exact absurd (by simpa using h.1) hnot)
        (h4 hnd) hsk1
      refine ⟨m2, g1, by omega, ?_, ?_⟩
      · rcases g3 with h | ⟨hmem, hp⟩
        · rw [h]; exact hm1
        · exact Or.inr ⟨hmem, hA m2 hmem hp⟩
      · intro j o hj hnot hp
        obtain ⟨hb1, hb2⟩ := hB j o hj hnot hp
        rcases h7 j o hj (by simpa using hnot) with h | h | h
        · exact g4 j o hj (by simpa using h.1) hb2
        · exact Nat.le_trans h.2.2 g2
        · exact absurd hb1 h.2

theorem map_lowerByte_of_lowercase (o : GoString) (h : lowercaseASCII o) :
    o.map lowerByte = o := by
  have : ∀ b ∈ o, lowerByte b = b := by
    intro b hb
    have := (h.2 b hb).2
    unfold lowerByte
    rw [if_neg this]
  calc o.map lowerByte = o.map id := List.map_congr_left this
    _ = o := List.map_id o

theorem prefixIgnoringCase_iff (o remaining : GoString) (h : lowercaseASCII o) :
    prefixIgnoringCase o remaining ↔ o <+: remaining.map lowerByte := by
  unfold prefixIgnoringCase
  rw [map_lowerByte_of_lowercase o h]
  constructor
  · rintro ⟨p, hp, hm⟩
    rw [← hm]
    exact hp.map lowerByte
  · intro hp
    refine ⟨remaining.take o.length, List.take_prefix _ _, ?_⟩
    rw [List.map_take]
    exact (List.prefix_iff_eq_take.1 hp).symm

/-- The result of `longestMatch` on candidates as the lexers pass them, stated
on the lower-cased remaining input. -/
theorem longestMatch_spec (source : GoString) (ic : cursor) (options : List GoString)
    (hopt : ∀ o ∈ options, lowercaseASCII o) :
    ∃ m, longestMatch source ic options = some m ∧
      (m = [] ∨ (m ∈ options ∧ m <+: (source.drop ic.pointer).map lowerByte)) ∧
      ∀ o ∈ options, o <+: (source.drop ic.pointer).map lowerByte → o.length ≤ m.length := by
  obtain ⟨m, h1, _, h3, h4⟩ := longestMatchLoop_spec options
    (fun o ho b hb => ((hopt o ho).2 b hb).1) (source.drop ic.pointer) 0 [] [] []
    (fun j o hj _ => by
      have hmem : o ∈ options := (List.getElem?_eq_some.1 hj).2 ▸ List.getElem_mem _
      exact ⟨List.length_pos.2 (hopt o hmem).1, by simp⟩)
    List.nodup_nil (by simp)
  refine ⟨m, h1, by simpa using h3, ?_⟩
  intro o ho hp
  obtain ⟨j, hj, hjo⟩ := List.getElem_of_mem ho
  exact h4 j o (by rw [List.getElem?_eq_getElem hj, hjo]) (by simp) (by simpa using hp)

/-- **C11.** For every source, every cursor and every list of non-empty
lower-case ASCII candidates, `longestMatch` returns normally; when no
candidate equals, compared case-insensitively, a prefix of the input remaining
at the cursor, the result is the empty string, and otherwise it is a candidate
that is such a prefix and no candidate that is such a prefix is longer.  The
keyword set and the symbol set are such candidate lists.  Consequently `into`
lexes to the one keyword token `into`, and `SELECT`, `Select` and `select` all
lex to the same keyword token `select`. -/
theorem longestMatch_longest :
    (∀ (source : GoString) (ic : cursor) (options : List GoString),
      (∀ o ∈ options, lowercaseASCII o) →
      ∃ m, longestMatch source ic options = some m ∧
        ((∀ o ∈ options, ¬ prefixIgnoringCase o (source.drop ic.pointer)) → m = []) ∧
        ((∃ o ∈ options, prefixIgnoringCase o (source.drop ic.pointer)) →
          m ∈ options ∧ prefixIgnoringCase m (source.drop ic.pointer) ∧
          ∀ o ∈ options, prefixIgnoringCase o (source.drop ic.pointer) →
            o.length ≤ m.length)) ∧
    (∀ o ∈ keywords, lowercaseASCII o) ∧
    (∀ o ∈ symbols, lowercaseASCII o) ∧
    longestMatch (str "into") ⟨0, ⟨0, 0⟩⟩ keywords = some (str "into") ∧
    lex (str "into") = .ok (.ok [⟨str "into", tokenKind.KEYWORD, ⟨0, 0⟩⟩]) ∧
    lex (str "SELECT") = .ok (.ok [⟨str "select", tokenKind.KEYWORD, ⟨0, 0⟩⟩]) ∧
    lex (str "Select") = .ok (.ok [⟨str "select", tokenKind.KEYWORD, ⟨0, 0⟩⟩]) ∧
    lex (str "select") = .ok (.ok [⟨str "select", tokenKind.KEYWORD, ⟨0, 0⟩⟩]) := by
  refine ⟨?_, ?_, ?_, by decide!, by decide!, by decide!, by decide!, by decide!⟩
  · intro source ic options hopt
    obtain ⟨m, h1, h2, h3⟩ := longestMatch_spec source ic options hopt
    refine ⟨m, h1, ?_, ?_⟩
    · intro hno
      rcases h2 with h | ⟨hmem, hp⟩
      · exact h
      · exact absurd ((prefixIgnoringCase_iff m _ (hopt m hmem)).2 hp) (hno m hmem)
    · rintro ⟨o, ho, hpo⟩
      have hpo1 := (prefixIgnoringCase_iff o _ (hopt o ho)).1 hpo
      have hlen := h3 o ho hpo1
      have hpos : 0 < o.length := List.length_pos.2 (hopt o ho).1
      rcases h2 with h | ⟨hmem, hp⟩
      · rw [h] at hlen
        simp only [List.length_nil] at hlen
        omega
      · exact ⟨hmem, (prefixIgnoringCase_iff m _ (hopt m hmem)).2 hp,
          fun o1 ho1 hp1 => h3 o1 ho1 ((prefixIgnoringCase_iff o1 _ (hopt o1 ho1)).1 hp1)⟩
  · intro o ho
    simp only [keywords, List.mem_cons, List.mem_singleton, List.not_mem_nil, or_false] at ho
    rcases ho with h | h | h | h | h | h | h | h | h | h | h <;> subst h <;>
      exact ⟨by decide, by decide⟩
  · intro o ho
    simp only [symbols, List.mem_cons, List.mem_singleton, List.not_mem_nil, or_false] at ho
    rcases ho with h | h | h | h | h <;> subst h <;> exact ⟨by decide, by decide⟩

/-- The general part of `longestMatch_longest` at the source `INTO x`, cursor 0
and the keyword set: the result is `into`, a keyword that equals the prefix
`INTO` case-insensitively, and it is at least as long as `int`. -/
theorem longestMatch_longest_witness :
    (∀ o ∈ keywords, lowercaseASCII o) ∧
    prefixIgnoringCase (str "int") ((str "INTO x").drop 0) ∧
    longestMatch (str "INTO x") ⟨0, ⟨0, 0⟩⟩ keywords = some (str "into") ∧
    ∃ m, longestMatch (str "INTO x") ⟨0, ⟨0, 0⟩⟩ keywords = some m ∧
      ((∀ o ∈ keywords, ¬ prefixIgnoringCase o ((str "INTO x").drop 0)) → m = []) ∧
      ((∃ o ∈ keywords, prefixIgnoringCase o ((str "INTO x").drop 0)) →
        m ∈ keywords ∧ prefixIgnoringCase m ((str "INTO x").drop 0) ∧
        ∀ o ∈ keywords, prefixIgnoringCase o ((str "INTO x").drop 0) →
          o.length ≤ m.length) :=
  ⟨longestMatch_longest.2.1, ⟨str "INT", by decide, by decide⟩, by decide!,
    longestMatch_longest.1 (str "INTO x") ⟨0, ⟨0, 0⟩⟩ keywords longestMatch_longest.2.1⟩

/-! ### No out-of-range access in the lexer -/

theorem keywords_lowercaseASCII : ∀ o ∈ keywords, lowercaseASCII o := by
  intro o ho
  simp only [keywords, List.mem_cons, List.mem_singleton, List.not_mem_nil, or_false] at ho
  rcases ho with h | h | h | h | h | h | h | h | h | h | h <;> subst h <;>
    exact ⟨by decide, by decide⟩

theorem symbols_lowercaseASCII : ∀ o ∈ symbols, lowercaseASCII o := by
  intro o ho
  simp only [symbols, List.mem_cons, List.mem_singleton, List.not_mem_nil, or_false] at ho
  rcases ho with h | h | h | h | h <;> subst h <;> exact ⟨by decide, by decide⟩

/-- The outer loop of `longestMatch` does not panic while every option still
alive is longer than the number of bytes consumed: the slice `option[:n]` is
taken only of options of length at least `n`. -/
theorem longestMatchLoop_returns (options : List GoString) (rest : GoString) :
    ∀ (n : Nat) (value : GoString) (sk : List Nat) (m : GoString),
      (∀ j o, options[j]? = some o → j ∉ sk → n < o.length) →
      ∃ m1, longestMatchLoop options rest n value sk m = some m1 := by
  induction rest with
  | nil => intro n value sk m _; exact ⟨m, by simp [longestMatchLoop]⟩
  | cons c rest1 ih =>
    intro n value sk m H1
    obtain ⟨sk1, m1, h1, h2, _, _, _, _, h7⟩ :=
      matchOptions_step (value ++ lowerRune c) n options 0 sk m
        (fun k o hk hnot => H1 k o hk (by simpa using hnot))
    simp only [longestMatchLoop, h1]
    split
    · exact ⟨m1, rfl⟩
    · apply ih
      intro j o hj hnot
      have hnot0 : j ∉ sk := fun h => hnot (h2 j h)
      rcases h7 j o hj (by simpa using hnot0) with h | h | h
      · exact h.2.1
      · exact absurd (by simpa using h.1) hnot
      · exact absurd (by simpa using h.1) hnot

theorem longestMatch_returns (source : GoString) (ic : cursor) (options : List GoString)
    (h : ∀ o ∈ options, o ≠ []) : ∃ m, longestMatch source ic options = some m :=
  longestMatchLoop_returns options (source.drop ic.pointer) 0 [] [] []
    (fun _ o hj _ =>
      List.length_pos.2 (h o ((List.getElem?_eq_some.1 hj).2 ▸ List.getElem_mem _)))

/-- A non-empty match of `longestMatch` fits into the input that remains. -/
theorem longestMatch_length (source : GoString) (ic : cursor) (options : List GoString)
    (hopt : ∀ o ∈ options, lowercaseASCII o) (m : GoString)
    (h : longestMatch source ic options = some m) (hm : m ≠ []) :
    ic.pointer + m.length ≤ source.length := by
  obtain ⟨m1, h1, h2, _⟩ := longestMatch_spec source ic options hopt
  rw [h] at h1
  simp only [Option.some.injEq] at h1
  subst h1
  rcases h2 with h2 | ⟨_, hp⟩
  · exact absurd h2 hm
  · have hle := hp.length_le
    have hpos : 0 < m.length := List.length_pos.2 hm
    simp only [List.length_map, List.length_drop] at hle
    omega

theorem lexKeyword_progress (source : GoString) (ic : cursor) (r : LexOut)
    (h : lexKeyword source ic = some r) (hok : r.ok = true) :
    ic.pointer < r.cur.pointer ∧ r.cur.pointer ≤ source.length := by
  unfold lexKeyword at h
  split at h
  · simp at h
  · rename_i m hm
    split at h
    · simp only [Option.some.injEq] at h
      subst h
      simp at hok
    · rename_i hne
      simp only [Option.some.injEq] at h
      subst h
      have := longestMatch_length source ic keywords keywords_lowercaseASCII m hm hne
      have hpos : 0 < m.length := List.length_pos.2 hne
      exact ⟨by show ic.pointer < ic.pointer + m.length; omega, this⟩

theorem lexSymbol_progress (source : GoString) (ic : cursor) (r : LexOut)
    (h : lexSymbol source ic = some r) (hok : r.ok = true) :
    ic.pointer < r.cur.pointer ∧ r.cur.pointer ≤ source.length := by
  unfold lexSymbol at h
  split at h
  · simp at h
  · rename_i c rest hdrop
    have hlt := (drop_eq_cons hdrop).2.2
    split at h
    · simp only [Option.some.injEq] at h
      subst h
      exact ⟨by show ic.pointer < ic.pointer + 1; omega, hlt⟩
    · split at h
      · simp only [Option.some.injEq] at h
        subst h
        exact ⟨by show ic.pointer < ic.pointer + 1; omega, hlt⟩
      · split at h
        · simp at h
        · rename_i m hm
          split at h
          · simp only [Option.some.injEq] at h
            subst h
            simp at hok
          · rename_i hne
            simp only [Option.some.injEq] at h
            subst h
            have := longestMatch_length source ic symbols symbols_lowercaseASCII m hm hne
            have hpos : 0 < m.length := List.length_pos.2 hne
            exact ⟨by show ic.pointer < ic.pointer + m.length; omega, this⟩

theorem delimitedLoop_progress (delimiter : Nat) (ic : cursor) (rest : GoString)
    (cur : cursor) (value : GoString)
    (hok : (delimitedLoop delimiter ic rest cur value).ok = true) :
    cur.pointer < (delimitedLoop delimiter ic rest cur value).cur.pointer ∧
    (delimitedLoop delimiter ic rest cur value).cur.pointer ≤ cur.pointer + rest.length := by
  generalize hn : rest.length = n
  induction n using Nat.strong_induction_on generalizing rest cur value with
  | _ n ih =>
    cases rest with
    | nil => simp [delimitedLoop] at hok
    | cons c rest1 =>
      subst hn
      unfold delimitedLoop at hok ⊢
      split
      · rename_i hc
        rw [if_pos hc] at hok
        split
        · simp only [List.length_cons]
          omega
        · rename_i next rest2
          dsimp only at hok ⊢
          split
          · simp only [List.length_cons]
            omega
          · rename_i hnext
            rw [if_neg hnext] at hok
            have := ih rest2.length (by simp only [List.length_cons]; omega) rest2 _ _ hok rfl
            dsimp only at this
            simp only [List.length_cons]
            omega
      · rename_i hc
        rw [if_neg hc] at hok
        have := ih rest1.length (by simp only [List.length_cons]; omega) rest1 _ _ hok rfl
        dsimp only at this
        simp only [List.length_cons]
        omega

theorem lexCharacterDelimited_progress (source : GoString) (ic : cursor) (delimiter : Nat)
    (r : LexOut) (h : lexCharacterDelimited source ic delimiter = some r)
    (hok : r.ok = true) :
    ic.pointer < r.cur.pointer ∧ r.cur.pointer ≤ source.length := by
  unfold lexCharacterDelimited at h
  split at h
  · simp at h
  · split at h
    · simp only [Option.some.injEq] at h
      subst h
      simp at hok
    · rename_i c rest hdrop
      have hlen : source.length = ic.pointer + (rest.length + 1) := by
        have := congrArg List.length hdrop
        simp only [List.length_drop, List.length_cons] at this
        omega
      split at h
      · simp only [Option.some.injEq] at h
        subst h
        simp at hok
      · simp only [Option.some.injEq] at h
        subst h
        have := delimitedLoop_progress _ _ _ _ _ hok
        dsimp only at this
        omega

theorem identifierLoop_pointer (rest : GoString) (cur : cursor) (value : GoString) :
    cur.pointer ≤ (identifierLoop rest cur value).1.pointer ∧
    (identifierLoop rest cur value).1.pointer ≤ cur.pointer + rest.length := by
  induction rest generalizing cur value with
  | nil => simp [identifierLoop]
  | cons c rest1 ih =>
    unfold identifierLoop
    split
    · have := ih ⟨cur.pointer + 1, ⟨cur.loc.line, cur.loc.column + 1⟩⟩ (value ++ [c])
      dsimp only at this
      simp only [List.length_cons]
      omega
    · simp

theorem lexIdentifier_progress (source : GoString) (ic : cursor) (r : LexOut)
    (h : lexIdentifier source ic = some r) (hok : r.ok = true) :
    ic.pointer < r.cur.pointer ∧ r.cur.pointer ≤ source.length := by
  unfold lexIdentifier at h
  split at h
  · simp at h
  · rename_i r0 hr0
    split at h
    · simp only [Option.some.injEq] at h
      subst h
      exact lexCharacterDelimited_progress _ _ _ _ hr0 hok
    · split at h
      · simp at h
      · rename_i c rest hdrop
        have hlen : source.length = ic.pointer + (rest.length + 1) := by
          have := congrArg List.length hdrop
          simp only [List.length_drop, List.length_cons] at this
          omega
        split at h
        · simp only [Option.some.injEq] at h
          subst h
          simp at hok
        · dsimp only at h
          split at h
          · simp only [Option.some.injEq] at h
            subst h
            simp at hok
          · simp only [Option.some.injEq] at h
            subst h
            have := identifierLoop_pointer rest
              ⟨ic.pointer + 1, ⟨ic.loc.line, ic.loc.column + 1⟩⟩ [c]
            dsimp only at this ⊢
            omega

theorem lexNumeric_progress (source : GoString) (ic : cursor) (r : LexOut)
    (h : lexNumeric source ic = some r) (hok : r.ok = true) :
    ic.pointer < r.cur.pointer ∧ r.cur.pointer ≤ source.length := by
  unfold lexNumeric at h
  split at h
  · simp only [Option.some.injEq] at h
    subst h
    simp at hok
  · rename_i cur hcur
    split at h
    · simp only [Option.some.injEq] at h
      subst h
      simp at hok
    · rename_i hne
      simp only [Option.some.injEq] at h
      subst h
      obtain ⟨k, hk, hp, _⟩ := numericLoop_shape ic _ ic false false cur (Nat.le_refl _) hcur
      simp only [List.length_drop] at hk
      dsimp only
      omega

/-- Every successful step of `lex` moves the pointer forward and not beyond the
end of the source. -/
theorem tryLexers_progress (source : GoString) (cur : cursor) (r : LexOut)
    (h : tryLexers source cur [lexKeyword, lexSymbol, lexString, lexNumeric, lexIdentifier] =
      some (some r)) :
    cur.pointer < r.cur.pointer ∧ r.cur.pointer ≤ source.length := by
  obtain ⟨hok, h1 | h1 | h1 | h1 | h1⟩ := tryLexers_cases source cur r h
  · exact lexKeyword_progress _ _ _ h1 hok
  · exact lexSymbol_progress _ _ _ h1 hok
  · exact lexCharacterDelimited_progress _ _ _ _ h1 hok
  · exact lexNumeric_progress _ _ _ h1 hok
  · exact lexIdentifier_progress _ _ _ h1 hok

/-- The loop of `lexNumeric` written with index expressions never reads out of
range and computes what the loop over the remaining bytes computes: after an
exponent marker that is not the last byte, the look-ahead index is within the
source. -/
theorem numericLoopAt_eq (source : GoString) (ic : cursor) (fuel : Nat) (cur : cursor)
    (d e : Bool) (hfuel : source.length - cur.pointer < fuel) :
    numericLoopAt source ic fuel cur d e =
      .ok (numericLoop ic (source.drop cur.pointer) cur d e) := by
  induction fuel generalizing cur d e with
  | zero => omega
  | succ fuel ih =>
    unfold numericLoopAt
    by_cases hlt : cur.pointer < source.length
    · rw [if_pos hlt, List.getElem?_eq_getElem hlt, List.drop_eq_getElem_cons hlt]
      dsimp only
      unfold numericLoop
      dsimp only
      have ih1 : ∀ (col : Nat) (d1 e1 : Bool),
          numericLoopAt source ic fuel ⟨cur.pointer + 1, ⟨cur.loc.line, col⟩⟩ d1 e1 =
            .ok (numericLoop ic (source.drop (cur.pointer + 1))
              ⟨cur.pointer + 1, ⟨cur.loc.line, col⟩⟩ d1 e1) :=
        fun col d1 e1 => ih _ d1 e1 (by show source.length - (cur.pointer + 1) < fuel; omega)
      split
      · split
        · rfl
        · exact ih1 _ _ _
      · split
        · split
          · rfl
          · exact ih1 _ _ _
        · split
          · split
            · rfl
            · by_cases hlast : cur.pointer = source.length - 1
              · rw [if_pos hlast]
                have : source.drop (cur.pointer + 1) = [] :=
                  List.drop_eq_nil_of_le (by omega)
                rw [this]
              · rw [if_neg hlast]
                have hlt1 : cur.pointer + 1 < source.length := by omega
                rw [List.getElem?_eq_getElem hlt1, List.drop_eq_getElem_cons hlt1]
                dsimp only
                split
                · exact ih _ _ _ (by show source.length - (cur.pointer + 1 + 1) < fuel; omega)
                · rw [← List.drop_eq_getElem_cons hlt1]
                  exact ih1 _ _ _
          · split
            · rfl
            · exact ih1 _ _ _
    · rw [if_neg hlt, List.drop_eq_nil_of_le (by omega)]
      rfl

theorem lexKeyword_returns (source : GoString) (ic : cursor) :
    ∃ r, lexKeyword source ic = some r := by
  obtain ⟨m, hm⟩ := longestMatch_returns source ic keywords
    (fun o ho => (keywords_lowercaseASCII o ho).1)
  unfold lexKeyword
  rw [hm]
  dsimp only
  split <;> exact ⟨_, rfl⟩

theorem lexSymbol_returns (source : GoString) (ic : cursor)
    (h : ic.pointer < source.length) : ∃ r, lexSymbol source ic = some r := by
  obtain ⟨m, hm⟩ := longestMatch_returns source ic symbols
    (fun o ho => (symbols_lowercaseASCII o ho).1)
  unfold lexSymbol
  rw [List.drop_eq_getElem_cons h, hm]
  dsimp only
  repeat' split
  all_goals exact ⟨_, rfl⟩

theorem lexCharacterDelimited_returns (source : GoString) (ic : cursor) (delimiter : Nat)
    (h : ic.pointer < source.length) :
    ∃ r, lexCharacterDelimited source ic delimiter = some r := by
  unfold lexCharacterDelimited
  rw [if_neg (by omega)]
  repeat' split
  all_goals exact ⟨_, rfl⟩

theorem lexNumeric_returns (source : GoString) (ic : cursor) :
    ∃ r, lexNumeric source ic = some r := by
  unfold lexNumeric
  repeat' split
  all_goals exact ⟨_, rfl⟩

theorem lexIdentifier_returns (source : GoString) (ic : cursor)
    (h : ic.pointer < source.length) : ∃ r, lexIdentifier source ic = some r := by
  obtain ⟨r0, hr0⟩ := lexCharacterDelimited_returns source ic 34 h
  unfold lexIdentifier
  rw [hr0, List.drop_eq_getElem_cons h]
  dsimp only
  repeat' split
  all_goals exact ⟨_, rfl⟩

/-- With the pointer inside the source no sub-lexer panics. -/
theorem tryLexers_returns (source : GoString) (cur : cursor)
    (h : cur.pointer < source.length) :
    ∃ x, tryLexers source cur [lexKeyword, lexSymbol, lexString, lexNumeric, lexIdentifier] =
      some x := by
  obtain ⟨r1, h1⟩ := lexKeyword_returns source cur
  obtain ⟨r2, h2⟩ := lexSymbol_returns source cur h
  obtain ⟨r3, h3⟩ := lexCharacterDelimited_returns source cur 39 h
  obtain ⟨r4, h4⟩ := lexNumeric_returns source cur
  obtain ⟨r5, h5⟩ := lexIdentifier_returns source cur h
  simp only [tryLexers, h1, h2, lexString, h3, h4, h5]
  repeat' split
  all_goals exact ⟨_, rfl⟩

/-- The loop of `lex` returns when the fuel covers the bytes that remain. -/
theorem lexLoop_returns (source : GoString) (fuel : Nat) (cur : cursor) (tokens : List token)
    (hfuel : source.length ≤ fuel + cur.pointer) :
    ∃ r, lexLoop source fuel cur tokens = .ok r := by
  induction fuel generalizing cur tokens with
  | zero =>
    unfold lexLoop
    rw [if_neg (by omega)]
    exact ⟨_, rfl⟩
  | succ fuel ih =>
    unfold lexLoop
    by_cases hlt : cur.pointer < source.length
    · rw [if_pos hlt]
      obtain ⟨x, hx⟩ := tryLexers_returns source cur hlt
      rw [hx]
      cases x with
      | none => exact ⟨_, rfl⟩
      | some r =>
        have := tryLexers_progress source cur r hx
        exact ih _ _ (by omega)
    · rw [if_neg hlt]
      exact ⟨_, rfl⟩

theorem lex_returns (source : GoString) : ∃ r, lex source = .ok r :=
  lexLoop_returns source source.length ⟨0, ⟨0, 0⟩⟩ [] (by simp)

/-! ### No out-of-range access in the parser -/

/-- With a non-empty token list and a cursor not beyond its end, the index
expression of `helpMessage` is in range. -/
theorem helpMessage_ok (tokens : List token) (c : Nat) (h1 : 0 < tokens.length)
    (h2 : c ≤ tokens.length) : helpMessage tokens c = .ok () := by
  unfold helpMessage
  by_cases h : c < tokens.length
  · rw [if_pos h]
  · rw [if_neg h, if_pos (by omega)]

theorem expectToken_lt (tokens : List token) (c : Nat) (t : token)
    (h : expectToken tokens c t = true) : c < tokens.length := by
  unfold expectToken at h
  split at h
  · cases h
  · rename_i current hcur
    exact (List.getElem?_eq_some.1 hcur).1

theorem parseToken_matched (tokens : List token) (c : Nat) (kind : tokenKind) (t : token)
    (c1 : Nat) (h : parseToken tokens c kind = .matched t c1) :
    c1 = c + 1 ∧ c < tokens.length ∧ tokens[c]? = some t ∧ t.kind = kind := by
  unfold parseToken at h
  split at h
  · cases h
  · rename_i current hcur
    split at h
    · rename_i hk
      cases h
      exact ⟨rfl, (List.getElem?_eq_some.1 hcur).1, hcur, hk⟩
    · cases h

theorem parseExpressionKinds_matched (tokens : List token) (c : Nat) (kinds : List tokenKind)
    (e : expression) (c1 : Nat) (h : parseExpressionKinds tokens c kinds = .matched e c1) :
    c1 = c + 1 ∧ c < tokens.length ∧ tokens[c]? = some e.literal ∧ e.literal.kind ∈ kinds := by
  induction kinds with
  | nil => simp [parseExpressionKinds] at h
  | cons k rest ih =>
    unfold parseExpressionKinds at h
    split at h
    · rename_i t newCursor hm
      cases h
      obtain ⟨h1, h2, h3, h4⟩ := parseToken_matched _ _ _ _ _ hm
      exact ⟨h1, h2, h3, by simp [h4]⟩
    · obtain ⟨h1, h2, h3, h4⟩ := ih h
      exact ⟨h1, h2, h3, List.mem_cons_of_mem _ h4⟩

/-- The loop of `parseExpressions` returns when the fuel covers the tokens that
remain, and a match leaves the cursor on a token. -/
theorem parseExpressionsLoop_returns (tokens : List token) (ic : Nat)
    (delimiters : List token) (fuel cursor : Nat) (exps : List expression)
    (hc : cursor ≤ tokens.length) (hfuel : tokens.length < fuel + cursor) :
    ∃ r, parseExpressionsLoop tokens ic delimiters fuel cursor exps = .ok r ∧
      ∀ v c1, r = .matched v c1 → cursor ≤ c1 ∧ c1 < tokens.length := by
  induction fuel generalizing cursor exps with
  | zero => omega
  | succ fuel ih =>
    unfold parseExpressionsLoop
    dsimp only
    generalize hcu : (if 0 < exps.length then cursor + 1 else cursor) = cursor1
    have hb : cursor ≤ cursor1 ∧ cursor1 ≤ cursor + 1 := by
      rw [← hcu]; split <;> omega
    split
    · exact ⟨_, rfl, by intro v c1 h; cases h⟩
    · rename_i current hcur
      have hlt : cursor < tokens.length := (List.getElem?_eq_some.1 hcur).1
      split
      · refine ⟨_, rfl, ?_⟩
        intro v c1 h
        cases h
        exact ⟨Nat.le_refl _, hlt⟩
      · split
        · rw [helpMessage_ok tokens cursor (by omega) (by omega)]
          exact ⟨_, rfl, by intro v c1 h; cases h⟩
        · split
          · rw [helpMessage_ok tokens cursor1 (by omega) (by omega)]
            exact ⟨_, rfl, by intro v c1 h; cases h⟩
          · rename_i exp newCursor hm
            obtain ⟨h1, h2, _⟩ := parseExpressionKinds_matched _ _ _ _ _ hm
            obtain ⟨r, hr, hrm⟩ := ih newCursor (exps ++ [exp]) (by omega) (by omega)
            refine ⟨r, hr, ?_⟩
            intro v c1 h
            have := hrm v c1 h
            omega

theorem parseExpressions_returns (tokens : List token) (ic : Nat) (delimiters : List token) :
    ∃ r, parseExpressions tokens ic delimiters = .ok r ∧
      ∀ v c1, r = .matched v c1 → ic ≤ c1 ∧ c1 < tokens.length := by
  unfold parseExpressions
  by_cases hc : ic ≤ tokens.length
  · exact parseExpressionsLoop_returns tokens ic delimiters _ ic [] hc (by omega)
  · unfold parseExpressionsLoop
    rw [List.getElem?_eq_none (by omega)]
    exact ⟨_, rfl, by intro v c1 h; cases h⟩

/-- The loop of `parseColumnDefinitions` returns when the fuel covers the
tokens that remain, and a match leaves the cursor on a token. -/
theorem parseColumnDefinitionsLoop_returns (tokens : List token) (ic : Nat)
    (delimiter : token) (fuel cursor : Nat) (cds : List columnDefinition)
    (hc : cursor ≤ tokens.length) (hfuel : tokens.length < fuel + cursor) :
    ∃ r, parseColumnDefinitionsLoop tokens ic delimiter fuel cursor cds = .ok r ∧
      ∀ v c1, r = .matched v c1 → cursor ≤ c1 ∧ c1 < tokens.length := by
  induction fuel generalizing cursor cds with
  | zero => omega
  | succ fuel ih =>
    unfold parseColumnDefinitionsLoop
    dsimp only
    generalize hcu : (if 0 < cds.length then cursor + 1 else cursor) = cursor1
    have hb : cursor ≤ cursor1 ∧ cursor1 ≤ cursor + 1 := by
      rw [← hcu]; split <;> omega
    split
    · exact ⟨_, rfl, by intro v c1 h; cases h⟩
    · rename_i current hcur
      have hlt : cursor < tokens.length := (List.getElem?_eq_some.1 hcur).1
      split
      · refine ⟨_, rfl, ?_⟩
        intro v c1 h
        cases h
        exact ⟨Nat.le_refl _, hlt⟩
      · split
        · rw [helpMessage_ok tokens cursor (by omega) (by omega)]
          exact ⟨_, rfl, by intro v c1 h; cases h⟩
        · split
          · rw [helpMessage_ok tokens cursor1 (by omega) (by omega)]
            exact ⟨_, rfl, by intro v c1 h; cases h⟩
          · rename_i id cursor2 hm
            obtain ⟨h1, h2, _⟩ := parseToken_matched _ _ _ _ _ hm
            split
            · rw [helpMessage_ok tokens cursor2 (by omega) (by omega)]
              exact ⟨_, rfl, by intro v c1 h; cases h⟩
            · rename_i ty cursor3 hm3
              obtain ⟨h3, h4, _⟩ := parseToken_matched _ _ _ _ _ hm3
              obtain ⟨r, hr, hrm⟩ := ih cursor3 (cds ++ [⟨id, ty⟩]) (by omega) (by omega)
              refine ⟨r, hr, ?_⟩
              intro v c1 h
              have := hrm v c1 h
              omega

theorem parseColumnDefinitions_returns (tokens : List token) (ic : Nat) (delimiter : token) :
    ∃ r, parseColumnDefinitions tokens ic delimiter = .ok r ∧
      ∀ v c1, r = .matched v c1 → ic ≤ c1 ∧ c1 < tokens.length := by
  unfold parseColumnDefinitions
  by_cases hc : ic ≤ tokens.length
  · exact parseColumnDefinitionsLoop_returns tokens ic delimiter _ ic [] hc (by omega)
  · unfold parseColumnDefinitionsLoop
    rw [List.getElem?_eq_none (by omega)]
    exact ⟨_, rfl, by intro v c1 h; cases h⟩

theorem parseSelectStatement_returns (tokens : List token) (ic : Nat) (d : token) :
    ∃ r, parseSelectStatement tokens ic d = .ok r ∧
      ∀ v c1, r = .matched v c1 → ic < c1 ∧ c1 ≤ tokens.length := by
  unfold parseSelectStatement
  split
  · exact ⟨_, rfl, by intro v c1 h; cases h⟩
  · obtain ⟨r, hr, hrm⟩ := parseExpressions_returns tokens (ic + 1)
      [tokenFromKeyword (str "from"), d]
    rw [hr]
    cases r with
    | notMatched c => exact ⟨_, rfl, by intro v c1 h; cases h⟩
    | matched exps cursor =>
      have hcur := hrm exps cursor rfl
      dsimp only
      split
      · split
        · rw [helpMessage_ok tokens (cursor + 1) (by omega) (by omega)]
          exact ⟨_, rfl, by intro v c1 h; cases h⟩
        · rename_i «from» newCursor hm
          obtain ⟨h1, h2, _⟩ := parseToken_matched _ _ _ _ _ hm
          refine ⟨_, rfl, ?_⟩
          intro v c1 h
          cases h
          omega
      · refine ⟨_, rfl, ?_⟩
        intro v c1 h
        cases h
        omega

theorem parseInsertStatement_returns (tokens : List token) (ic : Nat) (d : token) :
    ∃ r, parseInsertStatement tokens ic d = .ok r ∧
      ∀ v c1, r = .matched v c1 → ic < c1 ∧ c1 ≤ tokens.length := by
  unfold parseInsertStatement
  split
  · exact ⟨_, rfl, by intro v c1 h; cases h⟩
  · split
    · exact ⟨_, rfl, by intro v c1 h; cases h⟩
    · rename_i hinto
      have h1 : ic + 1 < tokens.length :=
        expectToken_lt tokens (ic + 1) _ (by simpa using hinto)
      split
      · rw [helpMessage_ok tokens (ic + 2) (by omega) (by omega)]
        exact ⟨_, rfl, by intro v c1 h; cases h⟩
      · rename_i table cursor hm
        obtain ⟨h2, h3, _⟩ := parseToken_matched _ _ _ _ _ hm
        split
        · rw [helpMessage_ok tokens cursor (by omega) (by omega)]
          exact ⟨_, rfl, by intro v c1 h; cases h⟩
        · rename_i hvalues
          have h4 : cursor < tokens.length :=
            expectToken_lt tokens cursor _ (by simpa using hvalues)
          split
          · rw [helpMessage_ok tokens (cursor + 1) (by omega) (by omega)]
            exact ⟨_, rfl, by intro v c1 h; cases h⟩
          · obtain ⟨r, hr, hrm⟩ := parseExpressions_returns tokens (cursor + 2)
              [tokenFromSymbol (str ")")]
            rw [hr]
            cases r with
            | notMatched c => exact ⟨_, rfl, by intro v c1 h; cases h⟩
            | matched values cursor1 =>
              have hcur := hrm values cursor1 rfl
              dsimp only
              split
              · rw [helpMessage_ok tokens cursor1 (by omega) (by omega)]
                exact ⟨_, rfl, by intro v c1 h; cases h⟩
              · refine ⟨_, rfl, ?_⟩
                intro v c1 h
                cases h
                omega

theorem parseCreateTableStatement_returns (tokens : List token) (ic : Nat) (d : token) :
    ∃ r, parseCreateTableStatement tokens ic d = .ok r ∧
      ∀ v c1, r = .matched v c1 → ic < c1 ∧ c1 ≤ tokens.length := by
  unfold parseCreateTableStatement
  split
  · exact ⟨_, rfl, by intro v c1 h; cases h⟩
  · split
    · exact ⟨_, rfl, by intro v c1 h; cases h⟩
    · rename_i htable
      have h1 : ic + 1 < tokens.length :=
        expectToken_lt tokens (ic + 1) _ (by simpa using htable)
      split
      · rw [helpMessage_ok tokens (ic + 2) (by omega) (by omega)]
        exact ⟨_, rfl, by intro v c1 h; cases h⟩
      · rename_i name cursor hm
        obtain ⟨h2, h3, _⟩ := parseToken_matched _ _ _ _ _ hm
        split
        · rw [helpMessage_ok tokens cursor (by omega) (by omega)]
          exact ⟨_, rfl, by intro v c1 h; cases h⟩
        · rename_i hparen
          have h4 : cursor < tokens.length :=
            expectToken_lt tokens cursor _ (by simpa using hparen)
          obtain ⟨r, hr, hrm⟩ := parseColumnDefinitions_returns tokens (cursor + 1)
            (tokenFromSymbol (str ")"))
          rw [hr]
          cases r with
          | notMatched c =>
            dsimp only
            rw [helpMessage_ok tokens (cursor + 1) (by omega) (by omega)]
            exact ⟨_, rfl, by intro v c1 h; cases h⟩
          | matched cols cursor1 =>
            have hcur := hrm cols cursor1 rfl
            dsimp only
            split
            · rw [helpMessage_ok tokens cursor1 (by omega) (by omega)]
              exact ⟨_, rfl, by intro v c1 h; cases h⟩
            · refine ⟨_, rfl, ?_⟩
              intro v c1 h
              cases h
              omega

/-- `parseStatement` returns on every token list and cursor, and a match moves
the cursor forward and not beyond the end of the tokens. -/
theorem parseStatement_returns (tokens : List token) (ic : Nat) (d : token) :
    ∃ r, parseStatement tokens ic d = .ok r ∧
      ∀ v c1, r = .matched v c1 → ic < c1 ∧ c1 ≤ tokens.length := by
  unfold parseStatement
  obtain ⟨r1, hr1, hm1⟩ := parseSelectStatement_returns tokens ic (tokenFromSymbol (str ";"))
  obtain ⟨r2, hr2, hm2⟩ := parseInsertStatement_returns tokens ic (tokenFromSymbol (str ";"))
  obtain ⟨r3, hr3, hm3⟩ :=
    parseCreateTableStatement_returns tokens ic (tokenFromSymbol (str ";"))
  rw [hr1]
  cases r1 with
  | matched s c =>
    refine ⟨_, rfl, ?_⟩
    intro v c1 h
    cases h
    exact hm1 _ _ rfl
  | notMatched c =>
    dsimp only
    rw [hr2]
    cases r2 with
    | matched s c =>
      refine ⟨_, rfl, ?_⟩
      intro v c1 h
      cases h
      exact hm2 _ _ rfl
    | notMatched c =>
      dsimp only
      rw [hr3]
      cases r3 with
      | matched s c =>
        refine ⟨_, rfl, ?_⟩
        intro v c1 h
        cases h
        exact hm3 _ _ rfl
      | notMatched c => exact ⟨_, rfl, by intro v c1 h; cases h⟩

/-- The statement loop of `parse` returns when the fuel covers the tokens that
remain. -/
theorem parseLoop_returns (tokens : List token) (fuel cursor : Nat) (stmts : List Statement)
    (hfuel : tokens.length ≤ fuel + cursor) :
    ∃ r, parseLoop tokens fuel cursor stmts = .ok r := by
  induction fuel generalizing cursor stmts with
  | zero =>
    unfold parseLoop
    rw [if_neg (by omega)]
    exact ⟨_, rfl⟩
  | succ fuel ih =>
    unfold parseLoop
    by_cases hlt : cursor < tokens.length
    · rw [if_pos hlt]
      obtain ⟨r, hr, hrm⟩ := parseStatement_returns tokens cursor (tokenFromSymbol (str ";"))
      rw [hr]
      cases r with
      | notMatched c =>
        dsimp only
        rw [helpMessage_ok tokens cursor (by omega) (by omega)]
        exact ⟨_, rfl⟩
      | matched stmt newCursor =>
        have hcur := hrm stmt newCursor rfl
        have hskip := skipSemicolons_spec tokens (tokens.drop newCursor) newCursor false rfl
        dsimp only
        split
        · have hle : (skipSemicolons (tokens.drop newCursor) newCursor false).1 ≤
              tokens.length := by
            rcases Nat.eq_or_lt_of_le hskip.1 with h | h
            · rw [← h]; exact hcur.2
            · exact (hskip.2.1 h).1
          rw [helpMessage_ok tokens _ (by omega) hle]
          exact ⟨_, rfl⟩
        · exact ih _ _ (by have := hskip.1; omega)
    · rw [if_neg hlt]
      exact ⟨_, rfl⟩

theorem parse_returns (source : GoString) : ∃ r, parse source = .ok r := by
  unfold parse
  obtain ⟨r, hr⟩ := lex_returns source
  rw [hr]
  cases r with
  | error e => exact ⟨_, rfl⟩
  | ok tokens => exact parseLoop_returns tokens tokens.length 0 [] (by omega)


/-- **C20.** The lexer and the parser return on every source, with neither an
out-of-range access nor an exhausted loop bound.  In particular: `longestMatch`
returns for every list of non-empty candidates, since a pass over the
candidates entered with every live candidate longer than the `n` bytes
consumed takes the slice `option[:n+1]` only of such candidates and leaves
alive only candidates longer than `n + 1`; the loop of `lexNumeric` written
with the index expressions `source[pointer]` and `source[pointer+1]` never
reads out of range and computes the loop over the remaining bytes; with the
pointer inside the source none of the five sub-lexers panics, and `lex` calls
none of them with the pointer at or beyond the end; and `helpMessage` returns
for a non-empty token list and a cursor not beyond its end, which is how the
parser calls it. -/
theorem lex_parse_total :
    (∀ source : GoString, ∃ r, lex source = .ok r) ∧
    (∀ source : GoString, ∃ r, parse source = .ok r) ∧
    (∀ (source : GoString) (ic : cursor) (options : List GoString),
      (∀ o ∈ options, o ≠ []) → ∃ m, longestMatch source ic options = some m) ∧
    (∀ (value1 : GoString) (n : Nat) (options : List GoString) (sk : List Nat)
        (m : GoString),
      (∀ k o, options[k]? = some o → k ∉ sk → n < o.length) →
      ∃ sk1 m1, matchOptions value1 (n + 1) options 0 sk m = some (sk1, m1) ∧
        ∀ k o, options[k]? = some o → k ∉ sk1 → n + 1 < o.length) ∧
    (∀ (source : GoString) (ic : cursor) (fuel : Nat) (cur : cursor) (d e : Bool),
      source.length - cur.pointer < fuel →
      numericLoopAt source ic fuel cur d e =
        .ok (numericLoop ic (source.drop cur.pointer) cur d e)) ∧
    (∀ (source : GoString) (cur : cursor), cur.pointer < source.length →
      (∃ r, lexKeyword source cur = some r) ∧ (∃ r, lexSymbol source cur = some r) ∧
      (∃ r, lexString source cur = some r) ∧ (∃ r, lexNumeric source cur = some r) ∧
      (∃ r, lexIdentifier source cur = some r)) ∧
    (∀ (source : GoString) (fuel : Nat) (cur : cursor) (tokens : List token),
      ¬ cur.pointer < source.length → lexLoop source fuel cur tokens = .ok (.ok tokens)) ∧
    (∀ (tokens : List token) (c : Nat), 0 < tokens.length → c ≤ tokens.length →
      helpMessage tokens c = .ok ()) := by
  refine ⟨lex_returns, parse_returns, longestMatch_returns, ?_, numericLoopAt_eq, ?_,
    lexLoop_at_end, helpMessage_ok⟩
  · intro value1 n options sk m hpre
    obtain ⟨sk1, m1, h1, h2, _, _, _, _, h7⟩ :=
      matchOptions_step value1 n options 0 sk m
        (fun k o hk hnot => hpre k o hk (by simpa using hnot))
    refine ⟨sk1, m1, h1, ?_⟩
    intro k o hk hnot
    have hnot0 : k ∉ sk := fun h => hnot (h2 k h)
    rcases h7 k o hk (by simpa using hnot0) with h | h | h
    · exact h.2.1
    · exact absurd (by simpa using h.1) hnot
    · exact absurd (by simpa using h.1) hnot
  · intro source cur h
    exact ⟨lexKeyword_returns source cur, lexSymbol_returns source cur h,
      lexCharacterDelimited_returns source cur 39 h, lexNumeric_returns source cur,
      lexIdentifier_returns source cur h⟩

/-- The parts of `lex_parse_total` at concrete inputs: the look-ahead after the
exponent marker of `1e+5` and of `1e`, the keyword candidates at `INTO x`, and
`helpMessage` at the end of a one-token list; with the same inputs evaluated. -/
theorem lex_parse_total_witness :
    (numericLoopAt (str "1e+5") ⟨0, ⟨0, 0⟩⟩ 5 ⟨0, ⟨0, 0⟩⟩ false false =
      .ok (numericLoop ⟨0, ⟨0, 0⟩⟩ ((str "1e+5").drop 0) ⟨0, ⟨0, 0⟩⟩ false false)) ∧
    numericLoopAt (str "1e+5") ⟨0, ⟨0, 0⟩⟩ 5 ⟨0, ⟨0, 0⟩⟩ false false =
      .ok (some ⟨4, ⟨0, 4⟩⟩) ∧
    numericLoopAt (str "1e") ⟨0, ⟨0, 0⟩⟩ 3 ⟨0, ⟨0, 0⟩⟩ false false = .ok none ∧
    (∃ m, longestMatch (str "INTO x") ⟨0, ⟨0, 0⟩⟩ keywords = some m) ∧
    helpMessage [tok ";" .SYMBOL] 1 = .ok () ∧
    helpMessage [] 0 = .error .panic ∧
    (∃ r, parse (str "select 1") = .ok r) ∧
    parse (str "select 1") = .ok (.error .expectedStatement) :=
  ⟨lex_parse_total.2.2.2.2.1 (str "1e+5") ⟨0, ⟨0, 0⟩⟩ 5 ⟨0, ⟨0, 0⟩⟩ false false
      (by decide),
    by decide!, by decide!,
    lex_parse_total.2.2.1 (str "INTO x") ⟨0, ⟨0, 0⟩⟩ keywords (by decide),
    lex_parse_total.2.2.2.2.2.2.2 [tok ";" .SYMBOL] 1 (by decide) (by decide),
    by decide!, lex_parse_total.2.1 (str "select 1"), by decide!⟩

/-! ### Select without a from clause -/

/-- Every identifier token of the result of `lex` has a non-empty value. -/
theorem lex_identifier_nonempty (source : GoString) (tokens : List token)
    (hlex : lex source = .ok (.ok tokens)) (t : token) (ht : t ∈ tokens)
    (hk : t.kind = tokenKind.IDENTIFIER) : t.value ≠ [] := by
  have hall := lexLoop_all source (fun t => t.kind = tokenKind.IDENTIFIER → t.value ≠ [])
    (by
      intro cur r t h htok hkind
      obtain ⟨_, h1 | h1 | h1 | h1 | h1⟩ := tryLexers_cases source cur r h
      · rw [lexKeyword_kind _ _ _ _ h1 htok] at hkind; cases hkind
      · rw [lexSymbol_kind _ _ _ _ h1 htok] at hkind; cases hkind
      · rw [lexCharacterDelimited_kind _ _ _ _ _ h1 htok] at hkind; cases hkind
      · rw [(lexNumeric_token _ _ _ _ h1 htok).1] at hkind; cases hkind
      · rcases lexIdentifier_kind _ _ _ _ h1 htok with h2 | h2
        · rw [h2] at hkind; cases hkind
        · exact h2.2)
    source.length ⟨0, ⟨0, 0⟩⟩ [] tokens (by simp) hlex
  exact hall t ht hk

theorem mem_of_getElem_some {α : Type} {l : List α} {i : Nat} {a : α}
    (h : l[i]? = some a) : a ∈ l :=
  (List.getElem?_eq_some.1 h).2 ▸ List.getElem_mem _

/-- The table name of a parsed `create table` statement is an identifier token
of the input. -/
theorem parseCreateTableStatement_name (tokens : List token) (c : Nat) (d : token)
    (crt : CreateStatement) (c1 : Nat)
    (h : parseCreateTableStatement tokens c d = .ok (.matched crt c1)) :
    crt.name ∈ tokens ∧ crt.name.kind = tokenKind.IDENTIFIER := by
  unfold parseCreateTableStatement at h
  split at h
  · simp at h
  · split at h
    · simp at h
    · split at h
      · split at h <;> simp at h
      · rename_i name cursor hm
        obtain ⟨_, _, h3, h4⟩ := parseToken_matched _ _ _ _ _ hm
        split at h
        · split at h <;> simp at h
        · split at h
          · simp at h
          · split at h <;> simp at h
          · split at h
            · split at h <;> simp at h
            · simp only [Except.ok.injEq, PResult.matched.injEq] at h
              obtain ⟨h1, _⟩ := h
              subst h1
              exact ⟨mem_of_getElem_some h3, h4⟩

theorem parseStatement_create_name (tokens : List token) (c : Nat) (d : token)
    (stmt : Statement) (c1 : Nat) (h : parseStatement tokens c d = .ok (.matched stmt c1))
    (crt : CreateStatement) (hcrt : stmt.CreateStatement = some crt) :
    crt.name ∈ tokens ∧ crt.name.kind = tokenKind.IDENTIFIER := by
  unfold parseStatement at h
  split at h
  · simp at h
  · simp only [Except.ok.injEq, PResult.matched.injEq] at h
    obtain ⟨h1, _⟩ := h
    subst h1
    simp at hcrt
  · split at h
    · simp at h
    · simp only [Except.ok.injEq, PResult.matched.injEq] at h
      obtain ⟨h1, _⟩ := h
      subst h1
      simp at hcrt
    · split at h
      · simp at h
      · rename_i crt0 newCursor hc
        simp only [Except.ok.injEq, PResult.matched.injEq] at h
        obtain ⟨h1, _⟩ := h
        subst h1
        simp only [Option.some.injEq] at hcrt
        subst hcrt
        exact parseCreateTableStatement_name _ _ _ _ _ hc
      · simp at h

/-- Every statement of a parsed source was matched by `parseStatement` on the
tokens of the source. -/
theorem parse_statements (source : GoString) (ast : Ast) (h : parse source = .ok (.ok ast)) :
    ∃ tokens, lex source = .ok (.ok tokens) ∧
      ∀ s ∈ ast.Statements, ∃ c c1,
        parseStatement tokens c (tokenFromSymbol (str ";")) = .ok (.matched s c1) := by
  unfold parse at h
  split at h
  · simp at h
  · simp at h
  · rename_i tokens hlex
    refine ⟨tokens, hlex, ?_⟩
    intro s hs
    obtain ⟨c, c1, hc, _⟩ :=
      (parseLoop_terminated tokens tokens.length 0 [] ast (Or.inl ⟨rfl, rfl⟩)
        (by simp) h).2 s hs
    exact ⟨c, c1, hc⟩

theorem Insert_keeps_unnamed (mb : MemoryBackend) (inst : InsertStatement)
    (mb1 : MemoryBackend) (e : Option BackendError) (hinv : mb.tables [] = none)
    (h : mb.Insert inst = .ok (mb1, e)) : mb1.tables [] = none := by
  unfold MemoryBackend.Insert at h
  split at h
  · simp only [Except.ok.injEq, Prod.mk.injEq] at h
    rw [← h.1]; exact hinv
  · rename_i table htable
    split at h
    · simp only [Except.ok.injEq, Prod.mk.injEq] at h
      rw [← h.1]; exact hinv
    · split at h
      · simp only [Except.ok.injEq, Prod.mk.injEq] at h
        rw [← h.1]; exact hinv
      · split at h
        · simp at h
        · simp only [Except.ok.injEq, Prod.mk.injEq] at h
          rw [← h.1]
          have hne : ([] : GoString) ≠ inst.table.value := by
            intro heq
            rw [← heq, hinv] at htable
            cases htable
          simp only [MemoryBackend.set, if_neg hne]
          exact hinv

theorem CreateTable_keeps_unnamed (mb : MemoryBackend) (crt : CreateStatement)
    (hinv : mb.tables [] = none) (hname : crt.name.value ≠ []) :
    (mb.CreateTable crt).1.tables [] = none := by
  have hne : ([] : GoString) ≠ crt.name.value := fun h => hname h.symm
  unfold MemoryBackend.CreateTable
  split <;> simp only [MemoryBackend.set, if_neg hne] <;> exact hinv

theorem execStatement_keeps_unnamed (mb : MemoryBackend) (stmt : Statement)
    (mb1 : MemoryBackend) (res : CallResult) (hinv : mb.tables [] = none)
    (hname : ∀ crt, stmt.CreateStatement = some crt → crt.name.value ≠ [])
    (h : execStatement mb stmt = .ok (mb1, res)) : mb1.tables [] = none := by
  unfold execStatement at h
  split at h
  · split at h
    · simp at h
    · rename_i crt hcrt
      simp only [Except.ok.injEq, Prod.mk.injEq] at h
      rw [← h.1]
      exact CreateTable_keeps_unnamed mb crt hinv (hname crt hcrt)
  · split at h
    · simp at h
    · split at h
      · simp at h
      · rename_i r hr
        simp only [Except.ok.injEq, Prod.mk.injEq] at h
        rw [← h.1]
        exact Insert_keeps_unnamed mb _ r.1 r.2 hinv hr
  · split at h
    · simp at h
    · split at h
      · simp at h
      · simp only [Except.ok.injEq, Prod.mk.injEq] at h
        rw [← h.1]
        exact hinv

/-- No catalog reachable by executing parsed statements has a table named by
the empty string. -/
theorem ReachParsed_unnamed (mb : MemoryBackend) (h : ReachParsed mb) :
    mb.tables [] = none := by
  induction h with
  | fresh => rfl
  | step source ast stmt res _ hparse hmem hexec ih =>
    obtain ⟨tokens, hlex, hall⟩ := parse_statements source ast hparse
    obtain ⟨c, c1, hc⟩ := hall stmt hmem
    apply execStatement_keeps_unnamed _ stmt _ res ih _ hexec
    intro crt hcrt
    obtain ⟨hin, hk⟩ := parseStatement_create_name tokens c _ stmt c1 hc crt hcrt
    exact lex_identifier_nonempty source tokens hlex crt.name hin hk

theorem expectToken_of_get (tokens : List token) (c : Nat) (t x : token)
    (h : tokens[c]? = some x) : expectToken tokens c t = t.equals x := by
  unfold expectToken
  rw [h]

theorem parseExpression_of_token (tokens : List token) (c : Nat) (d e : token)
    (h : tokens[c]? = some e) (he : isExpressionToken e = true) :
    parseExpression tokens c d = .matched ⟨e, literalKind⟩ (c + 1) := by
  obtain ⟨v, k, l⟩ := e
  cases k <;>
    simp [isExpressionToken] at he <;>
    simp [parseExpression, parseExpressionKinds, parseToken, h]

theorem not_expression_of_equals (t x : token) (hk : t.kind = tokenKind.KEYWORD ∨
    t.kind = tokenKind.SYMBOL) (h : t.equals x = true) : isExpressionToken x = false := by
  simp only [token.equals, Bool.and_eq_true, decide_eq_true_eq] at h
  unfold isExpressionToken
  rw [← h.2]
  rcases hk with hk | hk <;> rw [hk] <;> rfl

theorem delimiters_expression (e : token) (he : isExpressionToken e = true) :
    [tokenFromKeyword (str "from"), tokenFromSymbol (str ";")].any
      (fun delimiter => delimiter.equals e) = false := by
  obtain ⟨v, k, l⟩ := e
  cases k <;> simp [isExpressionToken] at he <;>
    simp [token.equals, tokenFromKeyword, tokenFromSymbol]

theorem delimiters_comma (c : token) (hc : (tokenFromSymbol (str ",")).equals c = true) :
    [tokenFromKeyword (str "from"), tokenFromSymbol (str ";")].any
      (fun delimiter => delimiter.equals c) = false := by
  simp only [token.equals, tokenFromSymbol, Bool.and_eq_true, decide_eq_true_eq] at hc
  simp only [List.any_cons, List.any_nil, token.equals, tokenFromKeyword, tokenFromSymbol,
    ← hc.1, ← hc.2, Bool.or_false]
  decide

/-- The loop of `parseExpressions` over the tokens `, <expr> ... , <expr> ;`
after a first expression: it collects the expressions and stops at the `;`. -/
theorem parseExpressionsLoop_tail (tokens : List token) (ic : Nat) (rest : List token)
    (fuel cursor : Nat) (exps : List expression)
    (hdrop : tokens.drop cursor = rest) (htail : expressionTail rest = true)
    (hexps : 0 < exps.length) (hfuel : rest.length ≤ fuel) :
    parseExpressionsLoop tokens ic
        [tokenFromKeyword (str "from"), tokenFromSymbol (str ";")] fuel cursor exps =
      .ok (.matched (exps ++ expressionsOf rest) (cursor + rest.length - 1)) ∧
    ∃ s, tokens[cursor + rest.length - 1]? = some s ∧
      (tokenFromSymbol (str ";")).equals s = true := by
  generalize hn : rest.length = n
  induction n using Nat.strong_induction_on generalizing rest fuel cursor exps with
  | _ n ih =>
    match rest, htail, hdrop with
    | [], htail, _ => simp [expressionTail] at htail
    | [s], htail, hdrop =>
      simp only [expressionTail] at htail
      obtain ⟨hget, _, _⟩ := drop_eq_cons hdrop
      subst hn
      have hs : isExpressionToken s = false :=
        not_expression_of_equals _ s (Or.inr rfl) htail
      cases fuel with
      | zero => simp at hfuel
      | succ f =>
        refine ⟨?_, s, by simpa using hget, htail⟩
        unfold parseExpressionsLoop
        rw [hget]
        dsimp only
        rw [if_pos (by simp [htail])]
        simp [expressionsOf, hs]
    | c :: e :: rest1, htail, hdrop =>
      simp only [expressionTail, Bool.and_eq_true] at htail
      obtain ⟨⟨hcomma, he⟩, htail1⟩ := htail
      obtain ⟨hget, hdrop1, _⟩ := drop_eq_cons hdrop
      obtain ⟨hget1, hdrop2, _⟩ := drop_eq_cons hdrop1
      subst hn
      have hcx : isExpressionToken c = false :=
        not_expression_of_equals _ c (Or.inr rfl) hcomma
      cases fuel with
      | zero => simp at hfuel
      | succ f =>
        simp only [List.length_cons] at hfuel
        obtain ⟨ih1, s, hs1, hs2⟩ := ih rest1.length (by simp only [List.length_cons]; omega)
          rest1 f (cursor + 1 + 1) (exps ++ [⟨e, literalKind⟩]) hdrop2 htail1
          (by simp) (by omega) rfl
        have hidx : cursor + 1 + 1 + rest1.length - 1 =
            cursor + (c :: e :: rest1).length - 1 := by
          simp only [List.length_cons]; omega
        rw [hidx] at ih1 hs1
        refine ⟨?_, s, hs1, hs2⟩
        unfold parseExpressionsLoop
        rw [hget]
        dsimp only
        rw [if_neg (by rw [delimiters_comma c hcomma]; simp),
          if_neg (by rw [expectToken_of_get tokens cursor _ c hget, hcomma]; simp),
          if_pos hexps, parseExpression_of_token tokens (cursor + 1) _ e hget1 he]
        dsimp only
        rw [ih1]
        simp [expressionsOf, hcx, he]

/-- On the tokens of `select <expr_list>;` the select parser collects the
expressions, leaves the `from` token at its zero value and stops at the `;`. -/
theorem parseSelectStatement_withoutFrom (tokens : List token)
    (h : selectWithoutFrom tokens = true) :
    parseSelectStatement tokens 0 (tokenFromSymbol (str ";")) =
      .ok (.matched ⟨expressionsOf tokens, ⟨[], tokenKind.KEYWORD, ⟨0, 0⟩⟩⟩
        (tokens.length - 1)) ∧
    2 ≤ tokens.length ∧
    ∃ s, tokens[tokens.length - 1]? = some s ∧
      (tokenFromSymbol (str ";")).equals s = true := by
  match tokens, h with
  | [], h => simp [selectWithoutFrom] at h
  | [x], h => simp [selectWithoutFrom] at h
  | [sel, s], h =>
    simp only [selectWithoutFrom, Bool.and_eq_true] at h
    obtain ⟨hsel, hs⟩ := h
    have hselx : isExpressionToken sel = false :=
      not_expression_of_equals _ sel (Or.inl rfl) hsel
    have hsx : isExpressionToken s = false :=
      not_expression_of_equals _ s (Or.inr rfl) hs
    have hnf : (tokenFromKeyword (str "from")).equals s = false := by
      simp only [token.equals, tokenFromSymbol, Bool.and_eq_true, decide_eq_true_eq] at hs
      simp only [token.equals, tokenFromKeyword, ← hs.2]
      simp
    refine ⟨?_, by simp, s, by simp, hs⟩
    unfold parseSelectStatement
    rw [expectToken_of_get [sel, s] 0 _ sel (by simp), hsel]
    simp only [Bool.not_true, Bool.false_eq_true, if_false]
    unfold parseExpressions parseExpressionsLoop
    simp only [zero_add, List.length_cons, List.length_nil, List.getElem?_cons_succ,
      List.getElem?_cons_zero, List.any_cons, hs, Bool.or_true, if_true]
    have hex : expectToken [sel, s] 1 (tokenFromKeyword (str "from")) = false := by
      rw [expectToken_of_get [sel, s] 1 _ s (by simp), hnf]
    simp [expressionsOf, hselx, hsx, hex]
  | sel :: e :: r :: rest1, h =>
    simp only [selectWithoutFrom, Bool.and_eq_true] at h
    obtain ⟨⟨hsel, he⟩, htail⟩ := h
    have hselx : isExpressionToken sel = false :=
      not_expression_of_equals _ sel (Or.inl rfl) hsel
    obtain ⟨htl, s, hs1, hs2⟩ := parseExpressionsLoop_tail (sel :: e :: r :: rest1) (0 + 1)
      (r :: rest1) ((r :: rest1).length + 2) 2 ([] ++ [⟨e, literalKind⟩]) (by simp) htail
      (by simp) (by omega)
    have hidx : 2 + (r :: rest1).length - 1 = (sel :: e :: r :: rest1).length - 1 := by
      simp only [List.length_cons]; omega
    rw [hidx] at htl hs1
    have hnf : (tokenFromKeyword (str "from")).equals s = false := by
      simp only [token.equals, tokenFromSymbol, Bool.and_eq_true, decide_eq_true_eq] at hs2
      simp only [token.equals, tokenFromKeyword, ← hs2.2]
      simp
    refine ⟨?_, by simp only [List.length_cons]; omega, s, hs1, hs2⟩
    unfold parseSelectStatement
    rw [expectToken_of_get (sel :: e :: r :: rest1) 0 _ sel (by simp), hsel]
    simp only [Bool.not_true, Bool.false_eq_true, if_false]
    have hloop : parseExpressions (sel :: e :: r :: rest1) (0 + 1)
        [tokenFromKeyword (str "from"), tokenFromSymbol (str ";")] =
        .ok (.matched ([] ++ [⟨e, literalKind⟩] ++ expressionsOf (r :: rest1))
          ((sel :: e :: r :: rest1).length - 1)) := by
      unfold parseExpressions parseExpressionsLoop
      have hget : (sel :: e :: r :: rest1)[0 + 1]? = some e := by simp
      rw [hget]
      dsimp only
      rw [if_neg (by rw [delimiters_expression e he]; simp), if_neg (by simp),
        if_neg (by simp), parseExpression_of_token _ (0 + 1) _ e hget he]
      dsimp only
      exact htl
    rw [hloop]
    dsimp only
    rw [expectToken_of_get _ _ _ s hs1, hnf]
    simp [expressionsOf, hselx, he]

theorem parseLoop_at_end (tokens : List token) (fuel cursor : Nat) (stmts : List Statement)
    (h : ¬ cursor < tokens.length) : parseLoop tokens fuel cursor stmts = .ok (.ok ⟨stmts⟩) := by
  cases fuel <;> simp [parseLoop, h]

/-- The tokens of `select <expr_list>;` parse to the one select statement with
the expressions of the list and a `from` token of empty value. -/
theorem parseLoop_selectWithoutFrom (tokens : List token)
    (h : selectWithoutFrom tokens = true) :
    parseLoop tokens tokens.length 0 [] =
      .ok (.ok ⟨[⟨some ⟨expressionsOf tokens, ⟨[], tokenKind.KEYWORD, ⟨0, 0⟩⟩⟩, none, none,
        StatementKind.SelectStmtKind⟩]⟩) := by
  obtain ⟨hsel, hlen, s, hs1, hs2⟩ := parseSelectStatement_withoutFrom tokens h
  have hlt : tokens.length - 1 < tokens.length := by omega
  have hdrop : tokens.drop (tokens.length - 1) = [s] := by
    rw [List.drop_eq_getElem_cons hlt, List.drop_eq_nil_of_le (by omega)]
    rw [List.getElem?_eq_getElem hlt] at hs1
    simp only [Option.some.injEq] at hs1
    rw [hs1]
  obtain ⟨f, hf⟩ : ∃ f, tokens.length = f + 1 := ⟨tokens.length - 1, by omega⟩
  rw [hf]
  unfold parseLoop
  rw [if_pos (by omega)]
  unfold parseStatement
  rw [hsel]
  dsimp only
  rw [hdrop]
  simp only [skipSemicolons, hs2, if_true, Bool.not_true, Bool.false_eq_true, if_false]
  refine (parseLoop_at_end tokens f _ _ (by omega)).trans ?_
  simp

/-- **C18 (amended).** For every source whose tokens are the keyword `select`,
a possibly empty comma-separated list of identifier, numeric or string tokens,
and the symbol `;`, `parse` succeeds and yields the one select statement with
the expressions of the list and a `from` token of empty value; and in every
backend state reachable from a fresh backend by executing statements produced
by `parse`, no table is named by the empty string, so `Select` on that
statement, as on every select statement whose `from` token has the empty
value, fails with `table does not exist`. -/
theorem select_without_from (source : GoString) (tokens : List token)
    (hlex : lex source = .ok (.ok tokens)) (hform : selectWithoutFrom tokens = true)
    (mb : MemoryBackend) (hreach : ReachParsed mb) :
    parse source =
      .ok (.ok ⟨[⟨some ⟨expressionsOf tokens, ⟨[], tokenKind.KEYWORD, ⟨0, 0⟩⟩⟩, none, none,
        StatementKind.SelectStmtKind⟩]⟩) ∧
    mb.tables [] = none ∧
    mb.Select ⟨expressionsOf tokens, ⟨[], tokenKind.KEYWORD, ⟨0, 0⟩⟩⟩ =
      .ok (.error .ErrTableDoesNotExist) ∧
    ∀ slct : SelectStatement, slct.from.value = [] →
      mb.Select slct = .ok (.error .ErrTableDoesNotExist) := by
  have hinv := ReachParsed_unnamed mb hreach
  have hsel : ∀ slct : SelectStatement, slct.from.value = [] →
      mb.Select slct = .ok (.error .ErrTableDoesNotExist) := by
    intro slct hfrom
    unfold MemoryBackend.Select
    rw [hfrom, hinv]
  refine ⟨?_, hinv, hsel _ rfl, hsel⟩
  unfold parse
  rw [hlex]
  exact parseLoop_selectWithoutFrom tokens hform

/-- C18 (amended), at the source `select a, 1, 'x';` and the backend reached by
`create table t (a int);`; with the runs of `select ;` and of
`create table t (a int); select a, 1;` evaluated. -/
theorem select_without_from_witness :
    lex (str "select a, 1, 'x';") = .ok (.ok (tokensOf (str "select a, 1, 'x';"))) ∧
    selectWithoutFrom (tokensOf (str "select a, 1, 'x';")) = true ∧
    expressionsOf (tokensOf (str "select a, 1, 'x';")) =
      [⟨⟨str "a", .IDENTIFIER, ⟨0, 7⟩⟩, literalKind⟩, ⟨⟨str "1", .NUMERIC, ⟨0, 10⟩⟩, literalKind⟩,
        ⟨⟨str "x", .STRING, ⟨0, 14⟩⟩, literalKind⟩] ∧
    ReachParsed (NewMemoryBackend.CreateTable
      ⟨⟨str "t", .IDENTIFIER, ⟨0, 13⟩⟩,
        some [⟨⟨str "a", .IDENTIFIER, ⟨0, 16⟩⟩, ⟨str "int", .KEYWORD, ⟨0, 18⟩⟩⟩]⟩).1 ∧
    runResults (str "select ;") = some (.ok [.selected (.error .ErrTableDoesNotExist)]) ∧
    runResults (str "create table t (a int); select a, 1;") =
      some (.ok [.created none, .selected (.error .ErrTableDoesNotExist)]) ∧
    (parse (str "select a, 1, 'x';") =
      .ok (.ok ⟨[⟨some ⟨expressionsOf (tokensOf (str "select a, 1, 'x';")),
        ⟨[], tokenKind.KEYWORD, ⟨0, 0⟩⟩⟩, none, none, StatementKind.SelectStmtKind⟩]⟩) ∧
      (NewMemoryBackend.CreateTable
        ⟨⟨str "t", .IDENTIFIER, ⟨0, 13⟩⟩,
          some [⟨⟨str "a", .IDENTIFIER, ⟨0, 16⟩⟩, ⟨str "int", .KEYWORD, ⟨0, 18⟩⟩⟩]⟩).1.tables [] =
        none ∧
      (NewMemoryBackend.CreateTable
        ⟨⟨str "t", .IDENTIFIER, ⟨0, 13⟩⟩,
          some [⟨⟨str "a", .IDENTIFIER, ⟨0, 16⟩⟩, ⟨str "int", .KEYWORD, ⟨0, 18⟩⟩⟩]⟩).1.Select
          ⟨expressionsOf (tokensOf (str "select a, 1, 'x';")),
            ⟨[], tokenKind.KEYWORD, ⟨0, 0⟩⟩⟩ = .ok (.error .ErrTableDoesNotExist) ∧
      ∀ slct : SelectStatement, slct.from.value = [] →
        (NewMemoryBackend.CreateTable
          ⟨⟨str "t", .IDENTIFIER, ⟨0, 13⟩⟩,
            some [⟨⟨str "a", .IDENTIFIER, ⟨0, 16⟩⟩, ⟨str "int", .KEYWORD, ⟨0, 18⟩⟩⟩]⟩).1.Select
          slct = .ok (.error .ErrTableDoesNotExist)) :=
  have hlex : lex (str "select a, 1, 'x';") =
      .ok (.ok (tokensOf (str "select a, 1, 'x';"))) := by decide!
  have hform : selectWithoutFrom (tokensOf (str "select a, 1, 'x';")) = true := by decide!
  have hparse : parse (str "create table t (a int);") = .ok (.ok ⟨[tCreateStatement]⟩) := by
    decide!
  have hreach : ReachParsed (NewMemoryBackend.CreateTable
      ⟨⟨str "t", .IDENTIFIER, ⟨0, 13⟩⟩,
        some [⟨⟨str "a", .IDENTIFIER, ⟨0, 16⟩⟩, ⟨str "int", .KEYWORD, ⟨0, 18⟩⟩⟩]⟩).1 :=
    ReachParsed.step (str "create table t (a int);") ⟨[tCreateStatement]⟩ tCreateStatement
      (.created none) ReachParsed.fresh hparse (List.mem_singleton.2 rfl) rfl
  ⟨hlex, hform, by decide!, hreach, by decide!, by decide!,
    select_without_from (str "select a, 1, 'x';") (tokensOf (str "select a, 1, 'x';"))
      hlex hform _ hreach⟩

/-! ### Progress and termination -/

/-- The loop of `lex` takes at most one step per byte that remains: the tokens
it adds are at most as many as the bytes between the cursor and the end. -/
theorem lexLoop_steps (source : GoString) (fuel : Nat) (cur : cursor)
    (tokens out : List token) (hcur : cur.pointer ≤ source.length)
    (h : lexLoop source fuel cur tokens = .ok (.ok out)) :
    out.length + cur.pointer ≤ tokens.length + source.length := by
  induction fuel generalizing cur tokens with
  | zero =>
    unfold lexLoop at h
    split at h
    · cases h
    · simp only [Except.ok.injEq] at h
      subst h
      omega
  | succ fuel ih =>
    unfold lexLoop at h
    split at h
    · split at h
      · cases h
      · rename_i r hr
        obtain ⟨h1, h2⟩ := tryLexers_progress source cur r hr
        cases htok : r.tok with
        | none =>
          rw [htok] at h
          dsimp only at h
          have := ih r.cur _ h2 h
          omega
        | some t =>
          rw [htok] at h
          dsimp only at h
          have := ih r.cur _ h2 h
          simp only [List.length_append, List.length_singleton] at this
          omega
      · simp at h
    · simp only [Except.ok.injEq] at h
      subst h
      omega

/-- The statement loop of `parse` takes at most one step per token that
remains. -/
theorem parseLoop_steps (tokens : List token) (fuel cursor : Nat) (stmts : List Statement)
    (ast : Ast) (hcur : cursor ≤ tokens.length)
    (h : parseLoop tokens fuel cursor stmts = .ok (.ok ast)) :
    ast.Statements.length + cursor ≤ stmts.length + tokens.length := by
  induction fuel generalizing cursor stmts with
  | zero =>
    unfold parseLoop at h
    split at h
    · cases h
    · simp only [Except.ok.injEq] at h
      subst h
      show stmts.length + cursor ≤ stmts.length + tokens.length
      omega
  | succ fuel ih =>
    unfold parseLoop at h
    split at h
    · obtain ⟨r, hr, hrm⟩ := parseStatement_returns tokens cursor (tokenFromSymbol (str ";"))
      rw [hr] at h
      cases r with
      | notMatched c =>
        dsimp only at h
        split at h <;> simp at h
      | matched stmt newCursor =>
        have hc := hrm stmt newCursor rfl
        have hskip := skipSemicolons_spec tokens (tokens.drop newCursor) newCursor false rfl
        dsimp only at h
        split at h
        · split at h <;> simp at h
        · have hle : (skipSemicolons (tokens.drop newCursor) newCursor false).1 ≤
              tokens.length := by
            rcases Nat.eq_or_lt_of_le hskip.1 with h1 | h1
            · rw [← h1]; exact hc.2
            · exact (hskip.2.1 h1).1
          have := ih _ _ hle h
          have h1 := hskip.1
          simp only [List.length_append, List.length_singleton] at this
          omega
    · simp only [Except.ok.injEq] at h
      subst h
      show stmts.length + cursor ≤ stmts.length + tokens.length
      omega

/-- **C21.** Progress and termination.  For every source and every cursor with
the pointer inside the source, each of the five sub-lexers that succeeds
returns a cursor whose pointer is strictly greater than the one passed in and
at most the length of the source; hence the loop of `lex` returns whenever its
step bound covers the bytes that remain, `lex` returns on every source within
`len(source)` steps, and it emits at most `len(source)` tokens.  `parseStatement`,
when it succeeds, returns a cursor strictly greater than the initial one and
at most the number of tokens; hence the statement loop of `parse` returns
whenever its step bound covers the tokens that remain, `parse` returns on every
source, and the AST has at most as many statements as there are tokens. -/
theorem lex_parse_progress :
    (∀ (source : GoString) (ic : cursor) (r : LexOut), ic.pointer < source.length →
      (lexKeyword source ic = some r ∨ lexSymbol source ic = some r ∨
        lexString source ic = some r ∨ lexNumeric source ic = some r ∨
        lexIdentifier source ic = some r) →
      r.ok = true → ic.pointer < r.cur.pointer ∧ r.cur.pointer ≤ source.length) ∧
    (∀ (source : GoString) (fuel : Nat) (cur : cursor) (tokens : List token),
      source.length ≤ fuel + cur.pointer → ∃ r, lexLoop source fuel cur tokens = .ok r) ∧
    (∀ source : GoString, ∃ r, lex source = .ok r) ∧
    (∀ (source : GoString) (out : List token), lex source = .ok (.ok out) →
      out.length ≤ source.length) ∧
    (∀ (tokens : List token) (ic : Nat) (d : token) (stmt : Statement) (c1 : Nat),
      parseStatement tokens ic d = .ok (.matched stmt c1) → ic < c1 ∧ c1 ≤ tokens.length) ∧
    (∀ (tokens : List token) (fuel cursor : Nat) (stmts : List Statement),
      tokens.length ≤ fuel + cursor → ∃ r, parseLoop tokens fuel cursor stmts = .ok r) ∧
    (∀ source : GoString, ∃ r, parse source = .ok r) ∧
    (∀ (source : GoString) (ast : Ast), parse source = .ok (.ok ast) →
      ast.Statements.length ≤ (tokensOf source).length) := by
  refine ⟨?_, lexLoop_returns, lex_returns, ?_, ?_, parseLoop_returns, parse_returns, ?_⟩
  · intro source ic r _ h hok
    rcases h with h | h | h | h | h
    · exact lexKeyword_progress _ _ _ h hok
    · exact lexSymbol_progress _ _ _ h hok
    · exact lexCharacterDelimited_progress _ _ _ _ h hok
    · exact lexNumeric_progress _ _ _ h hok
    · exact lexIdentifier_progress _ _ _ h hok
  · intro source out h
    have := lexLoop_steps source source.length ⟨0, ⟨0, 0⟩⟩ [] out (Nat.zero_le _) h
    simpa using this
  · intro tokens ic d stmt c1 h
    obtain ⟨r, hr, hrm⟩ := parseStatement_returns tokens ic d
    rw [h] at hr
    simp only [Except.ok.injEq] at hr
    exact hrm stmt c1 hr.symm
  · intro source ast h
    unfold parse at h
    unfold tokensOf
    split at h
    · simp at h
    · simp at h
    · rename_i tokens hlex
      rw [hlex]
      have := parseLoop_steps tokens tokens.length 0 [] ast (Nat.zero_le _) h
      simpa using this

/-- C21, at the source `select a, 1e+5 from t;`: the keyword lexer at pointer 0
and the numeric lexer at pointer 10 succeed and move the pointer forward, and
`parseStatement` on the tokens moves the cursor from 0 to 6 of 7. -/
theorem lex_parse_progress_witness :
    lexKeyword (str "select a, 1e+5 from t;") ⟨0, ⟨0, 0⟩⟩ =
      some ⟨some ⟨str "select", tokenKind.KEYWORD, ⟨0, 0⟩⟩, ⟨6, ⟨0, 6⟩⟩, true⟩ ∧
    (0 < 6 ∧ 6 ≤ (str "select a, 1e+5 from t;").length) ∧
    (lexNumeric (str "select a, 1e+5 from t;") ⟨10, ⟨0, 10⟩⟩).map (fun r => (r.ok, r.cur.pointer)) =
      some (true, 14) ∧
    (tokensOf (str "select a, 1e+5 from t;")).length = 7 ∧
    (parseStatement (tokensOf (str "select a, 1e+5 from t;")) 0 (tok ";" .SYMBOL)).map
      (fun r => match r with
        | .matched _ c => some c
        | .notMatched _ => none) = .ok (some 6) ∧
    (astOf (str "select a, 1e+5 from t;")).Statements.length = 1 :=
  ⟨by decide!,
    lex_parse_progress.1 (str "select a, 1e+5 from t;") ⟨0, ⟨0, 0⟩⟩
      ⟨some ⟨str "select", tokenKind.KEYWORD, ⟨0, 0⟩⟩, ⟨6, ⟨0, 6⟩⟩, true⟩ (by decide)
      (Or.inl (by decide!)) rfl,
    by decide!, by decide!, by decide!, by decide!⟩

/-! ### Row width in reachable catalogs -/

theorem insertRow_length (values : List expression) (acc row : List MemoryCell)
    (hlit : ∀ v ∈ values, v.kind = literalKind) (h : insertRow values acc = .ok row) :
    row.length = acc.length + values.length := by
  induction values generalizing acc with
  | nil =>
    simp only [insertRow, Except.ok.injEq] at h
    subst h
    simp
  | cons v rest ih =>
    unfold insertRow at h
    rw [if_neg (by simp [hlit v (List.mem_cons_self _ _)])] at h
    split at h
    · cases h
    · have := ih _ (fun x hx => hlit x (List.mem_cons_of_mem _ hx)) h
      simp only [List.length_append, List.length_singleton, List.length_cons,
        List.length_nil] at this ⊢
      omega

/-- `Insert` of literal values keeps the width of the rows and touches no
column list. -/
theorem Insert_row_width (mb mb1 : MemoryBackend) (inst : InsertStatement)
    (e : Option BackendError) (hlit : literalValues inst)
    (h : mb.Insert inst = .ok (mb1, e)) (name : GoString) (tbl1 : table)
    (ht1 : mb1.tables name = some tbl1)
    (hinv : ∀ tbl, mb.tables name = some tbl → ∀ row ∈ tbl.rows,
      row.length = tbl.columns.length) :
    (∃ tbl, mb.tables name = some tbl ∧ tbl1.columns = tbl.columns ∧
      tbl1.columnTypes = tbl.columnTypes) ∧
    ∀ row ∈ tbl1.rows, row.length = tbl1.columns.length := by
  unfold MemoryBackend.Insert at h
  split at h
  · simp only [Except.ok.injEq, Prod.mk.injEq] at h
    rw [← h.1] at ht1
    exact ⟨⟨tbl1, ht1, rfl, rfl⟩, hinv tbl1 ht1⟩
  · rename_i tbl htbl
    split at h
    · simp only [Except.ok.injEq, Prod.mk.injEq] at h
      rw [← h.1] at ht1
      exact ⟨⟨tbl1, ht1, rfl, rfl⟩, hinv tbl1 ht1⟩
    · rename_i values hvalues
      split at h
      · simp only [Except.ok.injEq, Prod.mk.injEq] at h
        rw [← h.1] at ht1
        exact ⟨⟨tbl1, ht1, rfl, rfl⟩, hinv tbl1 ht1⟩
      · rename_i hlen
        split at h
        · cases h
        · rename_i row hrow
          simp only [Except.ok.injEq, Prod.mk.injEq] at h
          rw [← h.1] at ht1
          by_cases hn : name = inst.table.value
          · subst hn
            simp only [MemoryBackend.set, if_true, Option.some.injEq] at ht1
            subst ht1
            refine ⟨⟨tbl, htbl, rfl, rfl⟩, ?_⟩
            intro r hr
            rcases List.mem_append.1 hr with hr | hr
            · exact hinv tbl htbl r hr
            · rw [List.mem_singleton] at hr
              subst hr
              have := insertRow_length values [] r (hlit values hvalues) hrow
              simp only [List.length_nil, Nat.zero_add] at this
              show r.length = tbl.columns.length
              simp only [ne_eq, Decidable.not_not] at hlen
              omega
          · simp only [MemoryBackend.set, hn, if_false] at ht1
            exact ⟨⟨tbl1, ht1, rfl, rfl⟩, hinv tbl1 ht1⟩

/-- **C22 (amended).** In every backend state reachable from a fresh backend by
`CreateTable`, `Insert` and `Select` calls on statements with non-nil column
and value lists, where every value of every insert statement has the literal
expression kind, and whatever the calls return: every row of every table has
exactly as many cells as the table has column names; the number of column
types equals the number of column names or is one less; and it is one less
exactly for a table whose latest `CreateTable` returned `invalid datatype`. -/
theorem row_width_invariant (mb : MemoryBackend) (failed : GoString → Bool)
    (h : ReachCalls literalValues mb failed) (name : GoString) (tbl : table)
    (ht : mb.tables name = some tbl) :
    (∀ row ∈ tbl.rows, row.length = tbl.columns.length) ∧
    (tbl.columnTypes.length = tbl.columns.length ∨
      tbl.columnTypes.length + 1 = tbl.columns.length) ∧
    (tbl.columnTypes.length + 1 = tbl.columns.length ↔ failed name = true) := by
  have key : (∀ row ∈ tbl.rows, row.length = tbl.columns.length) ∧
      (failed name = false → tbl.columnTypes.length = tbl.columns.length) ∧
      (failed name = true → tbl.columnTypes.length + 1 = tbl.columns.length) := by
    induction h generalizing name tbl with
    | fresh => cases ht
    | @create mb0 failed0 crt cols _ hcols ih =>
      by_cases hn : name = crt.name.value
      · subst hn
        simp only [MemoryBackend.CreateTable, hcols, MemoryBackend.set, if_true,
          Option.some.injEq] at ht ⊢
        subst ht
        obtain ⟨h1, h2, h3⟩ := createColumns_shape cols ⟨[], [], []⟩
        refine ⟨by rw [h1]; simp, ?_, ?_⟩
        · intro hf
          simp only [decide_eq_false_iff_not] at hf
          rcases createColumns_none_or_error cols ⟨[], [], []⟩ with hr | hr
          · have := h2 hr
            simp only [List.length_nil, Nat.add_zero] at this
            exact this
          · exact absurd hr hf
        · intro hf
          simp only [decide_eq_true_eq] at hf
          have := h3 (by rw [hf]; simp)
          simp only [List.length_nil, Nat.add_zero] at this
          exact this
      · have hsame : (mb0.CreateTable crt).1.tables name = mb0.tables name := by
          simp [MemoryBackend.CreateTable, hcols, MemoryBackend.set, hn]
        rw [hsame] at ht
        simp only [hn, if_false]
        exact ih name tbl ht
    | insert inst values e _ hvalues hallowed hins ih =>
      obtain ⟨⟨tbl0, ht0, hc, hty⟩, hrows⟩ := Insert_row_width _ _ inst e hallowed hins
        name tbl ht (fun t ht0 => (ih name t ht0).1)
      rw [hc, hty]
      rw [hc] at hrows
      exact ⟨hrows, (ih name tbl0 ht0).2⟩
    | select slct r _ _ ih => exact ih name tbl ht
  obtain ⟨k1, k2, k3⟩ := key
  refine ⟨k1, ?_, ?_, k3⟩
  · cases hf : failed name
    · exact Or.inl (k2 hf)
    · exact Or.inr (k3 hf)
  · intro hlen
    cases hf : failed name
    · have := k2 hf
      omega
    · rfl

/-- C22 (amended), at the calls `create table t (a int)`, `insert into t values
(7)`, `create table u (b from)`: the last call returns `invalid datatype` and
leaves `u` with one column name and no column type; `t` has one row of one
cell, one column name and one column type. -/
theorem row_width_invariant_witness :
    (NewMemoryBackend.CreateTable tIntCreate).2 = none ∧
    (NewMemoryBackend.CreateTable tIntCreate).1.Insert tInsertSeven = .ok (tOneRow, none) ∧
    (tOneRow.CreateTable uFromCreate).2 = some .ErrInvalidDatatype ∧
    (tOneRow.CreateTable uFromCreate).1.tables (str "t") =
      some ⟨[str "a"], [.IntType], [[[0, 0, 0, 0, 0, 0, 0, 7]]]⟩ ∧
    (tOneRow.CreateTable uFromCreate).1.tables (str "u") = some ⟨[str "b"], [], []⟩ ∧
    ∃ failed, ReachCalls literalValues (tOneRow.CreateTable uFromCreate).1 failed ∧
      failed (str "t") = false ∧ failed (str "u") = true ∧
      ((∀ row ∈ ([[[0, 0, 0, 0, 0, 0, 0, 7]]] : List (List MemoryCell)), row.length = [str "a"].length) ∧
        ([ColumnType.IntType].length = [str "a"].length ∨
          [ColumnType.IntType].length + 1 = [str "a"].length) ∧
        ([ColumnType.IntType].length + 1 = [str "a"].length ↔ failed (str "t") = true)) ∧
      ((∀ row ∈ ([] : List (List MemoryCell)), row.length = [str "b"].length) ∧
        (([] : List ColumnType).length = [str "b"].length ∨
          ([] : List ColumnType).length + 1 = [str "b"].length) ∧
        (([] : List ColumnType).length + 1 = [str "b"].length ↔ failed (str "u") = true)) :=
  have hins : (NewMemoryBackend.CreateTable tIntCreate).1.Insert tInsertSeven =
      .ok (tOneRow, none) := rfl
  have hlit : literalValues tInsertSeven := by
    intro values hv v hm
    cases hv
    simp only [List.mem_singleton] at hm
    rw [hm]
  have hreach := ReachCalls.create uFromCreate _
    (ReachCalls.insert tInsertSeven _ none
      (ReachCalls.create tIntCreate _ (@ReachCalls.fresh literalValues) rfl)
      rfl hlit hins) rfl
  have ht : (tOneRow.CreateTable uFromCreate).1.tables (str "t") =
      some ⟨[str "a"], [.IntType], [[[0, 0, 0, 0, 0, 0, 0, 7]]]⟩ := by decide!
  have hu : (tOneRow.CreateTable uFromCreate).1.tables (str "u") =
      some ⟨[str "b"], [], []⟩ := by decide!
  ⟨by decide!, hins, by decide!, ht, hu, _, hreach, by decide!, by decide!,
    row_width_invariant _ _ hreach (str "t") _ ht,
    row_width_invariant _ _ hreach (str "u") _ hu⟩

/-- C22 as stated fails: `expressionKind` is an unsigned integer of which
`literalKind` is the value 0, and `Insert` skips a value of any other kind
after it has compared the number of values with the number of columns.  After
`create table t (a int)`, the insert into `t` of one value of kind 1 returns
no error and leaves `t` with one column name and a row without cells. -/
theorem insert_nonliteral_short_row :
    (NewMemoryBackend.CreateTable tIntCreate).2 = none ∧
    tInsertNonLiteral.values ≠ none ∧
    (NewMemoryBackend.CreateTable tIntCreate).1.Insert tInsertNonLiteral =
      .ok (tShortRow, none) ∧
    (∃ failed, ReachCalls (fun _ => True) tShortRow failed) ∧
    tShortRow.tables (str "t") = some ⟨[str "a"], [.IntType], [[]]⟩ ∧
    ¬ (∀ name tbl, tShortRow.tables name = some tbl →
      ∀ row ∈ tbl.rows, row.length = tbl.columns.length) := by
  have hins : (NewMemoryBackend.CreateTable tIntCreate).1.Insert tInsertNonLiteral =
      .ok (tShortRow, none) := rfl
  have ht : tShortRow.tables (str "t") = some ⟨[str "a"], [.IntType], [[]]⟩ := by decide!
  refine ⟨by decide!, by decide, hins, ⟨_, ReachCalls.insert tInsertNonLiteral _ none
    (ReachCalls.create tIntCreate _ ReachCalls.fresh rfl) rfl trivial hins⟩, ht, ?_⟩
  intro hall
  have := hall (str "t") _ ht [] (by simp)
  simp at this

/-! ### Insert followed by select -/

/-- **C1 (amended).** In every backend state in which table `t` was created by
a successful `CreateTable` with distinct column names (and not re-created
since) and in which every row of `t` has one cell per column, an insert that
supplies one fitting literal per column succeeds with a new row whose cells
decode, by the column type, to the inserted values; a select listing all
columns of `t` in declaration order returns the rows of `t` before the insert,
and after the insert it returns those rows followed by exactly the new row. -/
theorem insert_select_roundtrip (mb0 mb : MemoryBackend) (crt : CreateStatement)
    (values items : List expression) (tableTok fromTok : token)
    (hcreate : (mb0.CreateTable crt).2 = none)
    (hreach : Reach crt.name.value (mb0.CreateTable crt).1 mb)
    (hdistinct : ((crt.cols.getD []).map (fun c => c.name.value)).Nodup)
    (htable : tableTok.value = crt.name.value) (hfrom : fromTok.value = crt.name.value)
    (hvalues : List.Forall₂ valueFits (crt.cols.getD []) values)
    (hitems : List.Forall₂ itemNames (crt.cols.getD []) items)
    (hwidth : ∀ tbl, mb.tables crt.name.value = some tbl →
      ∀ r ∈ tbl.rows, r.length = tbl.columns.length) :
    ∃ mb2 row tbl, mb.tables crt.name.value = some tbl ∧
      mb.Insert ⟨tableTok, some values⟩ = .ok (mb2, none) ∧
      List.Forall₂ cellDecodes ((crt.cols.getD []).zip values) row ∧
      mb.Select ⟨items, fromTok⟩ =
        .ok (.ok ⟨if tbl.rows = [] then [] else items.map (selectedHeader tbl), tbl.rows⟩) ∧
      mb2.Select ⟨items, fromTok⟩ =
        .ok (.ok ⟨items.map (selectedHeader tbl), tbl.rows ++ [row]⟩) := by
  obtain ⟨tbl, row, ht, hins, hlen, hdec, _, hbefore⟩ :=
    insert_select_core mb0 mb crt values items tableTok fromTok hcreate hreach hdistinct
      htable hfrom hvalues hitems
  obtain ⟨tbl2, _, ht2, _, _, _, _, hbefore2⟩ :=
    insert_select_core mb0 _ crt values items tableTok fromTok hcreate
      (Reach.insert ⟨tableTok, some values⟩ none hreach hins) hdistinct
      htable hfrom hvalues hitems
  simp only [MemoryBackend.set, if_true, Option.some.injEq] at ht2
  subst ht2
  have hw2 : ∀ r ∈ tbl.rows ++ [row], r.length = tbl.columns.length := by
    intro r hr
    rcases List.mem_append.1 hr with hr | hr
    · exact hwidth tbl ht r hr
    · rw [List.mem_singleton] at hr
      rw [hr]
      exact hlen
  have hafter := hbefore2 hw2
  simp only [List.append_eq_nil, List.cons_ne_self, and_false, if_false] at hafter
  exact ⟨_, row, tbl, ht, hins, hdec, hbefore (hwidth tbl ht), hafter⟩

/-- C1 (amended), at the catalog after `CREATE TABLE users (id int, name text);
INSERT INTO users VALUES (1, 'alice');` and the insert of `(2, 'bob')`: the
select of `id, name` returns the row of alice before the insert and the rows of
alice and bob after it.  The three statements of the claim, and the four with
the second insert, are also run from their source on a fresh backend. -/
theorem insert_select_roundtrip_witness :
    runResults (str "CREATE TABLE users (id int, name text); INSERT INTO users VALUES (1, 'alice'); SELECT id, name FROM users;") =
      some (.ok [.created none, .inserted none,
        .selected (.ok ⟨[⟨.IntType, str "id"⟩, ⟨.TextType, str "name"⟩],
          [[[0, 0, 0, 0, 0, 0, 0, 1], str "alice"]]⟩)]) ∧
    runResults (str "CREATE TABLE users (id int, name text); INSERT INTO users VALUES (1, 'alice'); INSERT INTO users VALUES (2, 'bob'); SELECT id, name FROM users;") =
      some (.ok [.created none, .inserted none, .inserted none,
        .selected (.ok ⟨[⟨.IntType, str "id"⟩, ⟨.TextType, str "name"⟩],
          [[[0, 0, 0, 0, 0, 0, 0, 1], str "alice"], [[0, 0, 0, 0, 0, 0, 0, 2], str "bob"]]⟩)]) ∧
    MemoryCell.AsInt [0, 0, 0, 0, 0, 0, 0, 1] = .ok 1 ∧
    (NewMemoryBackend.CreateTable usersCreate).1.Insert
      ⟨tok "users" .IDENTIFIER, some usersValues⟩ = .ok (usersOneRow, none) ∧
    usersOneRow.tables (str "users") =
      some ⟨[str "id", str "name"], [.IntType, .TextType],
        [[[0, 0, 0, 0, 0, 0, 0, 1], str "alice"]]⟩ ∧
    ∃ mb2 row tbl, usersOneRow.tables usersCreate.name.value = some tbl ∧
      usersOneRow.Insert ⟨tok "users" .IDENTIFIER, some usersValuesBob⟩ = .ok (mb2, none) ∧
      List.Forall₂ cellDecodes ((usersCreate.cols.getD []).zip usersValuesBob) row ∧
      usersOneRow.Select ⟨[ident "id", ident "name"], tok "users" .IDENTIFIER⟩ =
        .ok (.ok ⟨if tbl.rows = [] then []
          else [ident "id", ident "name"].map (selectedHeader tbl), tbl.rows⟩) ∧
      mb2.Select ⟨[ident "id", ident "name"], tok "users" .IDENTIFIER⟩ =
        .ok (.ok ⟨[ident "id", ident "name"].map (selectedHeader tbl), tbl.rows ++ [row]⟩) :=
  have hins : (NewMemoryBackend.CreateTable usersCreate).1.Insert
      ⟨tok "users" .IDENTIFIER, some usersValues⟩ = .ok (usersOneRow, none) := rfl
  have ht : usersOneRow.tables (str "users") =
      some ⟨[str "id", str "name"], [.IntType, .TextType],
        [[[0, 0, 0, 0, 0, 0, 0, 1], str "alice"]]⟩ := by decide!
  ⟨by decide!, by decide!, by decide!, hins, ht,
   insert_select_roundtrip NewMemoryBackend usersOneRow
      usersCreate usersValuesBob [ident "id", ident "name"]
      (tok "users" .IDENTIFIER) (tok "users" .IDENTIFIER)
      (by decide!) (Reach.insert _ none Reach.refl hins) (by decide) rfl rfl
      (List.Forall₂.cons ⟨rfl, Or.inl ⟨rfl, rfl, by decide, by decide, by decide⟩⟩
        (List.Forall₂.cons ⟨rfl, Or.inr ⟨rfl, rfl⟩⟩ List.Forall₂.nil))
      (List.Forall₂.cons ⟨rfl, rfl, rfl⟩
        (List.Forall₂.cons ⟨rfl, rfl, rfl⟩ List.Forall₂.nil))
      (fun tbl h r hr => by
        rw [show usersCreate.name.value = str "users" from rfl, ht] at h
        cases h
        simp only [List.mem_singleton] at hr
        rw [hr]
        rfl)⟩

/-- C1 as stated fails: after the successful `create table t (a int)`, the
insert into `t` of one value that is not of the literal kind leaves a row
without cells; in that state `insert into t values (7)` supplies one fitting
literal per column and succeeds, and the subsequent select of `a` reads the
first cell of the row without cells and panics. -/
theorem insert_after_short_row_panics :
    (NewMemoryBackend.CreateTable tIntCreate).2 = none ∧
    Reach tIntCreate.name.value (NewMemoryBackend.CreateTable tIntCreate).1 tShortRow ∧
    ((tIntCreate.cols.getD []).map (fun c => c.name.value)).Nodup ∧
    List.Forall₂ valueFits (tIntCreate.cols.getD []) (tInsertSeven.values.getD []) ∧
    List.Forall₂ itemNames (tIntCreate.cols.getD []) [ident "a"] ∧
    tShortRow.Insert tInsertSeven = .ok (tShortRowSeven, none) ∧
    tShortRowSeven.tables (str "t") =
      some ⟨[str "a"], [.IntType], [[], [[0, 0, 0, 0, 0, 0, 0, 7]]]⟩ ∧
    tShortRowSeven.Select ⟨[ident "a"], tok "t" .IDENTIFIER⟩ = .error .panic := by
  refine ⟨by decide!, Reach.insert tInsertNonLiteral none Reach.refl rfl, by decide,
    List.Forall₂.cons ⟨rfl, Or.inl ⟨rfl, rfl, by decide, by decide, by decide⟩⟩
      List.Forall₂.nil,
    List.Forall₂.cons ⟨rfl, rfl, rfl⟩ List.Forall₂.nil, rfl, by decide!, by decide!⟩

/-! ### Identifiers and keywords -/

theorem identifierLoop_take (rest : GoString) (cur : cursor) (value : GoString) :
    ∃ j, (identifierLoop rest cur value).2 = value ++ rest.take j := by
  induction rest generalizing cur value with
  | nil => exact ⟨0, by simp [identifierLoop]⟩
  | cons c rest1 ih =>
    unfold identifierLoop
    split
    · obtain ⟨j, hj⟩ := ih ⟨cur.pointer + 1, ⟨cur.loc.line, cur.loc.column + 1⟩⟩ (value ++ [c])
      exact ⟨j + 1, by rw [hj]; simp⟩
    · exact ⟨0, by simp⟩

/-- The value of an identifier token is a prefix of the lower-cased input that
remains at the cursor. -/
theorem lexIdentifier_value (source : GoString) (ic : cursor) (r : LexOut) (t : token)
    (h : lexIdentifier source ic = some r) (ht : r.tok = some t)
    (hk : t.kind = tokenKind.IDENTIFIER) :
    t.value <+: (source.drop ic.pointer).map lowerByte := by
  unfold lexIdentifier at h
  split at h
  · simp at h
  · rename_i r0 hr0
    split at h
    · simp only [Option.some.injEq] at h
      subst h
      rw [lexCharacterDelimited_kind _ _ _ _ _ hr0 ht] at hk
      cases hk
    · split at h
      · simp at h
      · rename_i c rest hdrop
        split at h
        · simp only [Option.some.injEq] at h
          subst h
          cases ht
        · dsimp only at h
          split at h
          · simp only [Option.some.injEq] at h
            subst h
            cases ht
          · simp only [Option.some.injEq] at h
            subst h
            simp only [Option.some.injEq] at ht
            subst ht
            obtain ⟨j, hj⟩ := identifierLoop_take rest
              ⟨ic.pointer + 1, ⟨ic.loc.line, ic.loc.column + 1⟩⟩ [c]
            show toLowerASCII _ <+: _
            rw [hj, hdrop]
            have : [c] ++ rest.take j = (c :: rest).take (j + 1) := by simp
            rw [this]
            exact (List.take_prefix _ _).map lowerByte

/-- The keyword lexer is tried first: a result of another sub-lexer is taken
only where the keyword lexer did not succeed. -/
theorem tryLexers_keyword_first (source : GoString) (cur : cursor) (r : LexOut)
    (h : tryLexers source cur [lexKeyword, lexSymbol, lexString, lexNumeric, lexIdentifier] =
      some (some r)) :
    lexKeyword source cur = some r ∨
      ∃ r0, lexKeyword source cur = some r0 ∧ r0.ok = false := by
  unfold tryLexers at h
  split at h
  · simp at h
  · rename_i r0 hr0
    split at h
    · simp only [Option.some.injEq] at h
      subst h
      exact Or.inl hr0
    · rename_i hok
      exact Or.inr ⟨r0, hr0, by simpa using hok⟩

/-- Where the keyword lexer does not succeed, no keyword is a prefix of the
lower-cased input that remains. -/
theorem lexKeyword_fails (source : GoString) (ic : cursor) (r0 : LexOut)
    (h : lexKeyword source ic = some r0) (hok : r0.ok = false) :
    ∀ k ∈ keywords, ¬ k <+: (source.drop ic.pointer).map lowerByte := by
  obtain ⟨m, hm, _, hmax⟩ := longestMatch_spec source ic keywords keywords_lowercaseASCII
  unfold lexKeyword at h
  rw [hm] at h
  dsimp only at h
  split at h
  · rename_i hnil
    intro k hk hp
    have := hmax k hk hp
    have hpos : 0 < k.length := List.length_pos.2 (keywords_lowercaseASCII k hk).1
    rw [hnil] at this
    simp only [List.length_nil] at this
    omega
  · simp only [Option.some.injEq] at h
    subst h
    cases hok

/-- No identifier token of `lex` is a keyword or begins with one. -/
theorem lex_identifier_not_keyword (source : GoString) (tokens : List token)
    (hlex : lex source = .ok (.ok tokens)) (t : token) (ht : t ∈ tokens)
    (hk : t.kind = tokenKind.IDENTIFIER) :
    t.value ∉ keywords ∧ ∀ k ∈ keywords, ¬ k <+: t.value := by
  have hall := lexLoop_all source
    (fun t => t.kind = tokenKind.IDENTIFIER → ∀ k ∈ keywords, ¬ k <+: t.value)
    (by
      intro cur r t h htok hkind
      have hid : lexIdentifier source cur = some r := by
        obtain ⟨_, h1 | h1 | h1 | h1 | h1⟩ := tryLexers_cases source cur r h
        · rw [lexKeyword_kind _ _ _ _ h1 htok] at hkind; cases hkind
        · rw [lexSymbol_kind _ _ _ _ h1 htok] at hkind; cases hkind
        · rw [lexCharacterDelimited_kind _ _ _ _ _ h1 htok] at hkind; cases hkind
        · rw [(lexNumeric_token _ _ _ _ h1 htok).1] at hkind; cases hkind
        · exact h1
      have hval := lexIdentifier_value source cur r t hid htok hkind
      rcases tryLexers_keyword_first source cur r h with h1 | ⟨r0, h1, hok⟩
      · rw [lexKeyword_kind _ _ _ _ h1 htok] at hkind; cases hkind
      · intro k hkw hp
        exact lexKeyword_fails source cur r0 h1 hok k hkw (hp.trans hval))
    source.length ⟨0, ⟨0, 0⟩⟩ [] tokens (by simp) hlex
  have hno := hall t ht hk
  exact ⟨fun hmem => hno t.value hmem (List.prefix_refl _), hno⟩

/-- **C10 (amended).** For every word made of an ASCII letter followed by
letters, digits, `$` or `_`, of which no keyword is (case-insensitively) a
prefix, `lex` succeeds and returns exactly one token, of kind identifier, whose
value is the word lowercased; and identifiers never collide with keywords: on
every source on which `lex` succeeds, no token of kind identifier has a value
that is one of the eleven keywords, or that begins with one. -/
theorem lex_identifier_word (w : GoString) (hw : isIdentifierWord w = true)
    (hk : ∀ k ∈ keywords, ¬ k <+: toLowerASCII w) :
    lex w = .ok (.ok [⟨toLowerASCII w, tokenKind.IDENTIFIER, ⟨0, 0⟩⟩]) ∧
    ∀ (source : GoString) (tokens : List token), lex source = .ok (.ok tokens) →
      ∀ t ∈ tokens, t.kind = tokenKind.IDENTIFIER →
        t.value ∉ keywords ∧ ∀ k ∈ keywords, ¬ k <+: t.value :=
  ⟨lex_single_identifier w hw hk, lex_identifier_not_keyword⟩

/-- C10 (amended), at the word `Users_2`, and the second part at the tokens of
`selection` and of `select intx from t;`, whose identifier tokens are `ion`,
`x` and `t`. -/
theorem lex_identifier_word_witness :
    isIdentifierWord (str "Users_2") = true ∧
    (∀ k ∈ keywords, ¬ k <+: toLowerASCII (str "Users_2")) ∧
    lex (str "selection") =
      .ok (.ok [⟨str "select", tokenKind.KEYWORD, ⟨0, 0⟩⟩,
                ⟨str "ion", tokenKind.IDENTIFIER, ⟨0, 6⟩⟩]) ∧
    (tokensOf (str "select intx from t;")).map (fun t => (t.value, t.kind)) =
      [(str "select", .KEYWORD), (str "int", .KEYWORD), (str "x", .IDENTIFIER),
        (str "from", .KEYWORD), (str "t", .IDENTIFIER), (str ";", .SYMBOL)] ∧
    (str "ion" ∉ keywords ∧ ∀ k ∈ keywords, ¬ k <+: str "ion") ∧
    lex (str "Users_2") = .ok (.ok [⟨str "users_2", tokenKind.IDENTIFIER, ⟨0, 0⟩⟩]) ∧
    ∀ (source : GoString) (tokens : List token), lex source = .ok (.ok tokens) →
      ∀ t ∈ tokens, t.kind = tokenKind.IDENTIFIER →
        t.value ∉ keywords ∧ ∀ k ∈ keywords, ¬ k <+: t.value :=
  have hsel : lex (str "selection") =
      .ok (.ok [⟨str "select", tokenKind.KEYWORD, ⟨0, 0⟩⟩,
                ⟨str "ion", tokenKind.IDENTIFIER, ⟨0, 6⟩⟩]) := by decide!
  ⟨by decide, by decide, hsel, by decide!,
   (lex_identifier_word (str "Users_2") (by decide) (by decide)).2 (str "selection") _ hsel
     ⟨str "ion", tokenKind.IDENTIFIER, ⟨0, 6⟩⟩ (by simp) rfl,
   lex_identifier_word (str "Users_2") (by decide) (by decide)⟩

/-! ### The matched numeric substring -/

/-- Where the loop of `lexNumeric` stops: at the end of the input, or at a byte
that is neither a digit, nor `.`, nor an exponent marker. -/
theorem numericLoop_stop (ic : cursor) (rest : GoString) (cur : cursor) (d e : Bool)
    (cur1 : cursor) (h : numericLoop ic rest cur d e = some cur1) :
    ∃ k, k ≤ rest.length ∧ cur1.pointer = cur.pointer + k ∧
      ∀ c, rest[k]? = some c → isDigitByte c = false ∧ c ≠ 46 ∧ c ≠ 101 ∧ c ≠ 69 := by
  generalize hn : rest.length = n
  induction n using Nat.strong_induction_on generalizing rest cur d e with
  | _ n ih =>
    cases rest with
    | nil =>
      simp only [numericLoop, Option.some.injEq] at h
      subst h
      exact ⟨0, by simp, by simp, by simp⟩
    | cons c t =>
      simp only [List.length_cons] at hn
      subst hn
      have step : ∀ (col : Nat) (d1 e1 : Bool),
          numericLoop ic t ⟨cur.pointer + 1, ⟨cur.loc.line, col⟩⟩ d1 e1 = some cur1 →
          ∃ k, k ≤ (c :: t).length ∧ cur1.pointer = cur.pointer + k ∧
            ∀ x, (c :: t)[k]? = some x →
              isDigitByte x = false ∧ x ≠ 46 ∧ x ≠ 101 ∧ x ≠ 69 := by
        intro col d1 e1 h1
        obtain ⟨k, hk, hp, hstop⟩ := ih t.length (by omega) t _ d1 e1 h1 rfl
        dsimp only at hp
        exact ⟨k + 1, by simp only [List.length_cons]; omega, by omega, by simpa using hstop⟩
      unfold numericLoop at h
      dsimp only at h
      split at h
      · split at h
        · cases h
        · exact step _ _ _ h
      · split at h
        · split at h
          · cases h
          · exact step _ _ _ h
        · rename_i hdot
          split at h
          · split at h
            · cases h
            · split at h
              · cases h
              · rename_i cNext t1
                split at h
                · obtain ⟨k, hk, hp, hstop⟩ :=
                    ih t1.length (by simp only [List.length_cons]; omega) t1 _ _ _ h rfl
                  dsimp only at hp
                  exact ⟨k + 2, by simp only [List.length_cons]; omega, by omega,
                    by simpa using hstop⟩
                · exact step _ _ _ h
          · rename_i hexp
            split at h
            · rename_i hdig
              simp only [Option.some.injEq] at h
              subst h
              refine ⟨0, by simp, by simp, ?_⟩
              intro x hx
              simp only [List.getElem?_cons_zero, Option.some.injEq] at hx
              subst hx
              simp only [Bool.or_eq_true, decide_eq_true_eq, not_or] at hexp
              simp only [decide_eq_true_eq] at hdot
              exact ⟨by simpa using hdig, hdot, hexp.1, hexp.2⟩
            · exact step _ _ _ h

/-- The value of a numeric token is the whole match: the byte after it, if
there is one, is neither a digit, nor `.`, nor an exponent marker. -/
theorem lexNumeric_stop (source : GoString) (ic : cursor) (r : LexOut) (t : token)
    (h : lexNumeric source ic = some r) (ht : r.tok = some t) :
    t.loc = ic.loc ∧ ic.pointer + t.value.length ≤ source.length ∧
    ∀ c, source[ic.pointer + t.value.length]? = some c →
      isDigitByte c = false ∧ c ≠ 46 ∧ c ≠ 101 ∧ c ≠ 69 := by
  obtain ⟨_, _, hval, hptr⟩ := lexNumeric_token source ic r t h ht
  unfold lexNumeric at h
  split at h
  · simp only [Option.some.injEq] at h
    subst h
    cases ht
  · rename_i cur1 hloop
    split at h
    · simp only [Option.some.injEq] at h
      subst h
      cases ht
    · simp only [Option.some.injEq] at h
      subst h
      simp only [Option.some.injEq] at ht
      subst ht
      obtain ⟨k, hk, hp, hstop⟩ := numericLoop_stop ic _ ic false false cur1 hloop
      dsimp only at hptr
      have hkl : k = ((source.drop ic.pointer).take (cur1.pointer - ic.pointer)).length := by
        omega
      simp only [List.length_drop] at hk
      refine ⟨rfl, by rw [← hkl]; omega, ?_⟩
      intro c hc
      rw [← hkl] at hc
      exact hstop c (by rw [List.getElem?_drop]; exact hc)

theorem split_at_match (source : GoString) (p n : Nat) :
    source = source.take p ++ (source.drop p).take n ++ source.drop (p + n) := by
  rw [List.append_assoc, ← List.drop_drop, List.take_append_drop,
    List.take_append_drop]

/-- **C13.** For every source on which `lex` succeeds, every token of kind
numeric has a value that is the matched substring of the source: `lexNumeric`
emitted the token at a cursor inside the source, the value is the bytes of the
source from that cursor up to the cursor at which lexing goes on, and the byte
after the value, if there is one, is neither a digit, nor `.`, nor an exponent
marker.  The value begins with a digit or `.`, contains at most one `.` and at
most one exponent marker `e`/`E`, and has a sign `+`/`-` only directly after
the exponent marker. -/
theorem lex_numeric_shape (source : GoString) (tokens : List token)
    (hlex : lex source = .ok (.ok tokens)) (t : token) (ht : t ∈ tokens)
    (hk : t.kind = tokenKind.NUMERIC) :
    (∃ (ic : cursor) (r : LexOut),
      tryLexers source ic [lexKeyword, lexSymbol, lexString, lexNumeric, lexIdentifier] =
        some (some r) ∧
      lexNumeric source ic = some r ∧ r.tok = some t ∧ t.loc = ic.loc ∧
      r.cur.pointer = ic.pointer + t.value.length ∧
      ic.pointer + t.value.length ≤ source.length ∧
      t.value = (source.drop ic.pointer).take t.value.length ∧
      source = source.take ic.pointer ++ t.value ++ source.drop (ic.pointer + t.value.length) ∧
      ∀ c, source[ic.pointer + t.value.length]? = some c →
        isDigitByte c = false ∧ c ≠ 46 ∧ c ≠ 101 ∧ c ≠ 69) ∧
    t.value <:+: source ∧
    (∃ c rest, t.value = c :: rest ∧ (isDigitByte c = true ∨ c = 46)) ∧
    t.value.count 46 ≤ 1 ∧
    t.value.count 101 + t.value.count 69 ≤ 1 ∧
    ∀ pre s post, t.value = pre ++ s :: post → (s = 43 ∨ s = 45) →
      ∃ pre1 m, pre = pre1 ++ [m] ∧ (m = 101 ∨ m = 69) := by
  have hall := lexLoop_all source
    (fun t => t.kind = tokenKind.NUMERIC →
      (∃ (ic : cursor) (r : LexOut),
        tryLexers source ic [lexKeyword, lexSymbol, lexString, lexNumeric, lexIdentifier] =
          some (some r) ∧
        lexNumeric source ic = some r ∧ r.tok = some t ∧ t.loc = ic.loc ∧
        r.cur.pointer = ic.pointer + t.value.length ∧
        ic.pointer + t.value.length ≤ source.length ∧
        t.value = (source.drop ic.pointer).take t.value.length ∧
        source =
          source.take ic.pointer ++ t.value ++ source.drop (ic.pointer + t.value.length) ∧
        ∀ c, source[ic.pointer + t.value.length]? = some c →
          isDigitByte c = false ∧ c ≠ 46 ∧ c ≠ 101 ∧ c ≠ 69) ∧
      t.value <:+: source ∧ numericShape t.value)
    (fun cur r t hr htk hkind => by
      have hnum := emitted_numeric source cur r t hr htk hkind
      obtain ⟨_, hshape, hval, hptr⟩ := lexNumeric_token source cur r t hnum htk
      obtain ⟨hloc, hle, hstop⟩ := lexNumeric_stop source cur r t hnum htk
      have hsplit : source =
          source.take cur.pointer ++ t.value ++ source.drop (cur.pointer + t.value.length) := by
        have := split_at_match source cur.pointer t.value.length
        rw [← hval] at this
        exact this
      refine ⟨⟨cur, r, hr, hnum, htk, hloc, hptr, hle, hval, hsplit, hstop⟩, ?_, hshape⟩
      exact ⟨source.take cur.pointer, source.drop (cur.pointer + t.value.length),
        hsplit.symm⟩)
    source.length ⟨0, ⟨0, 0⟩⟩ [] tokens (by simp) hlex t ht hk
  exact ⟨hall.1, hall.2.1, hall.2.2⟩

/-- C13, at `1e+10` and `.5`, each of which lexes to a single numeric token,
while `lex` fails on `1..2` and on `1e`; and at the numeric token `12.5` of the
source `x 12.5;`, which is the bytes 2 to 5 of the source and is followed by
`;`. -/
theorem lex_numeric_shape_witness :
    lex (str "1e+10") = .ok (.ok [⟨str "1e+10", tokenKind.NUMERIC, ⟨0, 0⟩⟩]) ∧
    lex (str ".5") = .ok (.ok [⟨str ".5", tokenKind.NUMERIC, ⟨0, 0⟩⟩]) ∧
    lex (str "1..2") = .ok (.error ⟨[], 0, 0⟩) ∧
    lex (str "1e") = .ok (.error ⟨[], 0, 0⟩) ∧
    lex (str "x 12.5;") =
      .ok (.ok [⟨str "x", tokenKind.IDENTIFIER, ⟨0, 0⟩⟩, ⟨str "12.5", tokenKind.NUMERIC, ⟨0, 2⟩⟩,
        ⟨str ";", tokenKind.SYMBOL, ⟨0, 7⟩⟩]) ∧
    (str "x 12.5;").take 2 ++ str "12.5" ++ (str "x 12.5;").drop (2 + 4) = str "x 12.5;" ∧
    ((∃ (ic : cursor) (r : LexOut),
      tryLexers (str "x 12.5;") ic
        [lexKeyword, lexSymbol, lexString, lexNumeric, lexIdentifier] = some (some r) ∧
      lexNumeric (str "x 12.5;") ic = some r ∧
      r.tok = some ⟨str "12.5", tokenKind.NUMERIC, ⟨0, 2⟩⟩ ∧
      (⟨0, 2⟩ : location) = ic.loc ∧
      r.cur.pointer = ic.pointer + (str "12.5").length ∧
      ic.pointer + (str "12.5").length ≤ (str "x 12.5;").length ∧
      str "12.5" = ((str "x 12.5;").drop ic.pointer).take (str "12.5").length ∧
      str "x 12.5;" = (str "x 12.5;").take ic.pointer ++ str "12.5" ++
        (str "x 12.5;").drop (ic.pointer + (str "12.5").length) ∧
      ∀ c, (str "x 12.5;")[ic.pointer + (str "12.5").length]? = some c →
        isDigitByte c = false ∧ c ≠ 46 ∧ c ≠ 101 ∧ c ≠ 69) ∧
    str "12.5" <:+: str "x 12.5;" ∧
    (∃ c rest, str "12.5" = c :: rest ∧ (isDigitByte c = true ∨ c = 46)) ∧
    (str "12.5").count 46 ≤ 1 ∧
    (str "12.5").count 101 + (str "12.5").count 69 ≤ 1 ∧
    ∀ pre s post, str "12.5" = pre ++ s :: post → (s = 43 ∨ s = 45) →
      ∃ pre1 m, pre = pre1 ++ [m] ∧ (m = 101 ∨ m = 69)) :=
  ⟨by decide!, by decide!, by decide!, by decide!, by decide!, by decide!,
   lex_numeric_shape (str "x 12.5;")
     [⟨str "x", tokenKind.IDENTIFIER, ⟨0, 0⟩⟩, ⟨str "12.5", tokenKind.NUMERIC, ⟨0, 2⟩⟩,
        ⟨str ";", tokenKind.SYMBOL, ⟨0, 7⟩⟩] (by decide!)
     ⟨str "12.5", tokenKind.NUMERIC, ⟨0, 2⟩⟩ (by simp) rfl⟩

/-! ### Select without a from clause: keyword-prefixed items -/

/-- C18 as stated fails: `select selection;` and `select id, created_at;` have
the form `select <expr_list>;`, but `selection` lexes to the keyword `select`
and the identifier `ion`, and `created_at` to the keyword `create` and the
identifier `d_at`; the expression list stops at the keyword token and `parse`
returns `expected statement`. -/
theorem select_keyword_prefixed_item_fails :
    (tokensOf (str "select selection;")).map (fun t => (t.value, t.kind)) =
      [(str "select", .KEYWORD), (str "select", .KEYWORD), (str "ion", .IDENTIFIER),
        (str ";", .SYMBOL)] ∧
    parse (str "select selection;") = .ok (.error .expectedStatement) ∧
    (tokensOf (str "select id, created_at;")).map (fun t => (t.value, t.kind)) =
      [(str "select", .KEYWORD), (str "id", .IDENTIFIER), (str ",", .SYMBOL),
        (str "create", .KEYWORD), (str "d_at", .IDENTIFIER), (str ";", .SYMBOL)] ∧
    parse (str "select id, created_at;") = .ok (.error .expectedStatement) ∧
    selectWithoutFrom (tokensOf (str "select selection;")) = false ∧
    selectWithoutFrom (tokensOf (str "select id, created_at;")) = false := by
  refine ⟨by decide!, by decide!, by decide!, by decide!, by decide!, by decide!⟩

end Godb
